import Mathlib

/-!
# lmd snapshot importer (`importer.go`)

A shallow embedding of the restore pipeline of `importer.go`:
`initializePeersWithImport`, `importPeersFromDir`, `importPeersFromTar`,
`importPeerFromTar` and `importTarFile`.

Conventions of the embedding.

* Go pointers to freshly allocated objects (`*Peer`, `*DataStore`, `*Table`,
  `*Column`) are values; the in-place update `p.data.Set(..)` on the peer that
  `p` points to is an update of the last element of the peer list, which is
  where `p` always points.
* A Go run-time panic (index out of range, nil dereference) is the outcome
  `Result.panic`; an ordinary return of `(value, err)` is `Result.ret value err`.
* A nil slice and an empty slice are both `[]`; a Go `map[string]T` is an
  association list with unique keys, written through `mapSet`.
* The arguments `localConfig`, `waitGroupPeers`, `waitGroupInit` and
  `shutdownChannel` are only handed on to `NewPeer` and `NewNodes`; they and
  the log calls are left out. The back reference `store.DataSet` of a store to
  its set is not represented.
* Everything that `importer.go` calls but that lives in other files of the
  program (the table registry `Objects.Tables`, `NewResultSet`, the
  `interface2...` decoders, `isOnline`, `InsertData`, `SetReferences`) and the
  library calls whose result depends on data outside the program
  (`os.Stat`, `os.Open`, `gzip.NewReader`, `tar.Reader.Next`) are parameters,
  collected in `Env` and `FileSystem`.
-/

set_option autoImplicit false

namespace Lmd

/-! ## Data model -/

/-- Untyped cell of a parsed table file (Go `interface{}`). -/
inductive Cell where
  | null
  | num (n : Int)
  | str (s : String)
  | strs (xs : List String)
  deriving DecidableEq, Inhabited

/-- Go `ResultSet`: rows of untyped cells. -/
abbrev ResultSet := List (List Cell)

/-- Decode kind of a column. -/
inductive DataType where
  | StringCol | IntCol | Int64Col | FloatCol | StringListCol
  deriving DecidableEq, Inhabited

/-- Go `Column`: the fields the importer depends on. -/
structure Column where
  Name : String
  DataType : DataType
  deriving DecidableEq, Inhabited

/-- Go `ColumnList`. -/
abbrev ColumnList := List Column

/-- Go `Table`; `Virtual` is `true` when the Go field `Virtual` is not nil. -/
structure Table where
  Name : String
  Columns : List Column
  Virtual : Bool
  deriving DecidableEq, Inhabited

/-- Modelled from the spec: `Table.GetColumn` is not in `importer.go`; a header
name is resolved against the table's column set by case-sensitive exact
match, and an unknown name gives nil. -/
def Table.GetColumn (t : Table) (name : String) : Option Column :=
  t.Columns.find? (fun c => c.Name == name)

/-- Go `Connection`. -/
structure Connection where
  Name : String
  ID : String
  Source : List String
  Section : String
  Flags : List String
  deriving DecidableEq, Inhabited

/-- Bit pattern standing for a Go `float64`. -/
abbrev Float64 := Nat

/-- Keys of `Peer.Status` written by the importer. -/
inductive PeerStatusKey where
  | PeerState | LastUpdate | LastError | LastOnline | Queries | ResponseTime
  deriving DecidableEq, Inhabited

/-- Dynamically typed value stored in `Peer.Status`. -/
inductive StatusValue where
  | peerStatus (s : Nat)
  | int64 (n : Int)
  | string (s : String)
  | float64 (f : Float64)
  deriving DecidableEq, Inhabited

/-- Go map assignment `m[k] = v` on an association list. -/
def mapSet {α : Type} (m : List (String × α)) (k : String) (v : α) : List (String × α) :=
  match m with
  | [] => [(k, v)]
  | (k', v') :: rest => if k' = k then (k, v) :: rest else (k', v') :: mapSet rest k v

/-- Go map lookup `m[k]` with the comma-ok result. -/
def mapGet {α : Type} (m : List (String × α)) (k : String) : Option α :=
  match m with
  | [] => none
  | (k', v') :: rest => if k' = k then some v' else mapGet rest k

/-- Go `DataStore`: the table, the owning peer's name and the stored rows with
their column binding. -/
structure DataStore where
  Table : Table
  PeerName : String
  Data : ResultSet
  Columns : ColumnList
  deriving DecidableEq, Inhabited

/-- Go `DataStoreSet`: table name to store. -/
structure DataStoreSet where
  tables : List (String × DataStore)
  deriving DecidableEq, Inhabited

/-- Go `Peer`; `data` is `none` while the Go field is nil. -/
structure Peer where
  Name : String
  ID : String
  Config : Connection
  Status : List (PeerStatusKey × StatusValue)
  data : Option DataStoreSet
  deriving DecidableEq, Inhabited

/-- Assignment `p.Status[k] = v`. -/
def statusSet (m : List (PeerStatusKey × StatusValue)) (k : PeerStatusKey) (v : StatusValue) :
    List (PeerStatusKey × StatusValue) :=
  match m with
  | [] => [(k, v)]
  | (k', v') :: rest => if k' = k then (k, v) :: rest else (k', v') :: statusSet rest k v

/-- Lookup `p.Status[k]`. -/
def statusGet (m : List (PeerStatusKey × StatusValue)) (k : PeerStatusKey) : Option StatusValue :=
  match m with
  | [] => none
  | (k', v') :: rest => if k' = k then some v' else statusGet rest k

/-- Modelled from the spec: `NewPeer` is not in `importer.go`; a fresh peer is
built from the connection, its identity being the connection's ID and display
name, with no status written yet and no DataStoreSet. -/
def NewPeer (con : Connection) : Peer :=
  { Name := con.Name, ID := con.ID, Config := con, Status := [], data := none }

/-- Modelled from the spec: `NewDataStoreSet` is not in `importer.go`; the set
is created fresh (empty) per peer. -/
def NewDataStoreSet (_p : Peer) : DataStoreSet := { tables := [] }

/-- Modelled from the spec: `NewDataStore` is not in `importer.go`; section 4.5
describes the insertion as "create (or reuse, if previously created this run)
the table's DataStore within the peer's DataStoreSet": the result is the store
already recorded for the table in the peer's set, or else a new empty store of
the table for the peer. -/
def NewDataStore (table : Table) (p : Peer) : DataStore :=
  match p.data with
  | none => { Table := table, PeerName := p.Name, Data := [], Columns := [] }
  | some d =>
    match mapGet d.tables table.Name with
    | some store => store
    | none => { Table := table, PeerName := p.Name, Data := [], Columns := [] }

/-- Modelled from the spec: `DataStoreSet.Set` is not in `importer.go`; the
store is recorded under the table's name. -/
def DataStoreSet.Set (d : DataStoreSet) (name : String) (store : DataStore) : DataStoreSet :=
  { tables := mapSet d.tables name store }

/-- Outcome of a Go call returning `(value, error)`, or a run-time panic. -/
inductive Result (α : Type) where
  | ret (val : α) (err : Option String)
  | panic
  deriving DecidableEq

/-- What `io.Copy` gets out of an `io.Reader`: the bytes delivered and the
non-EOF error that ended the copy, if any. -/
structure Reader where
  data : List Nat
  err : Option String
  deriving DecidableEq, Inhabited

/-- Go `tar.Header`: name, type flag and declared size. The tar reader rejects
negative sizes, so the size is a natural number; it is taken to be a size that
`make` can allocate (see `importTarFile`). -/
structure Header where
  Name : String
  Typeflag : Char
  Size : Nat
  deriving DecidableEq, Inhabited

/-- Constant `tar.TypeReg`. -/
def TypeReg : Char := '0'

/-- Constant `tar.TypeDir`. -/
def TypeDir : Char := '5'

/-- The parts of the program outside `importer.go` that the importer calls. -/
structure Env where
  /-- The registry `Objects.Tables`, in iteration order. -/
  Tables : List Table
  /-- Constant `TableSites`. -/
  TableSites : String
  /-- Library `strings.EqualFold`. -/
  EqualFold : String → String → Bool
  /-- Deserialization of a table file. -/
  NewResultSet : List Nat → Except String ResultSet
  interface2stringNoDedup : Cell → String
  interface2stringlist : Cell → List String
  interface2int : Cell → Int
  interface2int64 : Cell → Int
  interface2float64 : Cell → Float64
  /-- Conversion `PeerStatus(n)` of an `int`. -/
  PeerStatus : Int → Nat
  /-- Rendering of a cell by the verb `%s` of `fmt`. -/
  fmtS : Cell → String
  /-- Method `Peer.isOnline`. -/
  isOnline : Peer → Bool
  /-- Method `DataStore.InsertData(rows, columns, false)`. -/
  InsertData : DataStore → ResultSet → ColumnList → Except String DataStore
  /-- Method `DataStoreSet.SetReferences`. -/
  SetReferences : DataStoreSet → Except String DataStoreSet

/-! ## `importTarFile` -/

/-- Values of the named results `(table, rows, columns, err)` of `importTarFile`. -/
structure TarFileResult where
  table : Option Table
  rows : ResultSet
  columns : ColumnList
  err : Option String
  deriving DecidableEq

/-- Lines 173-177: the loop over `Objects.Tables`; every match overwrites
`table`, so the last match stays. -/
def findTable (env : Env) (tableName : String) : Option Table :=
  env.Tables.foldl (fun table t => if env.EqualFold t.Name tableName then some t else table) none

/-- Lines 204-211: the loop over the header row, appending to `columns`. -/
def bindColumns (env : Env) (table : Table) : List Cell → ColumnList → ColumnList × Option String
  | [], columns => (columns, none)
  | cell :: rest, columns =>
    match table.GetColumn (env.interface2stringNoDedup cell) with
    | none => (columns, some ("no column found by name: " ++ env.fmtS cell))
    | some col => bindColumns env table rest (columns ++ [col])

/-- Function `importTarFile` (lines 172-213). The allocation of the buffer at
line 182, `make([]byte, 0, size)`, is taken to succeed: a declared size beyond
what the runtime can allocate, for which `make` panics after the table is
resolved and before any byte is read, is not covered by this embedding. -/
def importTarFile (env : Env) (tableName : String) (tarReader : Reader) (size : Nat) :
    TarFileResult :=
  match findTable env tableName with
  | none => ⟨none, [], [], some ("no table found by name: " ++ tableName)⟩
  | some table =>
    let read := tarReader.data.length
    match tarReader.err with
    | some e => ⟨some table, [], [], some ("read error: " ++ e)⟩
    | none =>
      if read ≠ size then
        ⟨some table, [], [], some ("expected size " ++ toString size ++ " but got " ++ toString read)⟩
      else
        match env.NewResultSet tarReader.data with
        | .error e => ⟨some table, [], [], some ("parse error: " ++ e)⟩
        | .ok rows =>
          match rows with
          | [] => ⟨some table, [], [], some "missing column header"⟩
          | columnRow :: rows =>
            let (columns, err) := bindColumns env table columnRow []
            ⟨some table, rows, columns, err⟩

/-! ## `importPeerFromTar` -/

/-- Character class `[a-z]` of the pattern. -/
def isLowerAZ (c : Char) : Bool := decide ('a'.toNat ≤ c.toNat) && decide (c.toNat ≤ 'z'.toNat)

/-- The call `reImportFileTable.FindStringSubmatch(filename)` for the pattern
`/([a-z]+)\.json$`: the name must end in `.json`, preceded by a non-empty run
of letters `a`..`z`, preceded by a slash. Since neither the slash nor the dot
is a letter there is at most one match; the result is the matched text and the
group, or the nil slice when nothing matches. -/
def FindStringSubmatch (filename : String) : List String :=
  let cs := filename.toList
  let suffix := ".json".toList
  if cs.drop (cs.length - suffix.length) = suffix then
    let stem := (cs.take (cs.length - suffix.length)).reverse
    let letters := (stem.takeWhile isLowerAZ).reverse
    match stem.dropWhile isLowerAZ with
    | c :: _ =>
      if c = '/' ∧ letters ≠ [] then
        [String.mk ('/' :: letters ++ suffix), String.mk letters]
      else []
    | [] => []
  else []

/-- Lines 124-127: the map `colIndex`, column name to position; a later column
of the same name overwrites the position, and a name that is not a key reads
as the zero value 0. -/
def mkColIndex (columns : ColumnList) : String → Nat :=
  (columns.enum.foldl
    (fun (m : String → Nat) (ic : Nat × Column) => fun k => if k = ic.2.Name then ic.1 else m k)
    (fun _ => 0))

/-- Lines 138-155 on the single site row `rows[0]`: the connection, the new
peer, its six status fields and its fresh DataStoreSet. An index expression
`rows[0][colIndex[..]]` that is out of range panics, which is `none`. -/
def buildSitePeer (env : Env) (row : List Cell) (colIndex : String → Nat) : Option Peer := do
  let cName ← row[colIndex "peer_name"]?
  let cID ← row[colIndex "peer_key"]?
  let cAddr ← row[colIndex "addr"]?
  let cSection ← row[colIndex "section"]?
  let cFlags ← row[colIndex "flags"]?
  let con : Connection :=
    { Name := env.interface2stringNoDedup cName
      ID := env.interface2stringNoDedup cID
      Source := [env.interface2stringNoDedup cAddr]
      Section := env.interface2stringNoDedup cSection
      Flags := env.interface2stringlist cFlags }
  let p := NewPeer con
  let cStatus ← row[colIndex "status"]?
  let s1 := statusSet p.Status .PeerState (.peerStatus (env.PeerStatus (env.interface2int cStatus)))
  let cLastUpdate ← row[colIndex "last_update"]?
  let s2 := statusSet s1 .LastUpdate (.int64 (env.interface2int64 cLastUpdate))
  let cLastError ← row[colIndex "last_error"]?
  let s3 := statusSet s2 .LastError (.string (env.interface2stringNoDedup cLastError))
  let cLastOnline ← row[colIndex "last_online"]?
  let s4 := statusSet s3 .LastOnline (.int64 (env.interface2int64 cLastOnline))
  let cQueries ← row[colIndex "queries"]?
  let s5 := statusSet s4 .Queries (.int64 (env.interface2int64 cQueries))
  let cResponseTime ← row[colIndex "response_time"]?
  let s6 := statusSet s5 .ResponseTime (.float64 (env.interface2float64 cResponseTime))
  let p := { p with Status := s6 }
  pure { p with data := some (NewDataStoreSet p) }

/-- Lines 132-156: the block for the sites table. The result is the peer list
and the current peer `p` to continue with, or the early return. -/
def siteBlock (env : Env) (filename : String) (table : Table) (rows : ResultSet)
    (colIndex : String → Nat) (peers : List Peer) (p : Option Peer) :
    Except (Result (List Peer)) (List Peer × Option Peer) :=
  if table.Name = env.TableSites then
    match rows with
    | [row] =>
      match buildSitePeer env row colIndex with
      | none => .error .panic
      | some p => .ok (peers ++ [p], some p)
    | _ =>
      .error (.ret peers (some ("wrong number of site rows in " ++ filename ++
        ", expected 1 but got: " ++ toString rows.length)))
  else .ok (peers, p)

/-- Lines 157-169: the virtual-table return and the insertion into the current
peer `p`, which is the last element of `peers` whenever it is not nil. -/
def insertBlock (env : Env) (table : Table) (rows : ResultSet) (columns : ColumnList)
    (peers : List Peer) (p : Option Peer) : Result (List Peer) :=
  if table.Virtual then .ret peers none
  else
    match p with
    | none => .ret peers none
    | some p =>
      if env.isOnline p then
        let store := NewDataStore table p
        match env.InsertData store rows columns with
        | .error e => .ret peers (some ("failed to insert data: " ++ e))
        | .ok store =>
          match p.data with
          | none => .panic
          | some d => .ret (peers.dropLast ++ [{ p with data := some (d.Set table.Name store) }]) none
      else .ret peers none

/-- Function `importPeerFromTar` (lines 113-170). -/
def importPeerFromTar (env : Env) (peers : List Peer) (header : Header) (tarReader : Reader) :
    Result (List Peer) :=
  let filename := header.Name
  let submatches := FindStringSubmatch filename
  match submatches[1]? with
  | none => .panic
  | some tableName =>
    let r := importTarFile env tableName tarReader header.Size
    match r.err with
    | some err => .ret peers (some ("import error: " ++ err))
    | none =>
      match r.table with
      | none => .panic
      | some table =>
        let colIndex := mkColIndex r.columns
        let p := peers.getLast?
        match siteBlock env filename table r.rows colIndex peers p with
        | .error res => res
        | .ok (peers, p) => insertBlock env table r.rows r.columns peers p

/-! ## `importPeersFromTar`, `importPeersFromDir` -/

/-- The archive as the tar reader delivers it: the entries in order, each with
the reader positioned on its content, and the error of `Next()` that ends the
sequence when it is not `io.EOF`. -/
structure Archive where
  entries : List (Header × Reader)
  fault : Option String
  deriving DecidableEq, Inhabited

/-- Result of `os.Open` followed by `gzip.NewReader` on a path. -/
inductive OpenResult where
  | openError (e : String)
  | gzipError (e : String)
  | archive (a : Archive)
  deriving DecidableEq

/-- Lines 87-108: the loop over `tarReader.Next()`. -/
def tarLoop (env : Env) (tarFile : String) (fault : Option String) :
    List Peer → List (Header × Reader) → Result (List Peer)
  | peers, [] =>
    match fault with
    | none => .ret peers none
    | some e => .ret [] (some ("gzip/tarball error " ++ tarFile ++ ": " ++ e))
  | peers, (header, tarReader) :: rest =>
    if header.Typeflag = TypeDir then tarLoop env tarFile fault peers rest
    else if header.Typeflag = TypeReg then
      match importPeerFromTar env peers header tarReader with
      | .panic => .panic
      | .ret _ (some err) =>
        .ret [] (some ("gzip/tarball error " ++ tarFile ++ " in file " ++ header.Name ++ ": " ++ err))
      | .ret peers none => tarLoop env tarFile fault peers rest
    else
      .ret [] (some ("gzip/tarball error " ++ tarFile ++ ": unsupported type in file " ++
        header.Name ++ ": " ++ String.singleton header.Typeflag))

/-- Kind of the path reported by `stat.Mode()`. -/
inductive FileMode where
  | dir | regular | other
  deriving DecidableEq, Inhabited

/-- The file system as the importer sees it. -/
structure FileSystem where
  Stat : String → Except String FileMode
  Open : String → OpenResult

/-- Function `importPeersFromTar` (lines 72-111). -/
def importPeersFromTar (env : Env) (fs : FileSystem) (tarFile : String) : Result (List Peer) :=
  match fs.Open tarFile with
  | .openError e => .ret [] (some ("cannot read " ++ tarFile ++ ": " ++ e))
  | .gzipError e => .ret [] (some ("gzip error " ++ tarFile ++ ": " ++ e))
  | .archive a => tarLoop env tarFile a.fault [] a.entries

/-- Function `importPeersFromDir` (lines 67-70): the named results are
returned as they are, a nil peer list and a nil error. -/
def importPeersFromDir (_env : Env) (_fs : FileSystem) (_folder : String) : Result (List Peer) :=
  .ret [] none

/-! ## `initializePeersWithImport` -/

/-- The process-wide registry `PeerMap`, `PeerMapOrder`, and whether
`nodeAccessor` has been set by this call. -/
structure Registry where
  PeerMap : List (String × Peer)
  PeerMapOrder : List String
  nodeAccessor : Bool
  deriving DecidableEq, Inhabited

/-- Lines 45-56: the loop that finishes each peer and fills `PeerMapNew` and
`PeerMapOrderNew`. -/
def finishPeers (env : Env) :
    List Peer → List (String × Peer) → List String → Result (List (String × Peer) × List String)
  | [], PeerMapNew, PeerMapOrderNew => .ret (PeerMapNew, PeerMapOrderNew) none
  | p :: rest, PeerMapNew, PeerMapOrderNew =>
    match p.data with
    | none => .panic
    | some d =>
      match env.SetReferences d with
      | .error e => .ret (PeerMapNew, PeerMapOrderNew) (some ("failed to set references: " ++ e))
      | .ok d =>
        let p := { p with data := some d }
        finishPeers env rest (mapSet PeerMapNew p.ID p) (PeerMapOrderNew ++ [p.ID])

/-- Lines 32-38: the switch on the file mode; when neither case applies,
`peers` and `err` keep their zero values. -/
def dispatchImport (env : Env) (fs : FileSystem) (mode : FileMode) (importFile : String) :
    Result (List Peer) :=
  match mode with
  | .dir => importPeersFromDir env fs importFile
  | .regular => importPeersFromTar env fs importFile
  | .other => .ret [] none

/-- Function `initializePeersWithImport` (lines 18-65): the registry after the
call and the returned error. -/
def initializePeersWithImport (env : Env) (fs : FileSystem) (reg : Registry)
    (importFile : String) : Result Registry :=
  match fs.Stat importFile with
  | .error e => .ret reg (some ("cannot read " ++ importFile ++ ": " ++ e))
  | .ok mode =>
    let peerSize := reg.PeerMapOrder.length
    if peerSize > 0 then .ret reg none
    else
      match dispatchImport env fs mode importFile with
      | .panic => .panic
      | .ret _ (some err) => .ret reg (some ("import failed: " ++ err))
      | .ret peers none =>
        match finishPeers env peers [] [] with
        | .panic => .panic
        | .ret _ (some err) => .ret reg (some err)
        | .ret (PeerMapNew, PeerMapOrderNew) none =>
          .ret { PeerMap := PeerMapNew, PeerMapOrder := PeerMapOrderNew, nodeAccessor := true } none

/-! ## A sample environment

A small concrete instance of the parameters, used to run the importer on
explicit snapshots. -/

/-- Splits a byte string at every occurrence of the separator. -/
def splitBytes (sep : Nat) : List Nat → List (List Nat)
  | [] => [[]]
  | b :: rest =>
    match splitBytes sep rest with
    | [] => [[b]]
    | field :: fields => if b = sep then [] :: field :: fields else (b :: field) :: fields

/-- Value of a run of ASCII digits. -/
def digitsValue (bs : List Nat) : Nat := bs.foldl (fun n b => 10 * n + (b - 48)) 0

/-- Cell of the sample format: a run of digits is a number, a field with
semicolons is a string list, anything else is a string. -/
def sampleCell (bs : List Nat) : Cell :=
  if bs ≠ [] ∧ bs.all (fun b => decide (48 ≤ b) && decide (b ≤ 57)) then .num (digitsValue bs)
  else if 59 ∈ bs then .strs ((splitBytes 59 bs).map (fun f => String.mk (f.map Char.ofNat)))
  else .str (String.mk (bs.map Char.ofNat))

/-- Sample deserializer: rows are lines and cells are separated by commas; a
byte 33 anywhere is a syntax error and the empty file has no rows. -/
def sampleNewResultSet (data : List Nat) : Except String ResultSet :=
  if 33 ∈ data then .error "syntax error"
  else if data = [] then .ok []
  else .ok ((splitBytes 10 data).map (fun line => (splitBytes 44 line).map sampleCell))

/-- Bytes of a text. -/
def bytesOf (s : String) : List Nat := s.toList.map Char.toNat

/-- Reader that delivers the whole text and then end of file. -/
def fileOf (s : String) : Reader := ⟨bytesOf s, none⟩

/-- Regular-file entry of the given name holding the text. -/
def regEntry (name : String) (s : String) : Header × Reader :=
  (⟨name, TypeReg, (bytesOf s).length⟩, fileOf s)

/-- The eleven column names read from the site row. -/
def siteColumnNames : List String :=
  ["peer_name", "peer_key", "addr", "section", "flags", "status", "last_update",
    "last_error", "last_online", "queries", "response_time"]

/-- Sample sites table, virtual. -/
def sitesTable : Table :=
  { Name := "sites", Virtual := true
    Columns := siteColumnNames.map (fun n => ⟨n, .StringCol⟩) }

/-- Sample stored table. -/
def hostsTable : Table :=
  { Name := "hosts", Virtual := false
    Columns := [⟨"name", .StringCol⟩, ⟨"state", .IntCol⟩] }

/-- Sample virtual table other than sites. -/
def columnsTable : Table :=
  { Name := "columns", Virtual := true
    Columns := [⟨"name", .StringCol⟩, ⟨"table", .StringCol⟩] }

/-- Sample environment: ASCII case folding, the sample deserializer, a peer is
online when its state is 0, insertion checks the arity of every row, and
finishing a peer fails when its set holds a store of a table named `broken`. -/
def sampleEnv : Env :=
  { Tables := [sitesTable, hostsTable, columnsTable]
    TableSites := "sites"
    EqualFold := fun a b => a.toList.map Char.toLower == b.toList.map Char.toLower
    NewResultSet := sampleNewResultSet
    interface2stringNoDedup := fun c =>
      match c with
      | .str s => s
      | .num n => toString n
      | _ => ""
    interface2stringlist := fun c =>
      match c with
      | .strs xs => xs
      | .str s => [s]
      | _ => []
    interface2int := fun c =>
      match c with
      | .num n => n
      | _ => 0
    interface2int64 := fun c =>
      match c with
      | .num n => n
      | _ => 0
    interface2float64 := fun c =>
      match c with
      | .num n => n.toNat
      | _ => 0
    PeerStatus := fun n => (n % 256).toNat
    fmtS := fun c =>
      match c with
      | .str s => s
      | _ => "?"
    isOnline := fun p => statusGet p.Status .PeerState == some (.peerStatus 0)
    InsertData := fun store rows columns =>
      if rows.all (fun r => r.length == columns.length) then
        .ok { store with Data := rows, Columns := columns }
      else .error "row arity"
    SetReferences := fun d =>
      if (mapGet d.tables "broken").isSome then .error "broken reference" else .ok d }

/-- Header line of a sites file with all eleven columns. -/
def sitesHeaderLine : String :=
  "peer_name,peer_key,addr,section,flags,status,last_update,last_error,last_online,queries,response_time"

/-- Sites file of an online peer `A` with key `k1`. -/
def sitesA : String := sitesHeaderLine ++ "\nA,k1,host:6557,sec,f1;f2,0,100,none,90,7,3"

/-- Sites file of a peer `B` with key `k2` that is not online. -/
def sitesB : String := sitesHeaderLine ++ "\nB,k2,host:6558,sec,f1,2,100,down,90,7,3"

/-- Sites file of an online peer `C` that reuses the key `k1`. -/
def sitesC : String := sitesHeaderLine ++ "\nC,k1,host:6559,sec,f3,0,100,none,90,7,3"

/-- Sites file with two data rows. -/
def sitesTwoRows : String :=
  sitesHeaderLine ++ "\nA,k1,host:6557,sec,f1;f2,0,100,none,90,7,3\nB,k2,host:6558,sec,f1,2,100,down,90,7,3"

/-- Hosts file with two data rows. -/
def hostsFile : String := "name,state\nh1,0\nh2,1"

/-- Hosts file whose header names a column that the table does not have. -/
def hostsBadColumn : String := "name,colour\nh1,red"

/-- Directory entry. -/
def dirEntry (name : String) : Header × Reader := (⟨name, TypeDir, 0⟩, ⟨[], none⟩)

/-- Sample file system: some snapshots by path; any other path does not exist. -/
def sampleFS : FileSystem :=
  { Stat := fun path =>
      if path = "missing.tar.gz" then .error "no such file or directory"
      else if path = "snapdir" then .ok .dir
      else .ok .regular
    Open := fun path =>
      if path = "good.tar.gz" then
        .archive ⟨[dirEntry "peer1/", regEntry "peer1/sites.json" sitesA,
          regEntry "peer1/hosts.json" hostsFile], none⟩
      else if path = "badcolumn.tar.gz" then
        .archive ⟨[dirEntry "peer1/", regEntry "peer1/sites.json" sitesA,
          regEntry "peer1/hosts.json" hostsBadColumn], none⟩
      else if path = "tworows.tar.gz" then
        .archive ⟨[dirEntry "peer1/", regEntry "peer1/sites.json" sitesTwoRows], none⟩
      else if path = "samekey.tar.gz" then
        .archive ⟨[regEntry "peer1/sites.json" sitesA, regEntry "peer2/sites.json" sitesC], none⟩
      else if path = "two.tar.gz" then
        .archive ⟨[regEntry "peer1/sites.json" sitesA, regEntry "peer1/hosts.json" hostsFile,
          regEntry "peer2/sites.json" sitesB, regEntry "peer2/hosts.json" hostsFile], none⟩
      else if path = "sitesonly.tar.gz" then
        .archive ⟨[regEntry "peer1/sites.json" sitesA], none⟩
      else .openError "no such file or directory" }

/-- Empty registry of a cold start. -/
def emptyRegistry : Registry := { PeerMap := [], PeerMapOrder := [], nodeAccessor := false }

/-- Registry that already holds one peer. -/
def loadedRegistry : Registry :=
  { PeerMap := [("k0", NewPeer ⟨"Z", "k0", ["z:1"], "", []⟩)], PeerMapOrder := ["k0"],
    nodeAccessor := true }

/-! ## Notions used to state the properties -/

/-- One pass of the loop body of lines 45-56 on a single peer: the peer with
its DataStoreSet finished by `SetReferences`, or `none` when that fails (or
the peer has no DataStoreSet). -/
def finishPeer (env : Env) (p : Peer) : Option Peer :=
  match p.data with
  | none => none
  | some d =>
    match env.SetReferences d with
    | .error _ => none
    | .ok d => some { p with data := some d }

/-- Sample peer as the site row of the sample sites files decodes it. -/
def samplePeer (name key addr : String) (flags : List String) (state : Nat)
    (lastError : String) : Peer :=
  { Name := name, ID := key
    Config := { Name := name, ID := key, Source := [addr], Section := "sec", Flags := flags }
    Status := [(.PeerState, .peerStatus state), (.LastUpdate, .int64 100),
      (.LastError, .string lastError), (.LastOnline, .int64 90), (.Queries, .int64 7),
      (.ResponseTime, .float64 3)]
    data := some { tables := [] } }

/-- Peer of the sites file `sitesA`. -/
def peerA : Peer := samplePeer "A" "k1" "host:6557" ["f1", "f2"] 0 "none"

/-- Peer of the sites file `sitesB`. -/
def peerB : Peer := samplePeer "B" "k2" "host:6558" ["f1"] 2 "down"

/-- Peer of the sites file `sitesC`. -/
def peerC : Peer := samplePeer "C" "k1" "host:6559" ["f3"] 0 "none"

/-- Store that the sample hosts file gives for a peer of the given name. -/
def hostsStore (peerName : String) : DataStore :=
  { Table := hostsTable, PeerName := peerName
    Data := [[.str "h1", .num 0], [.str "h2", .num 1]]
    Columns := [⟨"name", .StringCol⟩, ⟨"state", .IntCol⟩] }

/-- Cell of the data row at the position that the name has in the header (the
first such position, when the name occurs more than once). -/
def headerCell (columns : ColumnList) (row : List Cell) (name : String) : Cell :=
  row.getD ((columns.map (fun c => c.Name)).indexOf name) .null

/-- Modelled from the spec: the registry `Objects.Tables` is not in
`importer.go`; in section 4.4 an entry of the site-identity table builds the
peer and is never handed to the inserter, which is what lines 157-159 do when
the sites table is marked virtual: every table of the registry that bears the
name `TableSites` is virtual. -/
def sitesVirtual (env : Env) : Bool :=
  env.Tables.all (fun t => t.Name != env.TableSites || t.Virtual)

/-- Whether the entry is a regular file whose name resolves to the sites table. -/
def isSitesEntry (env : Env) (e : Header × Reader) : Bool :=
  e.1.Typeflag == TypeReg &&
    match (FindStringSubmatch e.1.Name)[1]? with
    | none => false
    | some tableName =>
      match findTable env tableName with
      | none => false
      | some table => table.Name == env.TableSites

/-- Segments of an archive: each segment is a sites entry followed by the
entries up to the next sites entry; the entries before the first sites entry
belong to no segment. -/
def segments (env : Env) : List (Header × Reader) → List (List (Header × Reader))
  | [] => []
  | e :: rest =>
    if isSitesEntry env e then
      (e :: rest.takeWhile (fun x => !isSitesEntry env x)) :: segments env rest
    else segments env rest

/-- The stores recorded in the peer's DataStoreSet, with the names they are
recorded under. -/
def Peer.stores (p : Peer) : List (String × DataStore) :=
  match p.data with
  | none => []
  | some d => d.tables

/-- The store is the result of the insertion of lines 161-163 for the entry:
the entry is a regular file that parses without error to a non-virtual table,
and `InsertData` on the store that `NewDataStore` gives for that table and an
online peer, with the rows and columns of the entry, gives the store. -/
def BuiltFrom (env : Env) (store : DataStore) (e : Header × Reader) : Prop :=
  e.1.Typeflag = TypeReg ∧
  ∃ tableName table rows columns q,
    (FindStringSubmatch e.1.Name)[1]? = some tableName
    ∧ importTarFile env tableName e.2 e.1.Size = ⟨some table, rows, columns, none⟩
    ∧ table.Virtual = false ∧ env.isOnline q = true
    ∧ env.InsertData (NewDataStore table q) rows columns = .ok store

/-- The peer is what the import of the segment alone produces, and every store
recorded in it was built from an entry of the segment. -/
def SegmentPeer (env : Env) (tarFile : String) (seg : List (Header × Reader)) (p : Peer) :
    Prop :=
  tarLoop env tarFile none [] seg = .ret [p] none
  ∧ ∀ ns ∈ p.stores, ∃ e ∈ seg, BuiltFrom env ns.2 e

/-- Second hosts file, with one data row. -/
def hostsFile2 : String := "name,state\nh3,0"

/-- Entry of a symbolic link (type code `2`). -/
def linkEntry (name : String) : Header × Reader := (⟨name, '2', 0⟩, ⟨[], none⟩)

/-- Further sample snapshots by path; `snapdir` is a directory. -/
def sampleFS2 : FileSystem :=
  { Stat := fun path => if path = "snapdir" then .ok .dir else .ok .regular
    Open := fun path =>
      if path = "symlink.tar.gz" then
        .archive ⟨[dirEntry "peer1/", regEntry "peer1/sites.json" sitesA,
          linkEntry "peer1/link", regEntry "peer1/hosts.json" hostsFile], none⟩
      else if path = "datafirst.tar.gz" then
        .archive ⟨[regEntry "peer1/hosts.json" hostsFile,
          regEntry "peer1/sites.json" sitesA], none⟩
      else if path = "readme.tar.gz" then
        .archive ⟨[regEntry "peer1/README" "hello"], none⟩
      else if path = "twice.tar.gz" then
        .archive ⟨[regEntry "peer1/sites.json" sitesA, regEntry "peer1/hosts.json" hostsFile,
          regEntry "peer1/hosts.json" hostsFile2], none⟩
      else .openError "no such file or directory" }

/-- Sample environment whose `InsertData` appends the rows to those that the
store already holds. -/
def appendEnv : Env :=
  { sampleEnv with
    InsertData := fun store rows columns =>
      if rows.all (fun r => r.length == columns.length) then
        .ok { store with Data := store.Data ++ rows, Columns := columns }
      else .error "row arity" }

/-- Sites file whose single data row has two cells only. -/
def sitesShortRow : String := sitesHeaderLine ++ "\nA,k1"

/-- Sites file whose header has no column `section`. -/
def sitesNoSection : String :=
  "peer_name,peer_key,addr,flags,status,last_update,last_error,last_online,queries,response_time"
    ++ "\nA,k1,host:6557,f1;f2,0,100,none,90,7,3"

/-- Sites file whose header has no column `section` and whose single data row
is the one cell `A`. -/
def sitesNoSectionShort : String :=
  "peer_name,peer_key,addr,flags,status,last_update,last_error,last_online,queries,response_time"
    ++ "\nA"

/-! ## Auxiliary facts -/

/-- Two texts with different beginnings are different. -/
theorem str_append_ne (a b x y : String)
    (h : ∀ u v : List Char, a.data ++ u ≠ b.data ++ v) : a ++ x ≠ b ++ y := by
  intro e
  have := congrArg String.data e
  simp only [String.data_append] at this
  exact h _ _ this

/-- The loop of `findTable` keeps the last matching table, or the initial
value when no table matches. -/
theorem foldl_findTable (env : Env) (tableName : String) (ts : List Table) (acc : Option Table) :
    ts.foldl (fun table t => if env.EqualFold t.Name tableName then some t else table) acc
      = match (ts.filter (fun t => env.EqualFold t.Name tableName)).getLast? with
        | some t => some t
        | none => acc := by
  induction ts generalizing acc with
  | nil => simp
  | cons t ts ih =>
    simp only [List.foldl_cons, ih, List.filter_cons]
    by_cases h : env.EqualFold t.Name tableName = true
    · simp only [h, if_true]
      cases hf : ts.filter (fun t => env.EqualFold t.Name tableName) with
      | nil => simp
      | cons a l => rw [List.getLast?_cons_cons, List.getLast?_eq_getLast _ (List.cons_ne_nil a l)]
    · simp only [h]
      simp

/-- Closed form of `findTable`: the last table whose name matches. -/
theorem findTable_eq (env : Env) (tableName : String) :
    findTable env tableName
      = (env.Tables.filter (fun t => env.EqualFold t.Name tableName)).getLast? := by
  unfold findTable
  rw [foldl_findTable]
  cases (env.Tables.filter (fun t => env.EqualFold t.Name tableName)).getLast? <;> rfl

/-- A resolved table is a table of `Objects.Tables`. -/
theorem findTable_mem (env : Env) (tableName : String) (table : Table)
    (h : findTable env tableName = some table) : table ∈ env.Tables := by
  rw [findTable_eq] at h
  exact (List.mem_filter.mp (List.mem_of_getLast?_eq_some h)).1

/-- When no table resolves, `importTarFile` returns before looking at the reader. -/
theorem importTarFile_of_findTable_none (env : Env) (tableName : String) (tarReader : Reader)
    (size : Nat) (h : findTable env tableName = none) :
    importTarFile env tableName tarReader size
      = ⟨none, [], [], some ("no table found by name: " ++ tableName)⟩ := by
  simp [importTarFile, h]

/-- A column returned by `GetColumn` has the requested name. -/
theorem GetColumn_name (t : Table) (name : String) (col : Column)
    (h : t.GetColumn name = some col) : col.Name = name ∧ col ∈ t.Columns := by
  unfold Table.GetColumn at h
  have h1 := List.find?_some h
  have h2 := List.mem_of_find?_eq_some h
  exact ⟨by simpa using h1, h2⟩

/-- The lookup `GetColumn` fails exactly when no column has the name. -/
theorem GetColumn_eq_none (t : Table) (name : String) :
    t.GetColumn name = none ↔ ∀ col ∈ t.Columns, col.Name ≠ name := by
  unfold Table.GetColumn
  simp

/-- Error of the header loop: it names the first header cell that resolves to
no column. -/
theorem bindColumns_err (env : Env) (table : Table) (row : List Cell) (acc : ColumnList) :
    (bindColumns env table row acc).2
      = (row.find? (fun c => (table.GetColumn (env.interface2stringNoDedup c)).isNone)).map
          (fun c => "no column found by name: " ++ env.fmtS c) := by
  induction row generalizing acc with
  | nil => simp [bindColumns]
  | cons c rest ih =>
    unfold bindColumns
    cases hc : table.GetColumn (env.interface2stringNoDedup c) with
    | none => simp [List.find?_cons, hc]
    | some col => simp [List.find?_cons, hc, ih]

/-- Columns of the header loop when it succeeds: the accumulated columns
followed by one column per header cell, each named like its cell. -/
theorem bindColumns_ok (env : Env) (table : Table) (row : List Cell) (acc : ColumnList)
    (h : (bindColumns env table row acc).2 = none) :
    ∃ cols, (bindColumns env table row acc).1 = acc ++ cols
      ∧ cols.map (fun c => c.Name) = row.map env.interface2stringNoDedup
      ∧ ∀ col ∈ cols, col ∈ table.Columns := by
  induction row generalizing acc with
  | nil => exact ⟨[], by simp [bindColumns]⟩
  | cons c rest ih =>
    unfold bindColumns at h ⊢
    cases hc : table.GetColumn (env.interface2stringNoDedup c) with
    | none => simp [hc] at h
    | some col =>
      simp only [hc] at h ⊢
      obtain ⟨cols, h1, h2, h3⟩ := ih (acc ++ [col]) h
      have hn := GetColumn_name table _ col hc
      refine ⟨col :: cols, ?_, ?_, ?_⟩
      · rw [h1]; simp
      · simp [h2, hn.1]
      · intro x hx
        rcases List.mem_cons.mp hx with rfl | hx
        · exact hn.2
        · exact h3 x hx

/-- Result of `importTarFile` once the table resolves and the content is read
and deserialized to a header row and data rows. -/
theorem importTarFile_parsed (env : Env) (tableName : String) (tarReader : Reader) (size : Nat)
    (table : Table) (columnRow : List Cell) (rows : ResultSet)
    (htable : findTable env tableName = some table)
    (hread : tarReader.err = none) (hsize : tarReader.data.length = size)
    (hparse : env.NewResultSet tarReader.data = .ok (columnRow :: rows)) :
    importTarFile env tableName tarReader size
      = ⟨some table, rows, (bindColumns env table columnRow []).1,
          (bindColumns env table columnRow []).2⟩ := by
  simp [importTarFile, htable, hread, hsize, hparse]

/-- When a table resolves, the error of `importTarFile` is never the
unknown-table error. -/
theorem importTarFile_err_ne_noTable (env : Env) (tableName : String) (tarReader : Reader)
    (size : Nat) (table : Table) (h : findTable env tableName = some table) (x : String) :
    (importTarFile env tableName tarReader size).err ≠ some ("no table found by name: " ++ x) := by
  unfold importTarFile
  simp only [h]
  have hne : ∀ (a y : String),
      (∀ u v : List Char, a.data ++ u ≠ "no table found by name: ".data ++ v) →
      some (a ++ y) ≠ some ("no table found by name: " ++ x) := by
    intro a y hh e
    exact str_append_ne _ _ _ _ hh (Option.some.inj e)
  split
  · exact hne _ _ (by intro u v; simp)
  · split
    · intro e
      have := congrArg String.data (Option.some.inj e)
      simp at this
    · split
      · exact hne _ _ (by intro u v; simp)
      · split
        · intro e
          have := congrArg String.data (Option.some.inj e)
          simp at this
        · rename_i columnRow rows _
          show (bindColumns env table columnRow []).2 ≠ _
          rw [bindColumns_err]
          cases (columnRow.find? fun c => (table.GetColumn (env.interface2stringNoDedup c)).isNone) with
          | none => simp
          | some c => exact hne _ _ (by intro u v; simp)

/-! ## Table resolution and header binding of `importTarFile` -/

/-- C10, table resolution. `importTarFile` returns the error
`no table found by name: <name>` if and only if no table of `Objects.Tables`
has a name equal to the given one under `EqualFold`; when some table matches,
the resolved table is the last matching one of `Objects.Tables` and its name
matches the given name; and in the error case the result is the same for every
reader and size, so the error is raised before any byte of the stream is read. -/
theorem importTarFile_table_resolution (env : Env) (tableName : String) (tarReader : Reader)
    (size : Nat) :
    ((importTarFile env tableName tarReader size).err
        = some ("no table found by name: " ++ tableName)
      ↔ ∀ t ∈ env.Tables, env.EqualFold t.Name tableName = false)
    ∧ ((∃ t ∈ env.Tables, env.EqualFold t.Name tableName = true) →
        ∃ table, (importTarFile env tableName tarReader size).table = some table
          ∧ env.EqualFold table.Name tableName = true
          ∧ (env.Tables.filter (fun t => env.EqualFold t.Name tableName)).getLast? = some table)
    ∧ ((∀ t ∈ env.Tables, env.EqualFold t.Name tableName = false) →
        ∀ (otherReader : Reader) (otherSize : Nat),
          importTarFile env tableName otherReader otherSize
            = ⟨none, [], [], some ("no table found by name: " ++ tableName)⟩) := by
  have hnone : (∀ t ∈ env.Tables, env.EqualFold t.Name tableName = false) →
      findTable env tableName = none := by
    intro h
    rw [findTable_eq]
    have : env.Tables.filter (fun t => env.EqualFold t.Name tableName) = [] := by
      rw [List.filter_eq_nil_iff]
      intro t ht
      simp [h t ht]
    rw [this]; rfl
  have hsome : (∃ t ∈ env.Tables, env.EqualFold t.Name tableName = true) →
      ∃ table, findTable env tableName = some table
        ∧ env.EqualFold table.Name tableName = true
        ∧ (env.Tables.filter (fun t => env.EqualFold t.Name tableName)).getLast? = some table := by
    rintro ⟨t, ht, hm⟩
    have hmem : t ∈ env.Tables.filter (fun t => env.EqualFold t.Name tableName) :=
      List.mem_filter.mpr ⟨ht, by simpa using hm⟩
    have hne : env.Tables.filter (fun t => env.EqualFold t.Name tableName) ≠ [] :=
      List.ne_nil_of_mem hmem
    refine ⟨(env.Tables.filter (fun t => env.EqualFold t.Name tableName)).getLast hne, ?_, ?_, ?_⟩
    · rw [findTable_eq, List.getLast?_eq_getLast _ hne]
    · have := List.getLast_mem hne
      simpa using (List.mem_filter.mp this).2
    · rw [List.getLast?_eq_getLast _ hne]
  refine ⟨⟨?_, ?_⟩, ?_, ?_⟩
  · intro herr
    by_contra hcon
    push_neg at hcon
    obtain ⟨t, ht, hm⟩ := hcon
    have hm' : env.EqualFold t.Name tableName = true := by simpa using hm
    obtain ⟨table, hf, -, -⟩ := hsome ⟨t, ht, hm'⟩
    exact importTarFile_err_ne_noTable env tableName tarReader size table hf tableName herr
  · intro h
    rw [importTarFile_of_findTable_none env tableName tarReader size (hnone h)]
  · intro h
    obtain ⟨table, hf, hm, hl⟩ := hsome h
    refine ⟨table, ?_, hm, hl⟩
    unfold importTarFile
    simp only [hf]
    repeat' split
    all_goals rfl
  · intro h otherReader otherSize
    exact importTarFile_of_findTable_none env tableName otherReader otherSize (hnone h)


/-- C9, unknown column. For a table file that resolves to a table and
deserializes to a non-empty result set, `importTarFile` returns a
`no column found by name` error if and only if some cell of the header row
names no column of the table under exact match; the error names the first such
cell in header order, and the entry then fails as a whole: `importPeerFromTar`
returns the peer list it was given together with the wrapped error. -/
theorem importTarFile_unknown_column (env : Env) (tableName : String) (tarReader : Reader)
    (size : Nat) (table : Table) (columnRow : List Cell) (rows : ResultSet)
    (htable : findTable env tableName = some table)
    (hread : tarReader.err = none) (hsize : tarReader.data.length = size)
    (hparse : env.NewResultSet tarReader.data = .ok (columnRow :: rows)) :
    ((∃ cell, (importTarFile env tableName tarReader size).err
          = some ("no column found by name: " ++ env.fmtS cell))
      ↔ ∃ cell ∈ columnRow, ∀ col ∈ table.Columns, col.Name ≠ env.interface2stringNoDedup cell)
    ∧ (∀ (pre : List Cell) (cell : Cell) (post : List Cell), columnRow = pre ++ cell :: post →
        (∀ c ∈ pre, ∃ col ∈ table.Columns, col.Name = env.interface2stringNoDedup c) →
        (∀ col ∈ table.Columns, col.Name ≠ env.interface2stringNoDedup cell) →
        (importTarFile env tableName tarReader size).err
            = some ("no column found by name: " ++ env.fmtS cell)
          ∧ ∀ (peers : List Peer) (header : Header),
              (FindStringSubmatch header.Name)[1]? = some tableName → header.Size = size →
              importPeerFromTar env peers header tarReader
                = .ret peers (some ("import error: " ++
                    ("no column found by name: " ++ env.fmtS cell)))) := by
  have hres := importTarFile_parsed env tableName tarReader size table columnRow rows
    htable hread hsize hparse
  have herr : (importTarFile env tableName tarReader size).err
      = (columnRow.find? (fun c => (table.GetColumn (env.interface2stringNoDedup c)).isNone)).map
          (fun c => "no column found by name: " ++ env.fmtS c) := by
    rw [hres]; exact bindColumns_err env table columnRow []
  constructor
  · constructor
    · rintro ⟨cell, hc⟩
      rw [herr] at hc
      cases hf : columnRow.find? (fun c => (table.GetColumn (env.interface2stringNoDedup c)).isNone) with
      | none => rw [hf] at hc; simp at hc
      | some c =>
        refine ⟨c, List.mem_of_find?_eq_some hf, ?_⟩
        have := List.find?_some hf
        rw [Option.isNone_iff_eq_none] at this
        exact (GetColumn_eq_none table _).mp this
    · rintro ⟨cell, hmem, hun⟩
      rw [herr]
      cases hf : columnRow.find? (fun c => (table.GetColumn (env.interface2stringNoDedup c)).isNone) with
      | none =>
        rw [List.find?_eq_none] at hf
        have := hf cell hmem
        rw [(GetColumn_eq_none table _).mpr hun] at this
        simp at this
      | some c => exact ⟨c, rfl⟩
  · intro pre cell post hrow hpre hcell
    have hfind : columnRow.find? (fun c => (table.GetColumn (env.interface2stringNoDedup c)).isNone)
        = some cell := by
      rw [hrow, List.find?_append]
      have h1 : pre.find? (fun c => (table.GetColumn (env.interface2stringNoDedup c)).isNone) = none := by
        rw [List.find?_eq_none]
        intro c hc
        obtain ⟨col, hcol, hn⟩ := hpre c hc
        cases hg : table.GetColumn (env.interface2stringNoDedup c) with
        | none => exact absurd hn ((GetColumn_eq_none table _).mp hg col hcol)
        | some _ => simp
      rw [h1]
      simp [List.find?_cons, (GetColumn_eq_none table _).mpr hcell]
    have herr2 : (importTarFile env tableName tarReader size).err
        = some ("no column found by name: " ++ env.fmtS cell) := by
      rw [herr, hfind]; rfl
    refine ⟨herr2, ?_⟩
    intro peers header hname hsz
    unfold importPeerFromTar
    simp only [hname, hsz, herr2]

set_option maxRecDepth 100000 in
/-- Witness of C9 on the sample hosts file whose header names the unknown
column `colour`. -/
theorem importTarFile_unknown_column_witness :
    (findTable sampleEnv "hosts" = some hostsTable
      ∧ sampleEnv.NewResultSet (fileOf hostsBadColumn).data
          = .ok ([.str "name", .str "colour"] :: [[.str "h1", .str "red"]]))
    ∧ (importTarFile sampleEnv "hosts" (fileOf hostsBadColumn) 18).err
        = some "no column found by name: colour"
    ∧ importPeerFromTar sampleEnv [] ⟨"peer1/hosts.json", TypeReg, 18⟩ (fileOf hostsBadColumn)
        = .ret [] (some "import error: no column found by name: colour") :=
  have h := (importTarFile_unknown_column sampleEnv "hosts" (fileOf hostsBadColumn) 18 hostsTable
    [.str "name", .str "colour"] [[.str "h1", .str "red"]]
    (by decide) (by decide) (by decide) rfl).2 [.str "name"] (.str "colour") [] rfl
    (by decide) (by decide)
  ⟨⟨by decide, rfl⟩, h.1, h.2 [] ⟨"peer1/hosts.json", TypeReg, 18⟩ (by decide) rfl⟩


/-! ## Registry commit of `initializePeersWithImport` -/

/-- Reading a map after an assignment. -/
theorem mapGet_mapSet {α : Type} (m : List (String × α)) (k k' : String) (v : α) :
    mapGet (mapSet m k v) k' = if k = k' then some v else mapGet m k' := by
  induction m with
  | nil => simp [mapSet, mapGet]
  | cons kv rest ih =>
    obtain ⟨k0, v0⟩ := kv
    unfold mapSet
    by_cases h0 : k0 = k
    · subst h0
      by_cases h1 : k0 = k' <;> simp [mapGet, h1]
    · by_cases h1 : k0 = k'
      · subst h1
        have h2 : ¬ k = k0 := fun h => h0 h.symm
        simp [mapGet, h0, h2]
      · simp [mapGet, h0, h1, ih]

/-- Reading a map after a run of assignments keyed by peer ID: the last peer
of that ID wins, and other keys keep their old value. -/
theorem mapGet_foldl_mapSet (qs : List Peer) (m : List (String × Peer)) (k : String) :
    mapGet (qs.foldl (fun m q => mapSet m q.ID q) m) k
      = match (qs.filter (fun q => q.ID = k)).getLast? with
        | some q => some q
        | none => mapGet m k := by
  induction qs generalizing m with
  | nil => simp
  | cons q qs ih =>
    simp only [List.foldl_cons, ih, List.filter_cons, mapGet_mapSet]
    by_cases h : q.ID = k
    · simp only [h, decide_True, if_true]
      cases hf : qs.filter (fun q => decide (q.ID = k)) with
      | nil => simp
      | cons a l =>
        rw [List.getLast?_cons_cons, List.getLast?_eq_getLast _ (List.cons_ne_nil a l)]
    · simp [h]

/-- A finished peer keeps its ID. -/
theorem finishPeer_ID (env : Env) (p q : Peer) (h : finishPeer env p = some q) : q.ID = p.ID := by
  unfold finishPeer at h
  split at h
  · simp at h
  · split at h
    · simp at h
    · simp only [Option.some.injEq] at h
      rw [← h]

/-- The finishing loop on peers that all finish: the map receives every
finished peer under its ID and the order list receives the IDs in order. -/
theorem finishPeers_ok (env : Env) (ps qs : List Peer)
    (h : List.Forall₂ (fun p q => finishPeer env p = some q) ps qs)
    (m : List (String × Peer)) (o : List String) :
    finishPeers env ps m o
      = .ret (qs.foldl (fun m q => mapSet m q.ID q) m, o ++ qs.map (fun q => q.ID)) none := by
  induction h generalizing m o with
  | nil => simp [finishPeers]
  | @cons p q ps qs hpq _ ih =>
    unfold finishPeers
    unfold finishPeer at hpq
    cases hd : p.data with
    | none => simp [hd] at hpq
    | some d =>
      cases hs : env.SetReferences d with
      | error e => simp [hd, hs] at hpq
      | ok d' =>
        simp only [hd, hs, Option.some.injEq] at hpq
        simp only [hd, hs, ih]
        subst hpq
        simp

/-- The finishing loop stops with the `SetReferences` error of the first peer
that fails. -/
theorem finishPeers_err (env : Env) (pre qs : List Peer) (p : Peer) (post : List Peer)
    (d : DataStoreSet) (e : String)
    (h : List.Forall₂ (fun p q => finishPeer env p = some q) pre qs)
    (hd : p.data = some d) (he : env.SetReferences d = .error e)
    (m : List (String × Peer)) (o : List String) :
    ∃ v, finishPeers env (pre ++ p :: post) m o
      = .ret v (some ("failed to set references: " ++ e)) := by
  induction h generalizing m o with
  | nil => exact ⟨(m, o), by simp [finishPeers, hd, he]⟩
  | @cons p0 q0 ps qs hpq _ ih =>
    unfold finishPeer at hpq
    cases hd0 : p0.data with
    | none => simp [hd0] at hpq
    | some d0 =>
      cases hs0 : env.SetReferences d0 with
      | error e0 => simp [hd0, hs0] at hpq
      | ok d0' =>
        obtain ⟨v, hv⟩ := ih (mapSet m p0.ID { p0 with data := some d0' }) (o ++ [p0.ID])
        refine ⟨v, ?_⟩
        simp only [List.cons_append]
        unfold finishPeers
        simp only [hd0, hs0]
        exact hv

/-- A finishing loop that ends without error has finished every peer. -/
theorem finishPeers_inv (env : Env) (ps : List Peer) :
    ∀ (m : List (String × Peer)) (o : List String) (v : List (String × Peer) × List String),
      finishPeers env ps m o = .ret v none →
      ∃ qs, List.Forall₂ (fun p q => finishPeer env p = some q) ps qs
        ∧ v = (qs.foldl (fun m q => mapSet m q.ID q) m, o ++ qs.map (fun q => q.ID)) := by
  induction ps with
  | nil =>
    intro m o v h
    simp only [finishPeers, Result.ret.injEq, and_true] at h
    exact ⟨[], List.Forall₂.nil, by simp [← h]⟩
  | cons p ps ih =>
    intro m o v h
    unfold finishPeers at h
    cases hd : p.data with
    | none => simp [hd] at h
    | some d =>
      cases hs : env.SetReferences d with
      | error e => simp [hd, hs] at h
      | ok d' =>
        simp only [hd, hs] at h
        obtain ⟨qs, hq, hv⟩ := ih _ _ v h
        refine ⟨{ p with data := some d' } :: qs, List.Forall₂.cons ?_ hq, ?_⟩
        · simp [finishPeer, hd, hs]
        · rw [hv]; simp

/-- A failing `os.Stat` ends the call with its error. -/
theorem initializePeersWithImport_stat_error (env : Env) (fs : FileSystem) (reg : Registry)
    (importFile : String) (e : String) (hs : fs.Stat importFile = .error e) :
    initializePeersWithImport env fs reg importFile
      = .ret reg (some ("cannot read " ++ importFile ++ ": " ++ e)) := by
  simp [initializePeersWithImport, hs]

/-- With peers already loaded the call returns at line 29. -/
theorem initializePeersWithImport_loaded (env : Env) (fs : FileSystem) (reg : Registry)
    (importFile : String) (mode : FileMode) (hs : fs.Stat importFile = .ok mode)
    (hl : reg.PeerMapOrder ≠ []) :
    initializePeersWithImport env fs reg importFile = .ret reg none := by
  have : reg.PeerMapOrder.length > 0 := List.length_pos.mpr hl
  simp [initializePeersWithImport, hs, this]

/-- On an empty registry the call imports and then finishes the peers. -/
theorem initializePeersWithImport_empty (env : Env) (fs : FileSystem) (reg : Registry)
    (importFile : String) (mode : FileMode) (hs : fs.Stat importFile = .ok mode)
    (hl : reg.PeerMapOrder = []) :
    initializePeersWithImport env fs reg importFile
      = match dispatchImport env fs mode importFile with
        | .panic => .panic
        | .ret _ (some err) => .ret reg (some ("import failed: " ++ err))
        | .ret peers none =>
          match finishPeers env peers [] [] with
          | .panic => .panic
          | .ret _ (some err) => .ret reg (some err)
          | .ret (PeerMapNew, PeerMapOrderNew) none =>
            .ret { PeerMap := PeerMapNew, PeerMapOrder := PeerMapOrderNew, nodeAccessor := true }
              none := by
  simp [initializePeersWithImport, hs, hl]

/-- Every ordinary return of `initializePeersWithImport` with an error leaves
the registry as it was. -/
theorem initializePeersWithImport_error_frame (env : Env) (fs : FileSystem) (reg : Registry)
    (importFile : String) (reg' : Registry) (e : String)
    (h : initializePeersWithImport env fs reg importFile = .ret reg' (some e)) :
    reg' = reg := by
  cases hs : fs.Stat importFile with
  | error e0 =>
    rw [initializePeersWithImport_stat_error env fs reg importFile e0 hs] at h
    simp only [Result.ret.injEq] at h; exact h.1.symm
  | ok mode =>
    by_cases hl : reg.PeerMapOrder = []
    · rw [initializePeersWithImport_empty env fs reg importFile mode hs hl] at h
      cases hd : dispatchImport env fs mode importFile with
      | panic => rw [hd] at h; simp at h
      | ret peers err =>
        rw [hd] at h
        cases err with
        | some err => simp only [Result.ret.injEq] at h; exact h.1.symm
        | none =>
          simp only at h
          cases hf : finishPeers env peers [] [] with
          | panic => rw [hf] at h; simp at h
          | ret v err =>
            rw [hf] at h
            cases err with
            | some err => simp only [Result.ret.injEq] at h; exact h.1.symm
            | none => simp at h
    · rw [initializePeersWithImport_loaded env fs reg importFile mode hs hl] at h
      simp at h

/-- One turn of the archive loop. -/
theorem tarLoop_cons (env : Env) (tarFile : String) (fault : Option String) (peers : List Peer)
    (header : Header) (tarReader : Reader) (rest : List (Header × Reader)) :
    tarLoop env tarFile fault peers ((header, tarReader) :: rest)
      = if header.Typeflag = TypeDir then tarLoop env tarFile fault peers rest
        else if header.Typeflag = TypeReg then
          match importPeerFromTar env peers header tarReader with
          | .panic => .panic
          | .ret _ (some err) =>
            .ret [] (some ("gzip/tarball error " ++ tarFile ++ " in file " ++ header.Name ++
              ": " ++ err))
          | .ret peers none => tarLoop env tarFile fault peers rest
        else
          .ret [] (some ("gzip/tarball error " ++ tarFile ++ ": unsupported type in file " ++
            header.Name ++ ": " ++ String.singleton header.Typeflag)) := by
  rw [tarLoop]

/-- The archive loop on a list of entries that starts with entries processed
without error continues on the rest with the peers reached so far. -/
theorem tarLoop_append (env : Env) (tarFile : String) (fault : Option String)
    (pre rest : List (Header × Reader)) (peers0 peers : List Peer)
    (h : tarLoop env tarFile none peers0 pre = .ret peers none) :
    tarLoop env tarFile fault peers0 (pre ++ rest) = tarLoop env tarFile fault peers rest := by
  induction pre generalizing peers0 with
  | nil =>
    simp only [tarLoop, Result.ret.injEq, and_true] at h
    simp [h]
  | cons e pre ih =>
    obtain ⟨header, tarReader⟩ := e
    simp only [List.cons_append]
    rw [tarLoop_cons] at h
    conv_lhs => rw [tarLoop_cons]
    by_cases hdir : header.Typeflag = TypeDir
    · simp only [hdir, if_true] at h ⊢
      exact ih peers0 h
    · simp only [hdir, if_false] at h ⊢
      by_cases hreg : header.Typeflag = TypeReg
      · simp only [hreg, if_true] at h ⊢
        cases hi : importPeerFromTar env peers0 header tarReader with
        | panic => rw [hi] at h; simp at h
        | ret peers1 err =>
          rw [hi] at h
          cases err with
          | some err => simp at h
          | none => exact ih peers1 h
      · simp [hreg] at h

/-- The archive loop at a regular-file entry whose handler returns an error. -/
theorem tarLoop_failing_entry (env : Env) (tarFile : String) (fault : Option String)
    (header : Header) (tarReader : Reader) (post : List (Header × Reader))
    (peers peers' : List Peer) (e : String) (hreg : header.Typeflag = TypeReg)
    (h : importPeerFromTar env peers header tarReader = .ret peers' (some e)) :
    tarLoop env tarFile fault peers ((header, tarReader) :: post)
      = .ret [] (some ("gzip/tarball error " ++ tarFile ++ " in file " ++ header.Name ++
          ": " ++ e)) := by
  have hne : ¬ (TypeReg = TypeDir) := by decide
  rw [tarLoop_cons]
  simp [hreg, hne, h]

/-- An archive with a failing regular-file entry, reached after entries that
were processed without error, makes `importPeersFromTar` return a nil peer list
and the error of that entry. -/
theorem importPeersFromTar_failing_entry (env : Env) (fs : FileSystem) (tarFile : String)
    (a : Archive) (pre post : List (Header × Reader)) (header : Header) (tarReader : Reader)
    (peers peers' : List Peer) (e : String)
    (hopen : fs.Open tarFile = .archive a) (hentries : a.entries = pre ++ (header, tarReader) :: post)
    (hpre : tarLoop env tarFile none [] pre = .ret peers none)
    (hreg : header.Typeflag = TypeReg)
    (h : importPeerFromTar env peers header tarReader = .ret peers' (some e)) :
    importPeersFromTar env fs tarFile
      = .ret [] (some ("gzip/tarball error " ++ tarFile ++ " in file " ++ header.Name ++
          ": " ++ e)) := by
  unfold importPeersFromTar
  simp only [hopen, hentries]
  rw [tarLoop_append env tarFile a.fault pre _ [] peers hpre]
  exact tarLoop_failing_entry env tarFile a.fault header tarReader post peers peers' e hreg h

/-- C1, atomicity. Whenever `initializePeersWithImport` returns a non-nil
error, the registry pair `PeerMap`, `PeerMapOrder` after the call is the pair
before the call. The three causes are covered one by one: a failing `os.Stat`,
a failing archive entry at any index, and a `SetReferences` failure on any
peer each end the call with an error and the registry as it was. -/
theorem initializePeersWithImport_atomicity (env : Env) (fs : FileSystem) (reg : Registry)
    (importFile : String) :
    (∀ (reg' : Registry) (e : String),
        initializePeersWithImport env fs reg importFile = .ret reg' (some e) →
        reg'.PeerMap = reg.PeerMap ∧ reg'.PeerMapOrder = reg.PeerMapOrder)
    ∧ (∀ e : String, fs.Stat importFile = .error e →
        initializePeersWithImport env fs reg importFile
          = .ret reg (some ("cannot read " ++ importFile ++ ": " ++ e)))
    ∧ (∀ (a : Archive) (pre post : List (Header × Reader)) (header : Header)
        (tarReader : Reader) (peers peers' : List Peer) (e : String),
        fs.Stat importFile = .ok .regular → reg.PeerMapOrder = [] →
        fs.Open importFile = .archive a → a.entries = pre ++ (header, tarReader) :: post →
        tarLoop env importFile none [] pre = .ret peers none →
        header.Typeflag = TypeReg →
        importPeerFromTar env peers header tarReader = .ret peers' (some e) →
        initializePeersWithImport env fs reg importFile
          = .ret reg (some ("import failed: " ++ ("gzip/tarball error " ++ importFile ++
              " in file " ++ header.Name ++ ": " ++ e))))
    ∧ (∀ (mode : FileMode) (pre qs : List Peer) (p : Peer) (post : List Peer)
        (d : DataStoreSet) (e : String),
        fs.Stat importFile = .ok mode → reg.PeerMapOrder = [] →
        dispatchImport env fs mode importFile = .ret (pre ++ p :: post) none →
        List.Forall₂ (fun p q => finishPeer env p = some q) pre qs →
        p.data = some d → env.SetReferences d = .error e →
        initializePeersWithImport env fs reg importFile
          = .ret reg (some ("failed to set references: " ++ e))) := by
  refine ⟨?_, ?_, ?_, ?_⟩
  · intro reg' e h
    rw [initializePeersWithImport_error_frame env fs reg importFile reg' e h]
    exact ⟨rfl, rfl⟩
  · intro e hs
    exact initializePeersWithImport_stat_error env fs reg importFile e hs
  · intro a pre post header tarReader peers peers' e hs hl hopen hentries hpre hreg h
    rw [initializePeersWithImport_empty env fs reg importFile .regular hs hl]
    have := importPeersFromTar_failing_entry env fs importFile a pre post header tarReader
      peers peers' e hopen hentries hpre hreg h
    simp only [dispatchImport, this]
  · intro mode pre qs p post d e hs hl hd hfin hdata hset
    rw [initializePeersWithImport_empty env fs reg importFile mode hs hl]
    obtain ⟨v, hv⟩ := finishPeers_err env pre qs p post d e hfin hdata hset [] []
    simp only [hd, hv]

set_option maxRecDepth 100000 in
/-- Witness of C1: the sample snapshot whose second file has an unknown column
fails, and the registry is as before. -/
theorem initializePeersWithImport_atomicity_witness :
    initializePeersWithImport sampleEnv sampleFS emptyRegistry "badcolumn.tar.gz"
        = .ret emptyRegistry (some ("import failed: gzip/tarball error badcolumn.tar.gz" ++
            " in file peer1/hosts.json: import error: no column found by name: colour"))
    ∧ (emptyRegistry.PeerMap = emptyRegistry.PeerMap
        ∧ emptyRegistry.PeerMapOrder = emptyRegistry.PeerMapOrder) :=
  ⟨by decide,
    (initializePeersWithImport_atomicity sampleEnv sampleFS emptyRegistry "badcolumn.tar.gz").1
      emptyRegistry ("import failed: gzip/tarball error badcolumn.tar.gz" ++
        " in file peer1/hosts.json: import error: no column found by name: colour") (by decide)⟩


/-- C5 as stated fails: with a peer already loaded, the call on a path that
cannot be stat'ed returns an error, not success. -/
theorem initializePeersWithImport_refusal_counterexample :
    loadedRegistry.PeerMapOrder ≠ []
    ∧ initializePeersWithImport sampleEnv sampleFS loadedRegistry "missing.tar.gz"
        = .ret loadedRegistry (some "cannot read missing.tar.gz: no such file or directory")
    ∧ ¬ ∃ reg', initializePeersWithImport sampleEnv sampleFS loadedRegistry "missing.tar.gz"
        = .ret reg' none := by
  refine ⟨by decide, by decide, ?_⟩
  rintro ⟨reg', h⟩
  have h2 : initializePeersWithImport sampleEnv sampleFS loadedRegistry "missing.tar.gz"
      = .ret loadedRegistry (some "cannot read missing.tar.gz: no such file or directory") := by
    decide
  rw [h2] at h
  simp at h

/-- C5 amended, idempotent refusal. When the registry already holds a peer,
the call on every import path for which `os.Stat` succeeds returns a nil error
and leaves the registry exactly as it was; when `os.Stat` fails the call
returns the `cannot read` error, the registry again being as it was. -/
theorem initializePeersWithImport_refusal (env : Env) (fs : FileSystem) (reg : Registry)
    (importFile : String) (hl : reg.PeerMapOrder ≠ []) :
    (∀ mode : FileMode, fs.Stat importFile = .ok mode →
        initializePeersWithImport env fs reg importFile = .ret reg none)
    ∧ (∀ e : String, fs.Stat importFile = .error e →
        initializePeersWithImport env fs reg importFile
          = .ret reg (some ("cannot read " ++ importFile ++ ": " ++ e))) :=
  ⟨fun mode hs => initializePeersWithImport_loaded env fs reg importFile mode hs hl,
    fun e hs => initializePeersWithImport_stat_error env fs reg importFile e hs⟩

/-- Witness of C5 amended: a loaded registry and the sample snapshot. -/
theorem initializePeersWithImport_refusal_witness :
    loadedRegistry.PeerMapOrder ≠ []
    ∧ initializePeersWithImport sampleEnv sampleFS loadedRegistry "good.tar.gz"
        = .ret loadedRegistry none :=
  ⟨by decide,
    (initializePeersWithImport_refusal sampleEnv sampleFS loadedRegistry "good.tar.gz"
      (by decide)).1 .regular rfl⟩

set_option maxRecDepth 100000 in
/-- C6 as stated fails: the sample snapshot with two site entries of the same
key `k1` is restored with success, the order list holds the key twice, and the
map entry of the first peer's ID is the second peer, not the first. -/
theorem initializePeersWithImport_commit_counterexample :
    importPeersFromTar sampleEnv sampleFS "samekey.tar.gz" = .ret [peerA, peerC] none
    ∧ finishPeer sampleEnv peerA = some peerA ∧ finishPeer sampleEnv peerC = some peerC
    ∧ initializePeersWithImport sampleEnv sampleFS emptyRegistry "samekey.tar.gz"
        = .ret { PeerMap := [("k1", peerC)], PeerMapOrder := ["k1", "k1"], nodeAccessor := true }
            none
    ∧ mapGet [("k1", peerC)] peerA.ID ≠ some peerA := by
  refine ⟨by decide, by decide, by decide, by decide, by decide⟩

/-- C6 amended, registry commit. After a successful restore that reconstructed
the peers `ps` and finished all of them as `qs`, `PeerMapOrder` is the list of
their IDs in archive order, and the map entry of every peer's ID is the last
finished peer with that ID; it is the peer itself whenever the IDs are
pairwise different. The map has no other keys. Both values are assigned
together and nowhere else: every return of the call leaves the registry as it
was, or has a nil error and has set both to the values built from one and the
same list of finished peers. -/
theorem initializePeersWithImport_commit (env : Env) (fs : FileSystem) (reg : Registry)
    (importFile : String) :
    (∀ (mode : FileMode) (ps qs : List Peer),
      fs.Stat importFile = .ok mode → reg.PeerMapOrder = [] →
      dispatchImport env fs mode importFile = .ret ps none →
      List.Forall₂ (fun p q => finishPeer env p = some q) ps qs →
      ∃ reg', initializePeersWithImport env fs reg importFile = .ret reg' none
        ∧ reg'.PeerMapOrder = qs.map (fun q => q.ID)
        ∧ (∀ q ∈ qs, mapGet reg'.PeerMap q.ID = (qs.filter (fun x => x.ID = q.ID)).getLast?)
        ∧ ((qs.map (fun q => q.ID)).Nodup → ∀ q ∈ qs, mapGet reg'.PeerMap q.ID = some q)
        ∧ (∀ k, k ∉ qs.map (fun q => q.ID) → mapGet reg'.PeerMap k = none))
    ∧ (∀ (reg' : Registry) (err : Option String),
      initializePeersWithImport env fs reg importFile = .ret reg' err →
      reg' = reg
      ∨ (err = none ∧ ∃ (mode : FileMode) (ps qs : List Peer),
          fs.Stat importFile = .ok mode ∧ reg.PeerMapOrder = []
          ∧ dispatchImport env fs mode importFile = .ret ps none
          ∧ List.Forall₂ (fun p q => finishPeer env p = some q) ps qs
          ∧ reg'.PeerMapOrder = qs.map (fun q => q.ID)
          ∧ reg'.PeerMap = qs.foldl (fun m q => mapSet m q.ID q) [])) := by
  constructor
  · intro mode ps qs hstat hempty himport hfinish
    have hget : ∀ k, mapGet (qs.foldl (fun m q => mapSet m q.ID q) []) k
        = (qs.filter (fun x => x.ID = k)).getLast? := by
      intro k
      rw [mapGet_foldl_mapSet]
      cases (qs.filter (fun q => decide (q.ID = k))).getLast? <;> rfl
    refine ⟨{ PeerMap := qs.foldl (fun m q => mapSet m q.ID q) [],
              PeerMapOrder := qs.map (fun q => q.ID), nodeAccessor := true }, ?_, rfl, ?_, ?_, ?_⟩
    · rw [initializePeersWithImport_empty env fs reg importFile mode hstat hempty]
      simp only [himport, finishPeers_ok env ps qs hfinish [] [], List.nil_append]
    · intro q _
      exact hget q.ID
    · intro hnd q hq
      show mapGet (qs.foldl (fun m q => mapSet m q.ID q) []) q.ID = some q
      rw [hget]
      have hf : qs.filter (fun x => decide (x.ID = q.ID)) = [q] := by
        clear hget hfinish himport
        induction qs with
        | nil => simp at hq
        | cons a l ih =>
          simp only [List.map_cons, List.nodup_cons, List.mem_map, not_exists, not_and] at hnd
          rcases List.mem_cons.mp hq with rfl | hq'
          · have : l.filter (fun x => decide (x.ID = q.ID)) = [] := by
              rw [List.filter_eq_nil_iff]
              intro x hx
              simpa using hnd.1 x hx
            simp [List.filter_cons, this]
          · have hne : ¬ a.ID = q.ID := fun h => hnd.1 q hq' h.symm
            simp only [List.filter_cons, hne, decide_False]
            exact ih hnd.2 hq'
      rw [hf]; rfl
    · intro k hk
      show mapGet (qs.foldl (fun m q => mapSet m q.ID q) []) k = none
      rw [hget]
      have : qs.filter (fun x => decide (x.ID = k)) = [] := by
        rw [List.filter_eq_nil_iff]
        intro x hx
        have : x.ID ≠ k := fun h => hk (List.mem_map.mpr ⟨x, hx, h⟩)
        simpa using this
      rw [this]; rfl
  · intro reg' err h
    cases hs : fs.Stat importFile with
    | error e0 =>
      rw [initializePeersWithImport_stat_error env fs reg importFile e0 hs] at h
      simp only [Result.ret.injEq] at h; exact Or.inl h.1.symm
    | ok mode =>
      by_cases hl : reg.PeerMapOrder = []
      · rw [initializePeersWithImport_empty env fs reg importFile mode hs hl] at h
        cases hd : dispatchImport env fs mode importFile with
        | panic => rw [hd] at h; simp at h
        | ret ps e =>
          rw [hd] at h
          cases e with
          | some e => simp only [Result.ret.injEq] at h; exact Or.inl h.1.symm
          | none =>
            simp only at h
            cases hf : finishPeers env ps [] [] with
            | panic => rw [hf] at h; simp at h
            | ret v e =>
              rw [hf] at h
              cases e with
              | some e => simp only [Result.ret.injEq] at h; exact Or.inl h.1.symm
              | none =>
                obtain ⟨qs, hq, hv⟩ := finishPeers_inv env ps [] [] v hf
                subst hv
                simp only [Result.ret.injEq] at h
                refine Or.inr ⟨h.2.symm, mode, ps, qs, rfl, hl, hd, hq, ?_, ?_⟩
                · rw [← h.1]; simp
                · rw [← h.1]
      · rw [initializePeersWithImport_loaded env fs reg importFile mode hs hl] at h
        simp only [Result.ret.injEq] at h; exact Or.inl h.1.symm

set_option maxRecDepth 100000 in
/-- Witness of C6 amended: the sample snapshot with two peers of different
keys. -/
theorem initializePeersWithImport_commit_witness :
    ∃ reg', initializePeersWithImport sampleEnv sampleFS emptyRegistry "two.tar.gz"
        = .ret reg' none
      ∧ reg'.PeerMapOrder = ["k1", "k2"]
      ∧ mapGet reg'.PeerMap "k2" = some peerB :=
  have h := (initializePeersWithImport_commit sampleEnv sampleFS emptyRegistry "two.tar.gz").1
    .regular
    [{ peerA with data := some { tables := [("hosts", hostsStore "A")] } }, peerB]
    [{ peerA with data := some { tables := [("hosts", hostsStore "A")] } }, peerB]
    rfl rfl (by decide) (.cons (by decide) (.cons (by decide) .nil))
  h.elim fun reg' hr => ⟨reg', hr.1, hr.2.1, hr.2.2.2.1 (by decide) peerB (by decide)⟩


/-! ## The per-entry handler `importPeerFromTar` -/

/-- The peer that lines 138-155 build from the eleven cells of the site row. -/
theorem buildSitePeer_eq_some (env : Env) (row : List Cell) (colIndex : String → Nat) (p : Peer)
    (h : buildSitePeer env row colIndex = some p) :
    ∃ cName cID cAddr cSection cFlags cStatus cLastUpdate cLastError cLastOnline cQueries
        cResponseTime,
      row[colIndex "peer_name"]? = some cName ∧ row[colIndex "peer_key"]? = some cID
      ∧ row[colIndex "addr"]? = some cAddr ∧ row[colIndex "section"]? = some cSection
      ∧ row[colIndex "flags"]? = some cFlags ∧ row[colIndex "status"]? = some cStatus
      ∧ row[colIndex "last_update"]? = some cLastUpdate
      ∧ row[colIndex "last_error"]? = some cLastError
      ∧ row[colIndex "last_online"]? = some cLastOnline
      ∧ row[colIndex "queries"]? = some cQueries
      ∧ row[colIndex "response_time"]? = some cResponseTime
      ∧ p = { Name := env.interface2stringNoDedup cName
              ID := env.interface2stringNoDedup cID
              Config :=
                { Name := env.interface2stringNoDedup cName
                  ID := env.interface2stringNoDedup cID
                  Source := [env.interface2stringNoDedup cAddr]
                  Section := env.interface2stringNoDedup cSection
                  Flags := env.interface2stringlist cFlags }
              Status :=
                [(.PeerState, .peerStatus (env.PeerStatus (env.interface2int cStatus))),
                 (.LastUpdate, .int64 (env.interface2int64 cLastUpdate)),
                 (.LastError, .string (env.interface2stringNoDedup cLastError)),
                 (.LastOnline, .int64 (env.interface2int64 cLastOnline)),
                 (.Queries, .int64 (env.interface2int64 cQueries)),
                 (.ResponseTime, .float64 (env.interface2float64 cResponseTime))]
              data := some { tables := [] } } := by
  unfold buildSitePeer at h
  simp only [Option.bind_eq_bind, Option.bind_eq_some, Option.pure_def, Option.some.injEq] at h
  obtain ⟨c1, h1, c2, h2, c3, h3, c4, h4, c5, h5, c6, h6, c7, h7, c8, h8, c9, h9, c10, h10,
    c11, h11, hp⟩ := h
  refine ⟨c1, c2, c3, c4, c5, c6, c7, c8, c9, c10, c11, h1, h2, h3, h4, h5, h6, h7, h8, h9,
    h10, h11, ?_⟩
  rw [← hp]
  simp [NewPeer, NewDataStoreSet, statusSet]

/-- The peer built by lines 138-155 when all eleven cells exist. -/
theorem buildSitePeer_of_cells (env : Env) (row : List Cell) (colIndex : String → Nat)
    (cName cID cAddr cSection cFlags cStatus cLastUpdate cLastError cLastOnline cQueries
      cResponseTime : Cell)
    (h1 : row[colIndex "peer_name"]? = some cName) (h2 : row[colIndex "peer_key"]? = some cID)
    (h3 : row[colIndex "addr"]? = some cAddr) (h4 : row[colIndex "section"]? = some cSection)
    (h5 : row[colIndex "flags"]? = some cFlags) (h6 : row[colIndex "status"]? = some cStatus)
    (h7 : row[colIndex "last_update"]? = some cLastUpdate)
    (h8 : row[colIndex "last_error"]? = some cLastError)
    (h9 : row[colIndex "last_online"]? = some cLastOnline)
    (h10 : row[colIndex "queries"]? = some cQueries)
    (h11 : row[colIndex "response_time"]? = some cResponseTime) :
    buildSitePeer env row colIndex
      = some { Name := env.interface2stringNoDedup cName
               ID := env.interface2stringNoDedup cID
               Config :=
                 { Name := env.interface2stringNoDedup cName
                   ID := env.interface2stringNoDedup cID
                   Source := [env.interface2stringNoDedup cAddr]
                   Section := env.interface2stringNoDedup cSection
                   Flags := env.interface2stringlist cFlags }
               Status :=
                 [(.PeerState, .peerStatus (env.PeerStatus (env.interface2int cStatus))),
                  (.LastUpdate, .int64 (env.interface2int64 cLastUpdate)),
                  (.LastError, .string (env.interface2stringNoDedup cLastError)),
                  (.LastOnline, .int64 (env.interface2int64 cLastOnline)),
                  (.Queries, .int64 (env.interface2int64 cQueries)),
                  (.ResponseTime, .float64 (env.interface2float64 cResponseTime))]
               data := some { tables := [] } } := by
  unfold buildSitePeer
  simp [h1, h2, h3, h4, h5, h6, h7, h8, h9, h10, h11, NewPeer, NewDataStoreSet, statusSet]

/-- A freshly built site peer has an empty DataStoreSet. -/
theorem buildSitePeer_data (env : Env) (row : List Cell) (colIndex : String → Nat) (p : Peer)
    (h : buildSitePeer env row colIndex = some p) : p.data = some { tables := [] } := by
  obtain ⟨_, _, _, _, _, _, _, _, _, _, _, _, _, _, _, _, _, _, _, _, _, _, hp⟩ :=
    buildSitePeer_eq_some env row colIndex p h
  rw [hp]

/-- The handler when `importTarFile` reports an error: the peer list comes
back as it was, with the wrapped error. -/
theorem importPeerFromTar_of_err (env : Env) (peers : List Peer) (header : Header)
    (tarReader : Reader) (tableName e : String)
    (hname : (FindStringSubmatch header.Name)[1]? = some tableName)
    (herr : (importTarFile env tableName tarReader header.Size).err = some e) :
    importPeerFromTar env peers header tarReader = .ret peers (some ("import error: " ++ e)) := by
  unfold importPeerFromTar
  simp only [hname, herr]

/-- The handler when `importTarFile` succeeds: the site block followed by the
insert block. -/
theorem importPeerFromTar_of_ok (env : Env) (peers : List Peer) (header : Header)
    (tarReader : Reader) (tableName : String) (table : Table) (rows : ResultSet)
    (columns : ColumnList)
    (hname : (FindStringSubmatch header.Name)[1]? = some tableName)
    (htar : importTarFile env tableName tarReader header.Size = ⟨some table, rows, columns, none⟩) :
    importPeerFromTar env peers header tarReader
      = match siteBlock env header.Name table rows (mkColIndex columns) peers peers.getLast? with
        | .error res => res
        | .ok (peers, p) => insertBlock env table rows columns peers p := by
  unfold importPeerFromTar
  simp only [hname, htar]

/-- The table field of the result of `importTarFile` is the resolved table. -/
theorem importTarFile_table (env : Env) (tableName : String) (tarReader : Reader) (size : Nat) :
    (importTarFile env tableName tarReader size).table = findTable env tableName := by
  unfold importTarFile
  cases findTable env tableName with
  | none => rfl
  | some table =>
    simp only
    repeat' split
    all_goals rfl

/-- Where the sites table is virtual, a stored table that the registry
resolves is not the sites table. -/
theorem ne_sites_of_stored (env : Env) (tableName : String) (table : Table)
    (hsv : sitesVirtual env = true) (ht : findTable env tableName = some table)
    (hvirt : table.Virtual = false) : table.Name ≠ env.TableSites := by
  intro e
  have hmem := findTable_mem env tableName table ht
  have := List.all_eq_true.mp hsv table hmem
  simp [e, hvirt] at this

/-- The table of a successful result of `importTarFile` is the resolved table. -/
theorem findTable_of_importTarFile (env : Env) (tableName : String) (tarReader : Reader)
    (size : Nat) (table : Table) (rows : ResultSet) (columns : ColumnList)
    (htar : importTarFile env tableName tarReader size = ⟨some table, rows, columns, none⟩) :
    findTable env tableName = some table := by
  rw [← importTarFile_table env tableName tarReader size, htar]

/-- The site block for a table other than the sites table does nothing. -/
theorem siteBlock_other (env : Env) (filename : String) (table : Table) (rows : ResultSet)
    (colIndex : String → Nat) (peers : List Peer) (p : Option Peer)
    (h : table.Name ≠ env.TableSites) :
    siteBlock env filename table rows colIndex peers p = .ok (peers, p) := by
  simp [siteBlock, h]

/-- The site block for the sites table with exactly one row. -/
theorem siteBlock_one_row (env : Env) (filename : String) (table : Table) (row : List Cell)
    (colIndex : String → Nat) (peers : List Peer) (p : Option Peer)
    (h : table.Name = env.TableSites) :
    siteBlock env filename table [row] colIndex peers p
      = match buildSitePeer env row colIndex with
        | none => .error .panic
        | some p => .ok (peers ++ [p], some p) := by
  simp [siteBlock, h]

/-- The site block for the sites table with a number of rows other than one. -/
theorem siteBlock_wrong_rows (env : Env) (filename : String) (table : Table) (rows : ResultSet)
    (colIndex : String → Nat) (peers : List Peer) (p : Option Peer)
    (h : table.Name = env.TableSites) (hrows : rows.length ≠ 1) :
    siteBlock env filename table rows colIndex peers p
      = .error (.ret peers (some ("wrong number of site rows in " ++ filename ++
          ", expected 1 but got: " ++ toString rows.length))) := by
  unfold siteBlock
  simp only [h, if_true]
  split
  · simp at hrows
  · rfl

/-- Result of `importTarFile` in terms of its fields when there is no error. -/
theorem importTarFile_eq_of_ok (env : Env) (tableName : String) (tarReader : Reader) (size : Nat)
    (table : Table) (htable : findTable env tableName = some table)
    (herr : (importTarFile env tableName tarReader size).err = none) :
    importTarFile env tableName tarReader size
      = ⟨some table, (importTarFile env tableName tarReader size).rows,
          (importTarFile env tableName tarReader size).columns, none⟩ := by
  have ht := importTarFile_table env tableName tarReader size
  rw [htable] at ht
  generalize importTarFile env tableName tarReader size = r at *
  cases r
  simp only at ht herr
  simp [ht, herr]

/-- The header loop does not depend on `isOnline` or `InsertData`. -/
theorem bindColumns_env (env : Env) (isOnline' : Peer → Bool)
    (InsertData' : DataStore → ResultSet → ColumnList → Except String DataStore)
    (table : Table) (row : List Cell) (acc : ColumnList) :
    bindColumns { env with isOnline := isOnline', InsertData := InsertData' } table row acc
      = bindColumns env table row acc := by
  induction row generalizing acc with
  | nil => rfl
  | cons c rest ih =>
    unfold bindColumns
    simp only [ih]

/-- The function `importTarFile` does not depend on `isOnline` or `InsertData`. -/
theorem importTarFile_env (env : Env) (isOnline' : Peer → Bool)
    (InsertData' : DataStore → ResultSet → ColumnList → Except String DataStore)
    (tableName : String) (tarReader : Reader) (size : Nat) :
    importTarFile { env with isOnline := isOnline', InsertData := InsertData' } tableName
        tarReader size
      = importTarFile env tableName tarReader size := by
  have hf : findTable { env with isOnline := isOnline', InsertData := InsertData' } tableName
      = findTable env tableName := rfl
  unfold importTarFile
  simp only [hf, bindColumns_env]

/-- The insert block for a virtual table returns the peer list untouched. -/
theorem insertBlock_virtual (env : Env) (table : Table) (rows : ResultSet) (columns : ColumnList)
    (peers : List Peer) (p : Option Peer) (h : table.Virtual = true) :
    insertBlock env table rows columns peers p = .ret peers none := by
  simp [insertBlock, h]

/-- C4, virtual-table exclusion. For a regular-file entry that resolves to a
table marked virtual, `importPeerFromTar` still runs `importTarFile`, so every
error of the parse and header validation is reported (bad content and a
missing header are spelled out); on a successful parse no DataStore is
created or recorded, whatever the current peer and its online state are: the
returned peer list is the given one, or (for the sites table) the given one
followed by the new peer with an empty DataStoreSet, the result for a table
other than sites is the unchanged list with a nil error, and the whole result
does not depend on `isOnline` or `InsertData`. -/
theorem importPeerFromTar_virtual (env : Env) (peers : List Peer) (header : Header)
    (tarReader : Reader) (tableName : String) (table : Table)
    (hname : (FindStringSubmatch header.Name)[1]? = some tableName)
    (htable : findTable env tableName = some table) (hvirt : table.Virtual = true) :
    (∀ e, (importTarFile env tableName tarReader header.Size).err = some e →
        importPeerFromTar env peers header tarReader = .ret peers (some ("import error: " ++ e)))
    ∧ (∀ e, tarReader.err = none → tarReader.data.length = header.Size →
        env.NewResultSet tarReader.data = .error e →
        importPeerFromTar env peers header tarReader
          = .ret peers (some ("import error: " ++ ("parse error: " ++ e))))
    ∧ (tarReader.err = none → tarReader.data.length = header.Size →
        env.NewResultSet tarReader.data = .ok [] →
        importPeerFromTar env peers header tarReader
          = .ret peers (some ("import error: " ++ "missing column header")))
    ∧ ((importTarFile env tableName tarReader header.Size).err = none →
        (∀ peers' err, importPeerFromTar env peers header tarReader = .ret peers' err →
          peers' = peers ∨ ∃ p, peers' = peers ++ [p] ∧ p.data = some { tables := [] } ∧ err = none)
        ∧ (table.Name ≠ env.TableSites →
            importPeerFromTar env peers header tarReader = .ret peers none))
    ∧ (∀ (isOnline' : Peer → Bool)
        (InsertData' : DataStore → ResultSet → ColumnList → Except String DataStore),
        importPeerFromTar { env with isOnline := isOnline', InsertData := InsertData' }
            peers header tarReader
          = importPeerFromTar env peers header tarReader) := by
  refine ⟨?_, ?_, ?_, ?_, ?_⟩
  · intro e herr
    exact importPeerFromTar_of_err env peers header tarReader tableName e hname herr
  · intro e hread hsize hparse
    apply importPeerFromTar_of_err env peers header tarReader tableName _ hname
    simp [importTarFile, htable, hread, hsize, hparse]
  · intro hread hsize hparse
    apply importPeerFromTar_of_err env peers header tarReader tableName _ hname
    simp [importTarFile, htable, hread, hsize, hparse]
  · intro herr
    have hres := importTarFile_eq_of_ok env tableName tarReader header.Size table htable herr
    have himp := importPeerFromTar_of_ok env peers header tarReader tableName table _ _ hname hres
    constructor
    · intro peers' err h
      rw [himp] at h
      by_cases hs : table.Name = env.TableSites
      · generalize (importTarFile env tableName tarReader header.Size).rows = rows at h
        generalize (importTarFile env tableName tarReader header.Size).columns = columns at h
        by_cases hrows : rows.length = 1
        · obtain ⟨row, hrow⟩ := List.length_eq_one.mp hrows
          subst hrow
          rw [siteBlock_one_row env _ table row _ peers _ hs] at h
          cases hb : buildSitePeer env row (mkColIndex columns) with
          | none => rw [hb] at h; simp at h
          | some p =>
            rw [hb] at h
            simp only [insertBlock_virtual env table _ _ _ _ hvirt, Result.ret.injEq] at h
            exact Or.inr ⟨p, h.1.symm, buildSitePeer_data env row _ p hb, h.2.symm⟩
        · rw [siteBlock_wrong_rows env _ table rows _ peers _ hs hrows] at h
          simp only [Result.ret.injEq] at h
          exact Or.inl h.1.symm
      · rw [siteBlock_other env _ table _ _ peers _ hs] at h
        simp only [insertBlock_virtual env table _ _ _ _ hvirt, Result.ret.injEq] at h
        exact Or.inl h.1.symm
    · intro hs
      rw [himp, siteBlock_other env _ table _ _ peers _ hs]
      simp only [insertBlock_virtual env table _ _ _ _ hvirt]
  · intro isOnline' InsertData'
    unfold importPeerFromTar
    simp only [hname, importTarFile_env]
    cases herr : (importTarFile env tableName tarReader header.Size).err with
    | some e => rfl
    | none =>
      have hres := importTarFile_eq_of_ok env tableName tarReader header.Size table htable herr
      rw [hres]
      simp only
      have e2 : ∀ fn rows ci ps p,
          siteBlock { env with isOnline := isOnline', InsertData := InsertData' } fn table rows ci ps p
            = siteBlock env fn table rows ci ps p := fun _ _ _ _ _ => rfl
      rw [e2]
      cases siteBlock env header.Name table (importTarFile env tableName tarReader header.Size).rows
          (mkColIndex (importTarFile env tableName tarReader header.Size).columns) peers
          peers.getLast? with
      | error res => rfl
      | ok v =>
        simp only [insertBlock_virtual _ table _ _ _ _ hvirt]

set_option maxRecDepth 100000 in
/-- Witness of C4: a well-formed file of the virtual sample table `columns`
leaves an online peer without any store. -/
theorem importPeerFromTar_virtual_witness :
    (findTable sampleEnv "columns" = some columnsTable ∧ columnsTable.Virtual = true)
    ∧ importPeerFromTar sampleEnv [peerA] ⟨"peer1/columns.json", TypeReg, 22⟩
        (fileOf "name,table\nstate,hosts") = .ret [peerA] none :=
  ⟨⟨by decide, rfl⟩,
    ((importPeerFromTar_virtual sampleEnv [peerA] ⟨"peer1/columns.json", TypeReg, 22⟩
      (fileOf "name,table\nstate,hosts") "columns" columnsTable (by decide) (by decide) rfl).2.2.2.1
      (by decide)).2 (by decide)⟩


/-- An error returned by the insert block is the insertion error. -/
theorem insertBlock_err (env : Env) (table : Table) (rows : ResultSet) (columns : ColumnList)
    (peers : List Peer) (p : Option Peer) (peers' : List Peer) (e : String)
    (h : insertBlock env table rows columns peers p = .ret peers' (some e)) :
    ∃ x, e = "failed to insert data: " ++ x := by
  unfold insertBlock at h
  cases hv : table.Virtual with
  | true => simp [hv] at h
  | false =>
    simp only [hv, Bool.false_eq_true, if_false] at h
    cases p with
    | none => simp at h
    | some p =>
      simp only at h
      cases ho : env.isOnline p with
      | false => simp [ho] at h
      | true =>
        simp only [ho, if_true] at h
        cases hi : env.InsertData (NewDataStore table p) rows columns with
        | error x =>
          rw [hi] at h
          simp only [Result.ret.injEq, Option.some.injEq] at h
          exact ⟨x, h.2.symm⟩
        | ok store =>
          rw [hi] at h
          cases hd : p.data with
          | none => rw [hd] at h; simp at h
          | some d => rw [hd] at h; simp at h

/-- C8, site row count. For an entry that resolves to the sites table and
parses with a number of data rows other than one, `importPeerFromTar` returns
the peer list it was given together with the error naming the entry and the
row count; an archive that reaches such an entry makes `importPeersFromTar`
return a nil peer list and an error, and the restore fails with the registry
as it was. With exactly one data row the error is not raised. -/
theorem importPeerFromTar_site_row_count (env : Env) (peers : List Peer) (header : Header)
    (tarReader : Reader) (tableName : String) (table : Table) (rows : ResultSet)
    (columns : ColumnList)
    (hname : (FindStringSubmatch header.Name)[1]? = some tableName)
    (htar : importTarFile env tableName tarReader header.Size = ⟨some table, rows, columns, none⟩)
    (hsites : table.Name = env.TableSites) :
    (rows.length ≠ 1 →
      importPeerFromTar env peers header tarReader
          = .ret peers (some ("wrong number of site rows in " ++ header.Name ++
              ", expected 1 but got: " ++ toString rows.length))
      ∧ ∀ (fs : FileSystem) (tarFile : String) (a : Archive) (pre post : List (Header × Reader)),
          fs.Open tarFile = .archive a → a.entries = pre ++ (header, tarReader) :: post →
          header.Typeflag = TypeReg → tarLoop env tarFile none [] pre = .ret peers none →
          importPeersFromTar env fs tarFile
              = .ret [] (some ("gzip/tarball error " ++ tarFile ++ " in file " ++ header.Name ++
                  ": " ++ ("wrong number of site rows in " ++ header.Name ++
                    ", expected 1 but got: " ++ toString rows.length)))
          ∧ ∀ reg : Registry, fs.Stat tarFile = .ok .regular → reg.PeerMapOrder = [] →
              initializePeersWithImport env fs reg tarFile
                = .ret reg (some ("import failed: " ++ ("gzip/tarball error " ++ tarFile ++
                    " in file " ++ header.Name ++ ": " ++ ("wrong number of site rows in " ++
                      header.Name ++ ", expected 1 but got: " ++ toString rows.length)))))
    ∧ (rows.length = 1 → ∀ (peers' : List Peer) (rest : String),
        importPeerFromTar env peers header tarReader
          ≠ .ret peers' (some ("wrong number of site rows in " ++ rest))) := by
  have himp := importPeerFromTar_of_ok env peers header tarReader tableName table rows columns
    hname htar
  constructor
  · intro hrows
    have h1 : importPeerFromTar env peers header tarReader
        = .ret peers (some ("wrong number of site rows in " ++ header.Name ++
            ", expected 1 but got: " ++ toString rows.length)) := by
      rw [himp, siteBlock_wrong_rows env _ table rows _ peers _ hsites hrows]
    refine ⟨h1, ?_⟩
    intro fs tarFile a pre post hopen hentries hreg hpre
    have h2 := importPeersFromTar_failing_entry env fs tarFile a pre post header tarReader
      peers peers _ hopen hentries hpre hreg h1
    refine ⟨h2, ?_⟩
    intro reg hstat hempty
    rw [initializePeersWithImport_empty env fs reg tarFile .regular hstat hempty]
    simp only [dispatchImport, h2]
  · intro hrows peers' rest h
    obtain ⟨row, hrow⟩ := List.length_eq_one.mp hrows
    subst hrow
    rw [himp, siteBlock_one_row env _ table row _ peers _ hsites] at h
    cases hb : buildSitePeer env row (mkColIndex columns) with
    | none => rw [hb] at h; simp at h
    | some p =>
      rw [hb] at h
      obtain ⟨x, hx⟩ := insertBlock_err env table _ _ _ _ _ _ h
      exact str_append_ne _ _ _ _ (by intro u v; simp) hx.symm

set_option maxRecDepth 100000 in
/-- Witness of C8: the sample snapshot whose sites file has two data rows. -/
theorem importPeerFromTar_site_row_count_witness :
    importPeerFromTar sampleEnv [] (regEntry "peer1/sites.json" sitesTwoRows).1
        (regEntry "peer1/sites.json" sitesTwoRows).2
      = .ret [] (some "wrong number of site rows in peer1/sites.json, expected 1 but got: 2")
    ∧ initializePeersWithImport sampleEnv sampleFS emptyRegistry "tworows.tar.gz"
      = .ret emptyRegistry (some ("import failed: gzip/tarball error tworows.tar.gz in file " ++
          "peer1/sites.json: wrong number of site rows in peer1/sites.json, " ++
          "expected 1 but got: 2")) :=
  have h := (importPeerFromTar_site_row_count sampleEnv []
    (regEntry "peer1/sites.json" sitesTwoRows).1 (regEntry "peer1/sites.json" sitesTwoRows).2
    "sites" sitesTable
    [[.str "A", .str "k1", .str "host:6557", .str "sec", .strs ["f1", "f2"], .num 0, .num 100,
        .str "none", .num 90, .num 7, .num 3],
      [.str "B", .str "k2", .str "host:6558", .str "sec", .str "f1", .num 2, .num 100,
        .str "down", .num 90, .num 7, .num 3]]
    sitesTable.Columns (by decide) (by decide) rfl).1 (by decide)
  ⟨h.1, (h.2 sampleFS "tworows.tar.gz"
    ⟨[dirEntry "peer1/", regEntry "peer1/sites.json" sitesTwoRows], none⟩
    [dirEntry "peer1/"] [] rfl rfl rfl (by decide)).2 emptyRegistry rfl rfl⟩


/-- The insert block for a stored table without a current peer. -/
theorem insertBlock_no_peer (env : Env) (table : Table) (rows : ResultSet) (columns : ColumnList)
    (peers : List Peer) : insertBlock env table rows columns peers none = .ret peers none := by
  unfold insertBlock
  split <;> rfl

/-- The insert block for a current peer that is not online. -/
theorem insertBlock_offline (env : Env) (table : Table) (rows : ResultSet) (columns : ColumnList)
    (peers : List Peer) (p : Peer) (h : env.isOnline p = false) :
    insertBlock env table rows columns peers (some p) = .ret peers none := by
  unfold insertBlock
  split
  · rfl
  · simp [h]

/-- The insert block for a stored table and an online current peer. -/
theorem insertBlock_online (env : Env) (table : Table) (rows : ResultSet) (columns : ColumnList)
    (peers : List Peer) (p : Peer) (hv : table.Virtual = false) (h : env.isOnline p = true) :
    insertBlock env table rows columns peers (some p)
      = match env.InsertData (NewDataStore table p) rows columns with
        | .error e => .ret peers (some ("failed to insert data: " ++ e))
        | .ok store =>
          match p.data with
          | none => .panic
          | some d =>
            .ret (peers.dropLast ++ [{ p with data := some (d.Set table.Name store) }]) none := by
  unfold insertBlock
  simp [hv, h]

/-- C3, online gating. For a successfully parsed entry of a non-virtual
table, `importPeerFromTar` creates a DataStore, inserts the rows and records
the store in the current peer's DataStoreSet only if a current peer exists and
`isOnline` holds for it: when the current peer is absent or not online, the
peer list is returned unchanged with a nil error, whatever `InsertData` is (no
row is inserted and no store recorded); when it exists and is online, the
result is that of the insertion; and a returned list that differs from the
given one implies an online current peer. The registry marks the sites table
virtual, so the entry is not a sites entry and the current peer is the last
peer of the list. -/
theorem importPeerFromTar_online_gating (env : Env) (peers : List Peer) (header : Header)
    (tarReader : Reader) (tableName : String) (table : Table) (rows : ResultSet)
    (columns : ColumnList)
    (hname : (FindStringSubmatch header.Name)[1]? = some tableName)
    (htar : importTarFile env tableName tarReader header.Size = ⟨some table, rows, columns, none⟩)
    (hvirt : table.Virtual = false) (hsv : sitesVirtual env = true) :
    (peers.getLast? = none → importPeerFromTar env peers header tarReader = .ret peers none)
    ∧ (∀ p, peers.getLast? = some p → env.isOnline p = false →
        importPeerFromTar env peers header tarReader = .ret peers none)
    ∧ (∀ InsertData' : DataStore → ResultSet → ColumnList → Except String DataStore,
        (peers.getLast? = none ∨ ∃ p, peers.getLast? = some p ∧ env.isOnline p = false) →
        importPeerFromTar { env with InsertData := InsertData' } peers header tarReader
          = .ret peers none)
    ∧ (∀ p, peers.getLast? = some p → env.isOnline p = true →
        importPeerFromTar env peers header tarReader
          = match env.InsertData (NewDataStore table p) rows columns with
            | .error e => .ret peers (some ("failed to insert data: " ++ e))
            | .ok store =>
              match p.data with
              | none => .panic
              | some d =>
                .ret (peers.dropLast ++ [{ p with data := some (d.Set table.Name store) }]) none)
    ∧ (∀ (peers' : List Peer) (err : Option String),
        importPeerFromTar env peers header tarReader = .ret peers' err →
        peers' ≠ peers ∨ err ≠ none →
        ∃ p, peers.getLast? = some p ∧ env.isOnline p = true) := by
  have hs : table.Name ≠ env.TableSites :=
    ne_sites_of_stored env tableName table hsv
      (findTable_of_importTarFile env tableName tarReader header.Size table rows columns htar)
      hvirt
  have key : ∀ env' : Env, env'.TableSites = env.TableSites → env'.isOnline = env.isOnline →
      importTarFile env' tableName tarReader header.Size = ⟨some table, rows, columns, none⟩ →
      (peers.getLast? = none → importPeerFromTar env' peers header tarReader = .ret peers none)
      ∧ (∀ p, peers.getLast? = some p → env.isOnline p = false →
          importPeerFromTar env' peers header tarReader = .ret peers none) := by
    intro env' hts hio htar'
    have hs' : table.Name ≠ env'.TableSites := by rw [hts]; exact hs
    rw [importPeerFromTar_of_ok env' peers header tarReader tableName table rows columns hname
      htar', siteBlock_other env' _ table _ _ peers _ hs']
    refine ⟨?_, ?_⟩
    · intro hn
      rw [hn]
      exact insertBlock_no_peer env' table rows columns peers
    · intro p hp ho
      rw [hp]
      exact insertBlock_offline env' table rows columns peers p (by rw [hio]; exact ho)
  have hmain := key env rfl rfl htar
  refine ⟨hmain.1, hmain.2, ?_, ?_, ?_⟩
  · intro InsertData' hcur
    have h' := key { env with InsertData := InsertData' } rfl rfl
      (by rw [importTarFile_env env env.isOnline InsertData', htar])
    rcases hcur with hn | ⟨p, hp, ho⟩
    · exact h'.1 hn
    · exact h'.2 p hp ho
  · intro p hp ho
    rw [importPeerFromTar_of_ok env peers header tarReader tableName table rows columns hname
      htar, siteBlock_other env _ table _ _ peers _ hs, hp]
    exact insertBlock_online env table rows columns peers p hvirt ho
  · intro peers' err h hne
    cases hl : peers.getLast? with
    | none =>
      rw [hmain.1 hl] at h
      simp only [Result.ret.injEq] at h
      rcases hne with hne | hne
      · exact absurd h.1.symm hne
      · exact absurd h.2.symm hne
    | some p =>
      cases ho : env.isOnline p with
      | true => exact ⟨p, rfl, ho⟩
      | false =>
        rw [hmain.2 p hl ho] at h
        simp only [Result.ret.injEq] at h
        rcases hne with hne | hne
        · exact absurd h.1.symm hne
        · exact absurd h.2.symm hne

set_option maxRecDepth 100000 in
/-- Witness of C3: the hosts file of the sample snapshot is not stored for the
peer that is not online. -/
theorem importPeerFromTar_online_gating_witness :
    (sitesVirtual sampleEnv = true ∧ sampleEnv.isOnline peerB = false)
    ∧ importPeerFromTar sampleEnv [peerA, peerB] (regEntry "peer2/hosts.json" hostsFile).1
        (regEntry "peer2/hosts.json" hostsFile).2 = .ret [peerA, peerB] none :=
  ⟨⟨by decide, by decide⟩,
    (importPeerFromTar_online_gating sampleEnv [peerA, peerB]
      (regEntry "peer2/hosts.json" hostsFile).1 (regEntry "peer2/hosts.json" hostsFile).2
      "hosts" hostsTable [[.str "h1", .num 0], [.str "h2", .num 1]] hostsTable.Columns
      (by decide) (by decide) rfl (by decide)).2.1 peerB rfl (by decide)⟩

/-! ## Decoding of the site row -/

/-- The map `colIndex` after one more column. -/
theorem mkColIndex_concat (columns : ColumnList) (c : Column) (k : String) :
    mkColIndex (columns ++ [c]) k = if k = c.Name then columns.length else mkColIndex columns k := by
  unfold mkColIndex
  rw [List.enum_append, List.foldl_append]
  simp [List.enumFrom]

/-- For a column name that occurs exactly once in the header, the map
`colIndex` gives its header position. -/
theorem mkColIndex_eq_indexOf (columns : ColumnList) (k : String)
    (h : (columns.map (fun c => c.Name)).count k = 1) :
    mkColIndex columns k = (columns.map (fun c => c.Name)).indexOf k := by
  induction columns using List.reverseRecOn with
  | nil => simp at h
  | append_singleton cols c ih =>
    rw [mkColIndex_concat]
    simp only [List.map_append, List.map_cons, List.map_nil, List.count_append,
      List.count_singleton] at h
    by_cases hk : k = c.Name
    · subst hk
      simp only [beq_self_eq_true, if_true] at h
      have h0 : (cols.map (fun c => c.Name)).count c.Name = 0 := by omega
      have hnm : c.Name ∉ cols.map (fun c => c.Name) := List.count_eq_zero.mp h0
      simp only [if_true, List.map_append, List.map_cons, List.map_nil]
      rw [List.indexOf_append_of_not_mem hnm]
      simp
    · have hk' : ¬ (c.Name == k) = true := by
        simp only [beq_iff_eq]
        exact fun e => hk e.symm
      simp only [hk', if_false, Nat.add_zero] at h
      have hm : k ∈ cols.map (fun c => c.Name) := by
        by_contra hn
        rw [List.count_eq_zero.mpr hn] at h
        exact absurd h (by decide)
      simp only [hk, if_false, List.map_append, List.map_cons, List.map_nil]
      rw [List.indexOf_append_of_mem hm]
      exact ih h

/-- The cell at the header position of a name is the cell paired with the
first column of that name, when header and row have the same length. -/
theorem getElem?_indexOf_eq_find?_zip (columns : ColumnList) (row : List Cell) (k : String)
    (hlen : columns.length = row.length) :
    row[(columns.map (fun c => c.Name)).indexOf k]?
      = ((columns.zip row).find? (fun cr => cr.1.Name = k)).map (fun cr => cr.2) := by
  induction columns generalizing row with
  | nil =>
    cases row with
    | nil => simp
    | cons r rs => simp at hlen
  | cons c cs ih =>
    cases row with
    | nil => simp at hlen
    | cons r rs =>
      simp only [List.length_cons, Nat.succ.injEq, add_left_inj] at hlen
      by_cases hc : c.Name = k
      · simp [List.indexOf_cons_eq, hc, List.find?_cons]
      · simp only [List.map_cons, List.zip_cons_cons, List.find?_cons, hc, decide_False]
        rw [List.indexOf_cons_ne _ hc]
        simp only [List.getElem?_cons_succ]
        exact ih rs hlen

/-- The first element satisfying a predicate that exactly one element
satisfies is the same in every permutation of the list. -/
theorem find?_perm_of_countP_one {α : Type} (p : α → Bool) (l₁ l₂ : List α)
    (hp : List.Perm l₁ l₂) (h : l₁.countP p = 1) : l₁.find? p = l₂.find? p := by
  rw [← List.filter_head?, ← List.filter_head?]
  have hlen : (l₁.filter p).length = 1 := by rw [← List.countP_eq_length_filter]; exact h
  obtain ⟨x, hx⟩ := List.length_eq_one.mp hlen
  have h2 : l₂.filter p = [x] := by
    have := (hp.filter p).symm
    rw [hx] at this
    exact this.eq_singleton
  rw [hx, h2]

/-- The site peer depends on the row and the map `colIndex` only through the
cells found for the eleven site column names. -/
theorem buildSitePeer_congr (env : Env) (row row2 : List Cell) (ci ci2 : String → Nat)
    (h : ∀ n ∈ siteColumnNames, row2[ci2 n]? = row[ci n]?) :
    buildSitePeer env row2 ci2 = buildSitePeer env row ci := by
  unfold buildSitePeer
  rw [h "peer_name" (by decide), h "peer_key" (by decide), h "addr" (by decide),
    h "section" (by decide), h "flags" (by decide), h "status" (by decide),
    h "last_update" (by decide), h "last_error" (by decide), h "last_online" (by decide),
    h "queries" (by decide), h "response_time" (by decide)]

/-- The insert block right after the site block: the list ends with the new
peer, whose identity, connection and status the insertion does not change. -/
theorem insertBlock_after_site (env : Env) (table : Table) (rows : ResultSet)
    (columns : ColumnList) (peers : List Peer) (p0 : Peer) (d : DataStoreSet)
    (hd : p0.data = some d) :
    ∃ p err, insertBlock env table rows columns (peers ++ [p0]) (some p0) = .ret (peers ++ [p]) err
      ∧ p.Config = p0.Config ∧ p.Status = p0.Status ∧ p.Name = p0.Name ∧ p.ID = p0.ID := by
  cases hv : table.Virtual with
  | true => exact ⟨p0, none, insertBlock_virtual env table _ _ _ _ hv, rfl, rfl, rfl, rfl⟩
  | false =>
    cases ho : env.isOnline p0 with
    | false => exact ⟨p0, none, insertBlock_offline env table _ _ _ p0 ho, rfl, rfl, rfl, rfl⟩
    | true =>
      rw [insertBlock_online env table _ _ _ p0 hv ho, hd]
      cases env.InsertData (NewDataStore table p0) rows columns with
      | error e => exact ⟨p0, _, rfl, rfl, rfl, rfl, rfl⟩
      | ok store =>
        refine ⟨{ p0 with data := some (d.Set table.Name store) }, none, ?_, rfl, rfl, rfl, rfl⟩
        simp only [List.dropLast_concat]

set_option maxRecDepth 100000 in
/-- C7 as stated fails: the sample sites file `sitesShortRow` has exactly one
data row and a header that holds each of the eleven site column names exactly
once, but the row has two cells only, so the cell at the header position of
`addr` does not exist: the handler panics and builds no peer. -/
theorem importPeerFromTar_site_decoding_counterexample :
    importTarFile sampleEnv "sites" (regEntry "peer1/sites.json" sitesShortRow).2
        (regEntry "peer1/sites.json" sitesShortRow).1.Size
      = ⟨some sitesTable, [[.str "A", .str "k1"]], sitesTable.Columns, none⟩
    ∧ sitesTable.Name = sampleEnv.TableSites
    ∧ (∀ n ∈ siteColumnNames, (sitesTable.Columns.map (fun c => c.Name)).count n = 1)
    ∧ importPeerFromTar sampleEnv [] (regEntry "peer1/sites.json" sitesShortRow).1
        (regEntry "peer1/sites.json" sitesShortRow).2 = .panic := by
  refine ⟨by decide, rfl, by decide, by decide⟩

/-- C7 amended, site-identity decoding. For a sites entry that parses to exactly one
data row and whose header holds each of the eleven site column names exactly
once, the row having a cell at each of these header positions,
`importPeerFromTar` appends a new peer built from the cell at the header
position of each name: the connection from `peer_name`, `peer_key`, `addr`
(as a one-element list), `section` and `flags`, and the six status fields from
`status`, `last_update`, `last_error`, `last_online`, `queries` and
`response_time`, each through its decoder. The peer built does not depend on
the order of the columns: permuting header and row together gives the same
peer. -/
theorem importPeerFromTar_site_decoding (env : Env) (peers : List Peer) (header : Header)
    (tarReader : Reader) (tableName : String) (table : Table) (row : List Cell)
    (columns : ColumnList)
    (hname : (FindStringSubmatch header.Name)[1]? = some tableName)
    (htar : importTarFile env tableName tarReader header.Size
      = ⟨some table, [row], columns, none⟩)
    (hsites : table.Name = env.TableSites)
    (hOnce : ∀ n ∈ siteColumnNames, (columns.map (fun c => c.Name)).count n = 1)
    (hCells : ∀ n ∈ siteColumnNames, (columns.map (fun c => c.Name)).indexOf n < row.length) :
    (∃ p err, importPeerFromTar env peers header tarReader = .ret (peers ++ [p]) err
      ∧ p.Config =
          { Name := env.interface2stringNoDedup (headerCell columns row "peer_name")
            ID := env.interface2stringNoDedup (headerCell columns row "peer_key")
            Source := [env.interface2stringNoDedup (headerCell columns row "addr")]
            Section := env.interface2stringNoDedup (headerCell columns row "section")
            Flags := env.interface2stringlist (headerCell columns row "flags") }
      ∧ statusGet p.Status .PeerState
          = some (.peerStatus (env.PeerStatus (env.interface2int (headerCell columns row "status"))))
      ∧ statusGet p.Status .LastUpdate
          = some (.int64 (env.interface2int64 (headerCell columns row "last_update")))
      ∧ statusGet p.Status .LastError
          = some (.string (env.interface2stringNoDedup (headerCell columns row "last_error")))
      ∧ statusGet p.Status .LastOnline
          = some (.int64 (env.interface2int64 (headerCell columns row "last_online")))
      ∧ statusGet p.Status .Queries
          = some (.int64 (env.interface2int64 (headerCell columns row "queries")))
      ∧ statusGet p.Status .ResponseTime
          = some (.float64 (env.interface2float64 (headerCell columns row "response_time")))
      ∧ p.Name = p.Config.Name ∧ p.ID = p.Config.ID)
    ∧ (∀ (columns2 : ColumnList) (row2 : List Cell),
        columns.length = row.length → columns2.length = row2.length →
        List.Perm (columns.zip row) (columns2.zip row2) →
        buildSitePeer env row2 (mkColIndex columns2) = buildSitePeer env row (mkColIndex columns)) := by
  have hcell : ∀ n ∈ siteColumnNames, row[mkColIndex columns n]? = some (headerCell columns row n) := by
    intro n hn
    rw [mkColIndex_eq_indexOf columns n (hOnce n hn)]
    unfold headerCell
    rw [List.getD_eq_getElem?_getD, List.getElem?_eq_getElem (hCells n hn)]
    rfl
  constructor
  · have hb := buildSitePeer_of_cells env row (mkColIndex columns) _ _ _ _ _ _ _ _ _ _ _
      (hcell "peer_name" (by decide)) (hcell "peer_key" (by decide)) (hcell "addr" (by decide))
      (hcell "section" (by decide)) (hcell "flags" (by decide)) (hcell "status" (by decide))
      (hcell "last_update" (by decide)) (hcell "last_error" (by decide))
      (hcell "last_online" (by decide)) (hcell "queries" (by decide))
      (hcell "response_time" (by decide))
    obtain ⟨p0, hb0, hc0, hs0, hn0, hi0, hd0⟩ : ∃ p0 : Peer,
        buildSitePeer env row (mkColIndex columns) = some p0
        ∧ p0.Config =
            { Name := env.interface2stringNoDedup (headerCell columns row "peer_name")
              ID := env.interface2stringNoDedup (headerCell columns row "peer_key")
              Source := [env.interface2stringNoDedup (headerCell columns row "addr")]
              Section := env.interface2stringNoDedup (headerCell columns row "section")
              Flags := env.interface2stringlist (headerCell columns row "flags") }
        ∧ p0.Status =
            [(.PeerState,
                .peerStatus (env.PeerStatus (env.interface2int (headerCell columns row "status")))),
              (.LastUpdate, .int64 (env.interface2int64 (headerCell columns row "last_update"))),
              (.LastError,
                .string (env.interface2stringNoDedup (headerCell columns row "last_error"))),
              (.LastOnline, .int64 (env.interface2int64 (headerCell columns row "last_online"))),
              (.Queries, .int64 (env.interface2int64 (headerCell columns row "queries"))),
              (.ResponseTime,
                .float64 (env.interface2float64 (headerCell columns row "response_time")))]
        ∧ p0.Name = p0.Config.Name ∧ p0.ID = p0.Config.ID
        ∧ p0.data = some { tables := [] } := ⟨_, hb, rfl, rfl, rfl, rfl, rfl⟩
    rw [importPeerFromTar_of_ok env peers header tarReader tableName table _ _ hname htar,
      siteBlock_one_row env _ table row _ peers _ hsites, hb0]
    simp only
    obtain ⟨p, err, hres, hc, hst, hn, hid⟩ := insertBlock_after_site env table [row] columns peers
      p0 { tables := [] } hd0
    refine ⟨p, err, hres, ?_, ?_, ?_, ?_, ?_, ?_, ?_, ?_, ?_⟩
    · rw [hc, hc0]
    · rw [hst, hs0]; simp [statusGet]
    · rw [hst, hs0]; simp [statusGet]
    · rw [hst, hs0]; simp [statusGet]
    · rw [hst, hs0]; simp [statusGet]
    · rw [hst, hs0]; simp [statusGet]
    · rw [hst, hs0]; simp [statusGet]
    · rw [hn, hc, hn0]
    · rw [hid, hc, hi0]
  · intro columns2 row2 hlen hlen2 hperm
    apply buildSitePeer_congr
    intro n hn
    have hmap : ∀ (cs : ColumnList) (rw : List Cell), cs.length = rw.length →
        (cs.zip rw).map (fun cr => cr.1.Name) = cs.map (fun c => c.Name) := by
      intro cs rw hl
      have : (cs.zip rw).map (fun cr => cr.1.Name)
          = ((cs.zip rw).map Prod.fst).map (fun c => c.Name) := by simp
      rw [this, List.map_fst_zip _ _ (le_of_eq hl)]
    have hcount2 : (columns2.map (fun c => c.Name)).count n = 1 := by
      rw [← hmap columns2 row2 hlen2, ← (hperm.map (fun cr => cr.1.Name)).count_eq,
        hmap columns row hlen]
      exact hOnce n hn
    have hcp : (columns.zip row).countP (fun cr => decide (cr.1.Name = n)) = 1 := by
      have h1 := hOnce n hn
      rw [← hmap columns row hlen, List.count_eq_countP, List.countP_map] at h1
      rw [← h1]
      apply List.countP_congr
      intro x _
      simp
    rw [mkColIndex_eq_indexOf columns2 n hcount2, mkColIndex_eq_indexOf columns n (hOnce n hn),
      getElem?_indexOf_eq_find?_zip columns2 row2 n hlen2,
      getElem?_indexOf_eq_find?_zip columns row n hlen,
      find?_perm_of_countP_one _ _ _ hperm hcp]


set_option maxRecDepth 100000 in
/-- Witness of C7: the site row of the sample sites file `sitesA`. -/
theorem importPeerFromTar_site_decoding_witness :
    ∃ p err, importPeerFromTar sampleEnv [] (regEntry "peer1/sites.json" sitesA).1
        (regEntry "peer1/sites.json" sitesA).2 = .ret ([] ++ [p]) err
      ∧ p.Config = ⟨"A", "k1", ["host:6557"], "sec", ["f1", "f2"]⟩
      ∧ statusGet p.Status .PeerState = some (.peerStatus 0)
      ∧ statusGet p.Status .ResponseTime = some (.float64 3) :=
  (importPeerFromTar_site_decoding sampleEnv [] (regEntry "peer1/sites.json" sitesA).1
    (regEntry "peer1/sites.json" sitesA).2 "sites" sitesTable
    [.str "A", .str "k1", .str "host:6557", .str "sec", .strs ["f1", "f2"], .num 0, .num 100,
      .str "none", .num 90, .num 7, .num 3]
    sitesTable.Columns (by decide) (by decide) rfl (by decide) (by decide)).1.elim
    fun p hp => hp.elim fun err h =>
      ⟨p, err, h.1, h.2.1.trans (by decide), h.2.2.1.trans (by decide),
        h.2.2.2.2.2.2.2.1.trans (by decide)⟩


/-! ## Peer boundaries in `importPeersFromTar` -/

/-- Membership in a map after an assignment. -/
theorem mem_mapSet {α : Type} (m : List (String × α)) (k : String) (v : α) (x : String × α)
    (h : x ∈ mapSet m k v) : x ∈ m ∨ x = (k, v) := by
  induction m with
  | nil =>
    simp only [mapSet, List.mem_singleton] at h
    exact Or.inr h
  | cons kv rest ih =>
    obtain ⟨k0, v0⟩ := kv
    unfold mapSet at h
    by_cases h0 : k0 = k
    · simp only [h0, if_true, List.mem_cons] at h
      rcases h with h | h
      · exact Or.inr h
      · exact Or.inl (List.mem_cons_of_mem _ h)
    · simp only [h0, if_false, List.mem_cons] at h
      rcases h with h | h
      · exact Or.inl (by rw [h]; exact List.mem_cons_self _ _)
      · rcases ih h with h | h
        · exact Or.inl (List.mem_cons_of_mem _ h)
        · exact Or.inr h

/-- The insert block on a list that ends with the current peer: on success
only that last peer may change, in the same way whatever precedes it, and
every store it holds afterwards was there before or is the store just built. -/
theorem insertBlock_last (env : Env) (table : Table) (rows : ResultSet) (columns : ColumnList)
    (pre : List Peer) (p0 : Peer) (peers' : List Peer)
    (h : insertBlock env table rows columns (pre ++ [p0]) (some p0) = .ret peers' none) :
    ∃ p0', peers' = pre ++ [p0']
      ∧ (∀ pre2, insertBlock env table rows columns (pre2 ++ [p0]) (some p0)
          = .ret (pre2 ++ [p0']) none)
      ∧ (∀ ns ∈ p0'.stores, ns ∈ p0.stores
          ∨ (table.Virtual = false ∧ env.isOnline p0 = true
              ∧ env.InsertData (NewDataStore table p0) rows columns = .ok ns.2)) := by
  cases hv : table.Virtual with
  | true =>
    rw [insertBlock_virtual env table _ _ _ _ hv] at h
    simp only [Result.ret.injEq, and_true] at h
    exact ⟨p0, h.symm, fun pre2 => insertBlock_virtual env table _ _ _ _ hv,
      fun ns hns => Or.inl hns⟩
  | false =>
    cases ho : env.isOnline p0 with
    | false =>
      rw [insertBlock_offline env table _ _ _ p0 ho] at h
      simp only [Result.ret.injEq, and_true] at h
      exact ⟨p0, h.symm, fun pre2 => insertBlock_offline env table _ _ _ p0 ho,
        fun ns hns => Or.inl hns⟩
    | true =>
      rw [insertBlock_online env table _ _ _ p0 hv ho] at h
      cases hi : env.InsertData (NewDataStore table p0) rows columns with
      | error e => rw [hi] at h; simp at h
      | ok store =>
        rw [hi] at h
        cases hd : p0.data with
        | none => rw [hd] at h; simp at h
        | some d =>
          rw [hd] at h
          simp only [List.dropLast_concat, Result.ret.injEq, and_true] at h
          refine ⟨{ p0 with data := some (d.Set table.Name store) }, h.symm, ?_, ?_⟩
          · intro pre2
            rw [insertBlock_online env table _ _ _ p0 hv ho, hi, hd]
            simp only [List.dropLast_concat]
          · intro ns hns
            simp only [Peer.stores, DataStoreSet.Set] at hns
            rcases mem_mapSet d.tables table.Name store ns hns with hm | hm
            · left
              simp only [Peer.stores, hd]
              exact hm
            · right
              rw [hm]
              exact ⟨rfl, rfl, rfl⟩

/-- A successful call of the handler went through a successful `importTarFile`. -/
theorem importPeerFromTar_success (env : Env) (peers peers' : List Peer) (header : Header)
    (tarReader : Reader) (h : importPeerFromTar env peers header tarReader = .ret peers' none) :
    ∃ tableName table rows columns,
      (FindStringSubmatch header.Name)[1]? = some tableName
      ∧ findTable env tableName = some table
      ∧ importTarFile env tableName tarReader header.Size = ⟨some table, rows, columns, none⟩ := by
  cases hname : (FindStringSubmatch header.Name)[1]? with
  | none => simp [importPeerFromTar, hname] at h
  | some tableName =>
    cases herr : (importTarFile env tableName tarReader header.Size).err with
    | some e =>
      rw [importPeerFromTar_of_err env peers header tarReader tableName e hname herr] at h
      simp at h
    | none =>
      cases ht : findTable env tableName with
      | none =>
        rw [importTarFile_of_findTable_none env tableName tarReader header.Size ht] at herr
        simp at herr
      | some table =>
        exact ⟨tableName, table, _, _, rfl, ht,
          importTarFile_eq_of_ok env tableName tarReader header.Size table ht herr⟩

/-- For a regular-file entry whose name resolves to a table, being a sites
entry means that the resolved table is the sites table. -/
theorem isSitesEntry_iff (env : Env) (header : Header) (tarReader : Reader)
    (tableName : String) (table : Table) (hreg : header.Typeflag = TypeReg)
    (hname : (FindStringSubmatch header.Name)[1]? = some tableName)
    (ht : findTable env tableName = some table) :
    isSitesEntry env (header, tarReader) = true ↔ table.Name = env.TableSites := by
  simp [isSitesEntry, hreg, hname, ht]

/-- The handler on a sites entry: on success exactly one peer is appended, the
same one whatever the list was, and each store the new peer holds was built
from this entry. -/
theorem importPeerFromTar_sites (env : Env) (peers peers' : List Peer) (header : Header)
    (tarReader : Reader) (hs : isSitesEntry env (header, tarReader) = true)
    (h : importPeerFromTar env peers header tarReader = .ret peers' none) :
    ∃ p, peers' = peers ++ [p]
      ∧ (∀ peers2, importPeerFromTar env peers2 header tarReader = .ret (peers2 ++ [p]) none)
      ∧ (∀ ns ∈ p.stores, BuiltFrom env ns.2 (header, tarReader)) := by
  have hreg : header.Typeflag = TypeReg := by
    simp only [isSitesEntry, Bool.and_eq_true, beq_iff_eq] at hs
    exact hs.1
  obtain ⟨tableName, table, rows, columns, hname, ht, htar⟩ :=
    importPeerFromTar_success env peers peers' header tarReader h
  have hsite : table.Name = env.TableSites :=
    (isSitesEntry_iff env header tarReader tableName table hreg hname ht).mp hs
  have himp := fun ps => importPeerFromTar_of_ok env ps header tarReader tableName table rows
    columns hname htar
  rw [himp] at h
  by_cases hrows : rows.length = 1
  · obtain ⟨row, hrow⟩ := List.length_eq_one.mp hrows
    subst hrow
    rw [siteBlock_one_row env _ table row _ peers _ hsite] at h
    cases hb : buildSitePeer env row (mkColIndex columns) with
    | none => rw [hb] at h; simp at h
    | some p0 =>
      rw [hb] at h
      simp only at h
      obtain ⟨p, hp, hall, hprov⟩ := insertBlock_last env table [row] columns peers p0 peers' h
      refine ⟨p, hp, ?_, ?_⟩
      · intro peers2
        rw [himp, siteBlock_one_row env _ table row _ peers2 _ hsite, hb]
        exact hall peers2
      · intro ns hns
        rcases hprov ns hns with hold | ⟨hv, ho, hins⟩
        · have hd := buildSitePeer_data env row _ p0 hb
          simp [Peer.stores, hd] at hold
        · exact ⟨hreg, tableName, table, [row], columns, p0, hname, htar, hv, ho, hins⟩
  · rw [siteBlock_wrong_rows env _ table rows _ peers _ hsite hrows] at h
    simp at h

/-- The handler on a regular-file entry other than a sites entry, for a list
that ends with the peer `p0`: on success only that last peer may change, in
the same way whatever precedes it, and every store it holds afterwards was
there before or was built from this entry. -/
theorem importPeerFromTar_data (env : Env) (pre : List Peer) (p0 : Peer) (peers' : List Peer)
    (header : Header) (tarReader : Reader) (hreg : header.Typeflag = TypeReg)
    (hs : isSitesEntry env (header, tarReader) = false)
    (h : importPeerFromTar env (pre ++ [p0]) header tarReader = .ret peers' none) :
    ∃ p0', peers' = pre ++ [p0']
      ∧ (∀ pre2, importPeerFromTar env (pre2 ++ [p0]) header tarReader
          = .ret (pre2 ++ [p0']) none)
      ∧ (∀ ns ∈ p0'.stores, ns ∈ p0.stores ∨ BuiltFrom env ns.2 (header, tarReader)) := by
  obtain ⟨tableName, table, rows, columns, hname, ht, htar⟩ :=
    importPeerFromTar_success env _ peers' header tarReader h
  have hsite : table.Name ≠ env.TableSites := by
    intro e
    have := (isSitesEntry_iff env header tarReader tableName table hreg hname ht).mpr e
    rw [hs] at this
    exact absurd this (by decide)
  have himp := fun ps => importPeerFromTar_of_ok env ps header tarReader tableName table rows
    columns hname htar
  rw [himp, siteBlock_other env _ table _ _ _ _ hsite, List.getLast?_concat] at h
  simp only at h
  obtain ⟨p, hp, hall, hprov⟩ := insertBlock_last env table rows columns pre p0 peers' h
  refine ⟨p, hp, ?_, ?_⟩
  · intro pre2
    rw [himp, siteBlock_other env _ table _ _ _ _ hsite, List.getLast?_concat]
    exact hall pre2
  · intro ns hns
    rcases hprov ns hns with hold | ⟨hv, ho, hins⟩
    · exact Or.inl hold
    · exact Or.inr ⟨hreg, tableName, table, rows, columns, p0, hname, htar, hv, ho, hins⟩

/-- The handler on a regular-file entry other than a sites entry, for the
empty list: on success the list stays empty. -/
theorem importPeerFromTar_data_nil (env : Env) (peers' : List Peer)
    (header : Header) (tarReader : Reader) (hreg : header.Typeflag = TypeReg)
    (hs : isSitesEntry env (header, tarReader) = false)
    (h : importPeerFromTar env [] header tarReader = .ret peers' none) : peers' = [] := by
  obtain ⟨tableName, table, rows, columns, hname, ht, htar⟩ :=
    importPeerFromTar_success env _ peers' header tarReader h
  have hsite : table.Name ≠ env.TableSites := by
    intro e
    have := (isSitesEntry_iff env header tarReader tableName table hreg hname ht).mpr e
    rw [hs] at this
    exact absurd this (by decide)
  rw [importPeerFromTar_of_ok env [] header tarReader tableName table rows columns hname htar,
    siteBlock_other env _ table _ _ _ _ hsite] at h
  simp only [List.getLast?_nil, insertBlock_no_peer, Result.ret.injEq, and_true] at h
  exact h.symm


/-- The archive loop at the end of the entries. -/
theorem tarLoop_nil_ok (env : Env) (tarFile : String) (fault : Option String)
    (peers0 peers : List Peer) (h : tarLoop env tarFile fault peers0 [] = .ret peers none) :
    peers = peers0 := by
  unfold tarLoop at h
  cases fault with
  | none => simp only [Result.ret.injEq, and_true] at h; exact h.symm
  | some e => simp at h

/-- The archive loop, entry by entry: the peers it returns are the peers it
started with, the last of them changed by the entries before the first sites
entry only, followed by one peer per segment, each being what its segment
alone produces. -/
theorem tarLoop_segments (env : Env) (tarFile : String) (fault : Option String)
    (entries : List (Header × Reader)) :
    ∀ (peers0 peers : List Peer), tarLoop env tarFile fault peers0 entries = .ret peers none →
      ∃ news, List.Forall₂ (SegmentPeer env tarFile) (segments env entries) news
        ∧ (peers0 = [] → peers = news)
        ∧ (∀ pre p0, peers0 = pre ++ [p0] →
            ∃ p0', peers = pre ++ [p0'] ++ news
              ∧ tarLoop env tarFile none [p0]
                  (entries.takeWhile (fun x => !isSitesEntry env x)) = .ret [p0'] none
              ∧ ∀ ns ∈ p0'.stores, ns ∈ p0.stores
                  ∨ ∃ e ∈ entries.takeWhile (fun x => !isSitesEntry env x),
                      BuiltFrom env ns.2 e) := by
  induction entries with
  | nil =>
    intro peers0 peers h
    have hp := tarLoop_nil_ok env tarFile fault peers0 peers h
    refine ⟨[], by simp [segments], ?_, ?_⟩
    · intro h0; rw [hp, h0]
    · intro pre p0 h0
      refine ⟨p0, by rw [hp, h0]; simp, by simp [tarLoop], fun ns hns => Or.inl hns⟩
  | cons e rest ih =>
    intro peers0 peers h
    obtain ⟨header, tarReader⟩ := e
    rw [tarLoop_cons] at h
    cases hs : isSitesEntry env (header, tarReader) with
    | true =>
      have hreg : header.Typeflag = TypeReg := by
        simp only [isSitesEntry, Bool.and_eq_true, beq_iff_eq] at hs
        exact hs.1
      have hnd : ¬ (TypeReg = TypeDir) := by decide
      simp only [hreg, hnd, if_false, if_true] at h
      cases hi : importPeerFromTar env peers0 header tarReader with
      | panic => rw [hi] at h; simp at h
      | ret peers1 err =>
        rw [hi] at h
        cases err with
        | some err => simp at h
        | none =>
          simp only at h
          obtain ⟨p, hp1, hall, hprov⟩ :=
            importPeerFromTar_sites env peers0 peers1 header tarReader hs hi
          obtain ⟨news, hseg, -, hcons⟩ := ih peers1 peers h
          obtain ⟨p', hpeers, hrun, hprov'⟩ := hcons peers0 p hp1
          refine ⟨p' :: news, ?_, ?_, ?_⟩
          · simp only [segments, hs, if_true]
            refine List.Forall₂.cons ⟨?_, ?_⟩ hseg
            · rw [tarLoop_cons]
              simp only [hreg, hnd, if_false, if_true]
              rw [hall []]
              exact hrun
            · intro ns hns
              rcases hprov' ns hns with hold | ⟨e, he, hb⟩
              · exact ⟨(header, tarReader), List.mem_cons_self _ _, hprov ns hold⟩
              · exact ⟨e, List.mem_cons_of_mem _ he, hb⟩
          · intro h0
            rw [hpeers, h0]; simp
          · intro pre p0 h0
            refine ⟨p0, by rw [hpeers, h0]; simp, ?_, fun ns hns => Or.inl hns⟩
            simp [List.takeWhile_cons, hs, tarLoop]
    | false =>
      have htw : (((header, tarReader) :: rest).takeWhile (fun x => !isSitesEntry env x))
          = (header, tarReader) :: rest.takeWhile (fun x => !isSitesEntry env x) := by
        simp [List.takeWhile_cons, hs]
      have hsegs : segments env ((header, tarReader) :: rest) = segments env rest := by
        simp [segments, hs]
      rw [htw, hsegs]
      by_cases hdir : header.Typeflag = TypeDir
      · simp only [hdir, if_true] at h
        obtain ⟨news, hseg, hnil, hcons⟩ := ih peers0 peers h
        refine ⟨news, hseg, hnil, ?_⟩
        intro pre p0 h0
        obtain ⟨p0', hpeers, hrun, hprov⟩ := hcons pre p0 h0
        refine ⟨p0', hpeers, ?_, ?_⟩
        · rw [tarLoop_cons]
          simp only [hdir, if_true]
          exact hrun
        · intro ns hns
          rcases hprov ns hns with hold | ⟨e, he, hb⟩
          · exact Or.inl hold
          · exact Or.inr ⟨e, List.mem_cons_of_mem _ he, hb⟩
      · simp only [hdir, if_false] at h
        by_cases hreg : header.Typeflag = TypeReg
        · simp only [hreg, if_true] at h
          cases hi : importPeerFromTar env peers0 header tarReader with
          | panic => rw [hi] at h; simp at h
          | ret peers1 err =>
            rw [hi] at h
            cases err with
            | some err => simp at h
            | none =>
              simp only at h
              obtain ⟨news, hseg, hnil, hcons⟩ := ih peers1 peers h
              refine ⟨news, hseg, ?_, ?_⟩
              · intro h0
                rw [h0] at hi
                exact hnil (importPeerFromTar_data_nil env peers1 header tarReader hreg hs hi)
              · intro pre p0 h0
                rw [h0] at hi
                obtain ⟨p1, hp1, hall, hprov1⟩ :=
                  importPeerFromTar_data env pre p0 peers1 header tarReader hreg hs hi
                obtain ⟨p0', hpeers, hrun, hprov⟩ := hcons pre p1 hp1
                refine ⟨p0', hpeers, ?_, ?_⟩
                · rw [tarLoop_cons]
                  simp only [hdir, hreg, if_false, if_true]
                  have := hall []
                  simp only [List.nil_append] at this
                  rw [this]
                  exact hrun
                · intro ns hns
                  rcases hprov ns hns with hold | ⟨e, he, hb⟩
                  · rcases hprov1 ns hold with hold0 | hb
                    · exact Or.inl hold0
                    · exact Or.inr ⟨(header, tarReader), List.mem_cons_self _ _, hb⟩
                  · exact Or.inr ⟨e, List.mem_cons_of_mem _ he, hb⟩
        · simp [hreg] at h


/-- There is one segment per sites entry. -/
theorem segments_length (env : Env) (entries : List (Header × Reader)) :
    (segments env entries).length = entries.countP (isSitesEntry env) := by
  induction entries with
  | nil => rfl
  | cons e rest ih =>
    cases hs : isSitesEntry env e <;> simp [segments, hs, List.countP_cons, ih]

/-- The segments, one after the other, are the archive from its first sites
entry on. -/
theorem segments_join (env : Env) (entries : List (Header × Reader)) :
    (segments env entries).flatten = entries.dropWhile (fun x => !isSitesEntry env x) := by
  induction entries with
  | nil => rfl
  | cons e rest ih =>
    cases hs : isSitesEntry env e with
    | true =>
      simp only [segments, hs, if_true, List.flatten_cons, ih, List.dropWhile_cons, Bool.not_true,
        Bool.false_eq_true, if_false, List.cons_append, List.takeWhile_append_dropWhile]
    | false =>
      simp only [segments, hs, Bool.false_eq_true, if_false, ih, List.dropWhile_cons,
        Bool.not_false, if_true]

/-- Every segment is a sites entry followed by entries that are not sites
entries. -/
theorem segments_shape (env : Env) (entries : List (Header × Reader)) :
    ∀ seg ∈ segments env entries, ∃ s tail, seg = s :: tail ∧ isSitesEntry env s = true
      ∧ ∀ e ∈ tail, isSitesEntry env e = false := by
  induction entries with
  | nil => intro seg h; simp [segments] at h
  | cons e rest ih =>
    intro seg h
    cases hs : isSitesEntry env e with
    | true =>
      simp only [segments, hs, if_true, List.mem_cons] at h
      rcases h with h | h
      · refine ⟨e, _, h, hs, ?_⟩
        intro x hx
        have := List.mem_takeWhile_imp hx
        simpa using this
      · exact ih seg h
    | false =>
      simp only [segments, hs, Bool.false_eq_true, if_false] at h
      exact ih seg h

/-- Where the sites table is virtual, no store is built from a sites entry. -/
theorem not_builtFrom_sites (env : Env) (store : DataStore) (e : Header × Reader)
    (hvirt : ∀ t ∈ env.Tables, t.Name = env.TableSites → t.Virtual = true)
    (hs : isSitesEntry env e = true) : ¬ BuiltFrom env store e := by
  rintro ⟨hreg, tableName, table, rows, columns, q, hname, htar, hv, -, -⟩
  have ht : findTable env tableName = some table := by
    rw [← importTarFile_table env tableName e.2 e.1.Size, htar]
  have hsite := (isSitesEntry_iff env e.1 e.2 tableName table hreg hname ht).mp hs
  rw [hvirt table (findTable_mem env tableName table ht) hsite] at hv
  exact absurd hv (by decide)

/-- Where the sites table is virtual, each peer is what its segment alone
produces and its stores were built from entries after the sites entry of the
segment. -/
theorem segmentPeer_strict (env : Env) (tarFile : String) (segs : List (List (Header × Reader)))
    (ps : List Peer) (hvirt : ∀ t ∈ env.Tables, t.Name = env.TableSites → t.Virtual = true)
    (hseg : List.Forall₂ (SegmentPeer env tarFile) segs ps)
    (hshape : ∀ seg ∈ segs, ∃ s tail, seg = s :: tail ∧ isSitesEntry env s = true
      ∧ ∀ e ∈ tail, isSitesEntry env e = false) :
    List.Forall₂ (fun seg p =>
      tarLoop env tarFile none [] seg = .ret [p] none
      ∧ ∀ ns ∈ p.stores, ∃ e ∈ seg.tail, BuiltFrom env ns.2 e) segs ps := by
  induction hseg with
  | nil => exact List.Forall₂.nil
  | @cons seg p segs ps hp _ ih =>
    refine List.Forall₂.cons ⟨hp.1, ?_⟩ (ih (fun s hs => hshape s (List.mem_cons_of_mem _ hs)))
    intro ns hns
    obtain ⟨s, tail, hst, hsites, -⟩ := hshape seg (List.mem_cons_self _ _)
    obtain ⟨e, he, hb⟩ := hp.2 ns hns
    rw [hst] at he ⊢
    rcases List.mem_cons.mp he with rfl | he'
    · exact absurd hb (not_builtFrom_sites env ns.2 e hvirt hsites)
    · exact ⟨e, he', hb⟩

/-- C2, boundary detection. For an archive whose import by
`importPeersFromTar` succeeds, the returned list holds exactly one peer per
regular-file entry that resolves to the sites table, in archive order: the
peers correspond one to one to the segments of the archive, a segment being a
sites entry together with the entries after it and before the next sites
entry, and each peer is what the import of its own segment alone produces, so
data is attached to the last peer of the list only. Every DataStore recorded
in a peer's DataStoreSet was built from an entry that lies after that peer's
sites entry and before the next sites entry. The registry marks the sites
table virtual. -/
theorem importPeersFromTar_boundaries (env : Env) (fs : FileSystem) (tarFile : String)
    (a : Archive) (peers : List Peer) (hopen : fs.Open tarFile = .archive a)
    (hsv : sitesVirtual env = true)
    (h : importPeersFromTar env fs tarFile = .ret peers none) :
    peers.length = a.entries.countP (isSitesEntry env)
    ∧ List.Forall₂ (fun seg p =>
        tarLoop env tarFile none [] seg = .ret [p] none
        ∧ ∀ ns ∈ p.stores, ∃ e ∈ seg.tail, BuiltFrom env ns.2 e) (segments env a.entries) peers
    ∧ (segments env a.entries).flatten
        = a.entries.dropWhile (fun x => !isSitesEntry env x)
    ∧ (∀ seg ∈ segments env a.entries, ∃ s tail, seg = s :: tail ∧ isSitesEntry env s = true
        ∧ ∀ e ∈ tail, isSitesEntry env e = false) := by
  have hvirt : ∀ t ∈ env.Tables, t.Name = env.TableSites → t.Virtual = true := by
    intro t ht hn
    have := List.all_eq_true.mp hsv t ht
    simpa [hn] using this
  unfold importPeersFromTar at h
  simp only [hopen] at h
  obtain ⟨news, hseg, hnil, -⟩ := tarLoop_segments env tarFile a.fault a.entries [] peers h
  have hpeers := hnil rfl
  subst hpeers
  refine ⟨?_, ?_, segments_join env a.entries, segments_shape env a.entries⟩
  · rw [← segments_length, hseg.length_eq]
  · exact segmentPeer_strict env tarFile _ _ hvirt hseg (segments_shape env a.entries)

set_option maxRecDepth 100000 in
/-- Witness of C2: the sample snapshot with two peers, the first online and
the second not, each followed by a hosts file. -/
theorem importPeersFromTar_boundaries_witness :
    sitesVirtual sampleEnv = true
    ∧ importPeersFromTar sampleEnv sampleFS "two.tar.gz"
        = .ret [{ peerA with data := some { tables := [("hosts", hostsStore "A")] } }, peerB] none
    ∧ [{ peerA with data := some { tables := [("hosts", hostsStore "A")] } }, peerB].length
        = List.countP (isSitesEntry sampleEnv)
            [regEntry "peer1/sites.json" sitesA, regEntry "peer1/hosts.json" hostsFile,
              regEntry "peer2/sites.json" sitesB, regEntry "peer2/hosts.json" hostsFile] :=
  ⟨by decide, by decide,
    (importPeersFromTar_boundaries sampleEnv sampleFS "two.tar.gz"
      ⟨[regEntry "peer1/sites.json" sitesA, regEntry "peer1/hosts.json" hostsFile,
        regEntry "peer2/sites.json" sitesB, regEntry "peer2/hosts.json" hostsFile], none⟩
      [{ peerA with data := some { tables := [("hosts", hostsStore "A")] } }, peerB]
      rfl (by decide) (by decide)).1⟩

/-! ## Header row and data rows of `importTarFile` -/

/-- C18, missing header. For a table file that resolves to a known table and
whose content deserializes without error to a result set with zero rows,
`importTarFile` returns the error `missing column header`; for a result set
with exactly one row, the header alone, it does not raise this error and
returns zero data rows. -/
theorem importTarFile_missing_header (env : Env) (tableName : String) (tarReader : Reader)
    (size : Nat) (table : Table)
    (htable : findTable env tableName = some table)
    (hread : tarReader.err = none) (hsize : tarReader.data.length = size) :
    (env.NewResultSet tarReader.data = .ok [] →
      importTarFile env tableName tarReader size
        = ⟨some table, [], [], some "missing column header"⟩)
    ∧ (∀ columnRow : List Cell, env.NewResultSet tarReader.data = .ok [columnRow] →
        (importTarFile env tableName tarReader size).err ≠ some "missing column header"
        ∧ (importTarFile env tableName tarReader size).rows = []) := by
  constructor
  · intro hparse
    simp [importTarFile, htable, hread, hsize, hparse]
  · intro columnRow hparse
    rw [importTarFile_parsed env tableName tarReader size table columnRow [] htable hread hsize
      hparse]
    refine ⟨?_, rfl⟩
    show (bindColumns env table columnRow []).2 ≠ _
    rw [bindColumns_err]
    cases (columnRow.find? fun c => (table.GetColumn (env.interface2stringNoDedup c)).isNone) with
    | none => simp
    | some c =>
      intro e
      have := congrArg String.data (Option.some.inj e)
      simp at this

/-- Witness of C18: the empty hosts file and the hosts file that holds the
header line only. -/
theorem importTarFile_missing_header_witness :
    importTarFile sampleEnv "hosts" (fileOf "") 0
        = ⟨some hostsTable, [], [], some "missing column header"⟩
    ∧ (importTarFile sampleEnv "hosts" (fileOf "name,state") 10).err
        ≠ some "missing column header"
    ∧ (importTarFile sampleEnv "hosts" (fileOf "name,state") 10).rows = [] :=
  ⟨(importTarFile_missing_header sampleEnv "hosts" (fileOf "") 0 hostsTable (by decide) rfl
      rfl).1 rfl,
    ((importTarFile_missing_header sampleEnv "hosts" (fileOf "name,state") 10 hostsTable
      (by decide) rfl (by decide)).2 [.str "name", .str "state"] rfl).1,
    ((importTarFile_missing_header sampleEnv "hosts" (fileOf "name,state") 10 hostsTable
      (by decide) rfl (by decide)).2 [.str "name", .str "state"] rfl).2⟩


/-- Columns of the header loop when it succeeds, position by position: each
column is the one that `GetColumn` finds for the header cell of the same
position. -/
theorem bindColumns_forall₂ (env : Env) (table : Table) (row : List Cell) (acc : ColumnList)
    (h : (bindColumns env table row acc).2 = none) :
    ∃ cols, (bindColumns env table row acc).1 = acc ++ cols
      ∧ List.Forall₂ (fun cell col =>
          table.GetColumn (env.interface2stringNoDedup cell) = some col) row cols := by
  induction row generalizing acc with
  | nil => exact ⟨[], by simp [bindColumns], List.Forall₂.nil⟩
  | cons c rest ih =>
    unfold bindColumns at h ⊢
    cases hc : table.GetColumn (env.interface2stringNoDedup c) with
    | none => simp [hc] at h
    | some col =>
      simp only [hc] at h ⊢
      obtain ⟨cols, h1, h2⟩ := ih (acc ++ [col]) h
      refine ⟨col :: cols, ?_, List.Forall₂.cons hc h2⟩
      rw [h1]; simp

/-- C11, order preservation and positional binding. For a table file on which
`importTarFile` succeeds with parsed result set `r`, the returned rows are `r`
without its first row, in the same order, so their number is `len(r) - 1`; the
returned column list has exactly one column per header cell, the column of
each position being the table's column that `GetColumn` finds for the header
cell of that position, named like the cell; and these rows and columns, as
they are, are the arguments of the call of `InsertData` in `importPeerFromTar`,
both for an entry of a table other than sites with an online last peer and for
a sites entry whose new peer is online. -/
theorem importTarFile_order_binding (env : Env) (tableName : String) (tarReader : Reader)
    (size : Nat) (table : Table) (r : ResultSet)
    (htable : findTable env tableName = some table)
    (hread : tarReader.err = none) (hsize : tarReader.data.length = size)
    (hparse : env.NewResultSet tarReader.data = .ok r)
    (hok : (importTarFile env tableName tarReader size).err = none) :
    (importTarFile env tableName tarReader size).rows = r.drop 1
    ∧ (importTarFile env tableName tarReader size).rows.length = r.length - 1
    ∧ (∃ columnRow, r = columnRow :: (importTarFile env tableName tarReader size).rows
        ∧ (importTarFile env tableName tarReader size).columns.length = columnRow.length
        ∧ List.Forall₂ (fun cell col =>
            table.GetColumn (env.interface2stringNoDedup cell) = some col
            ∧ col ∈ table.Columns ∧ col.Name = env.interface2stringNoDedup cell)
            columnRow (importTarFile env tableName tarReader size).columns)
    ∧ (∀ (peers : List Peer) (header : Header) (p : Peer),
        (FindStringSubmatch header.Name)[1]? = some tableName → header.Size = size →
        table.Virtual = false → table.Name ≠ env.TableSites →
        peers.getLast? = some p → env.isOnline p = true →
        importPeerFromTar env peers header tarReader
          = match env.InsertData (NewDataStore table p) (r.drop 1)
              (importTarFile env tableName tarReader size).columns with
            | .error e => .ret peers (some ("failed to insert data: " ++ e))
            | .ok store =>
              match p.data with
              | none => .panic
              | some d =>
                .ret (peers.dropLast ++ [{ p with data := some (d.Set table.Name store) }]) none)
    ∧ (∀ (peers : List Peer) (header : Header) (row : List Cell) (p : Peer),
        (FindStringSubmatch header.Name)[1]? = some tableName → header.Size = size →
        table.Virtual = false → table.Name = env.TableSites → r.drop 1 = [row] →
        buildSitePeer env row
          (mkColIndex (importTarFile env tableName tarReader size).columns) = some p →
        env.isOnline p = true →
        importPeerFromTar env peers header tarReader
          = match env.InsertData (NewDataStore table p) (r.drop 1)
              (importTarFile env tableName tarReader size).columns with
            | .error e => .ret (peers ++ [p]) (some ("failed to insert data: " ++ e))
            | .ok store =>
              .ret (peers ++
                [{ p with data := some (DataStoreSet.Set ⟨[]⟩ table.Name store) }]) none) := by
  cases r with
  | nil =>
    have : (importTarFile env tableName tarReader size).err = some "missing column header" := by
      simp [importTarFile, htable, hread, hsize, hparse]
    rw [this] at hok
    simp at hok
  | cons columnRow rows =>
    have hres := importTarFile_parsed env tableName tarReader size table columnRow rows
      htable hread hsize hparse
    have hb : (bindColumns env table columnRow []).2 = none := by
      rw [hres] at hok; exact hok
    obtain ⟨cols, hcols, hall⟩ := bindColumns_forall₂ env table columnRow [] hb
    simp only [List.nil_append] at hcols
    have hres' : importTarFile env tableName tarReader size = ⟨some table, rows, cols, none⟩ := by
      rw [hres, hcols, hb]
    rw [hres']
    simp only [List.drop_succ_cons, List.drop_zero, List.length_cons, Nat.add_sub_cancel]
    refine ⟨trivial, trivial, ⟨columnRow, rfl, hall.length_eq.symm, ?_⟩, ?_, ?_⟩
    · refine hall.imp ?_
      intro cell col hg
      have := GetColumn_name table _ col hg
      exact ⟨hg, this.2, this.1⟩
    · intro peers header p hname hsz hv hs hp ho
      subst hsz
      rw [importPeerFromTar_of_ok env peers header tarReader tableName table rows cols hname hres',
        siteBlock_other env _ table _ _ peers _ hs, hp]
      exact insertBlock_online env table rows cols peers p hv ho
    · intro peers header row p hname hsz hv hs hrows hbuild ho
      subst hsz
      subst hrows
      rw [importPeerFromTar_of_ok env peers header tarReader tableName table _ cols hname hres',
        siteBlock_one_row env _ table row _ peers _ hs, hbuild]
      simp only
      rw [insertBlock_online env table _ _ _ p hv ho, buildSitePeer_data env row _ p hbuild]
      simp only [List.dropLast_concat]

set_option maxRecDepth 100000 in
/-- Witness of C11: the sample hosts file with two data rows, stored for the
online peer `A`. -/
theorem importTarFile_order_binding_witness :
    (importTarFile sampleEnv "hosts" (fileOf hostsFile) 20).rows
        = [[.str "h1", .num 0], [.str "h2", .num 1]]
    ∧ (importTarFile sampleEnv "hosts" (fileOf hostsFile) 20).columns
        = [⟨"name", .StringCol⟩, ⟨"state", .IntCol⟩]
    ∧ importPeerFromTar sampleEnv [peerA] ⟨"peer1/hosts.json", TypeReg, 20⟩ (fileOf hostsFile)
        = .ret [{ peerA with data := some { tables := [("hosts", hostsStore "A")] } }] none :=
  have h := importTarFile_order_binding sampleEnv "hosts" (fileOf hostsFile) 20 hostsTable
    [[.str "name", .str "state"], [.str "h1", .num 0], [.str "h2", .num 1]]
    (by decide) rfl (by decide) rfl (by decide)
  ⟨h.1, by decide,
    (h.2.2.2.1 [peerA] ⟨"peer1/hosts.json", TypeReg, 20⟩ peerA (by decide) rfl rfl (by decide)
      rfl (by decide)).trans (by decide)⟩


/-! ## Entry kinds in `importPeersFromTar` -/

/-- Directory entries can be left out of the archive without changing the
result of the loop. -/
theorem tarLoop_filter_dirs (env : Env) (tarFile : String) (fault : Option String)
    (entries : List (Header × Reader)) :
    ∀ peers : List Peer, tarLoop env tarFile fault peers entries
      = tarLoop env tarFile fault peers
          (entries.filter (fun e => decide (e.1.Typeflag ≠ TypeDir))) := by
  induction entries with
  | nil => intro peers; rfl
  | cons e rest ih =>
    intro peers
    obtain ⟨header, tarReader⟩ := e
    by_cases hdir : header.Typeflag = TypeDir
    · rw [tarLoop_cons]
      simp only [hdir, if_true, List.filter_cons, ne_eq, not_true_eq_false, decide_False,
        Bool.false_eq_true, if_false]
      exact ih peers
    · have hf : ((header, tarReader) :: rest).filter (fun e => decide (e.1.Typeflag ≠ TypeDir))
          = (header, tarReader) :: rest.filter (fun e => decide (e.1.Typeflag ≠ TypeDir)) := by
        simp [List.filter_cons, hdir]
      rw [hf, tarLoop_cons, tarLoop_cons]
      simp only [hdir, if_false]
      by_cases hreg : header.Typeflag = TypeReg
      · simp only [hreg, if_true]
        cases importPeerFromTar env peers header tarReader with
        | panic => rfl
        | ret peers' err =>
          cases err with
          | some err => rfl
          | none => exact ih peers'
      · simp only [hreg, if_false]

/-- Every error return of the archive loop has a nil peer list. -/
theorem tarLoop_error_nil (env : Env) (tarFile : String) (fault : Option String)
    (entries : List (Header × Reader)) :
    ∀ (peers0 peers : List Peer) (err : String),
      tarLoop env tarFile fault peers0 entries = .ret peers (some err) → peers = [] := by
  induction entries with
  | nil =>
    intro peers0 peers err h
    unfold tarLoop at h
    cases fault with
    | none => simp at h
    | some e => simp only [Result.ret.injEq] at h; exact h.1.symm
  | cons e rest ih =>
    intro peers0 peers err h
    obtain ⟨header, tarReader⟩ := e
    rw [tarLoop_cons] at h
    by_cases hdir : header.Typeflag = TypeDir
    · simp only [hdir, if_true] at h
      exact ih peers0 peers err h
    · simp only [hdir, if_false] at h
      by_cases hreg : header.Typeflag = TypeReg
      · simp only [hreg, if_true] at h
        cases hi : importPeerFromTar env peers0 header tarReader with
        | panic => rw [hi] at h; simp at h
        | ret peers1 e1 =>
          rw [hi] at h
          cases e1 with
          | some e1 => simp only [Result.ret.injEq] at h; exact h.1.symm
          | none => exact ih peers1 peers err h
      · simp only [hreg, if_false, Result.ret.injEq] at h
        exact h.1.symm

/-- C17, entry kinds. In the loop of `importPeersFromTar` a directory entry is
skipped without a call of the handler and without a change of the peer list
(leaving all directory entries out of the archive gives the same result); a
regular-file entry is handed to `importPeerFromTar` with the peers reached so
far, and the loop goes on with the peers it returns; an entry of any other
type, once reached, makes the import fail with the error that names the
archive, the entry and its type code; every error return has a nil peer list;
and the end of the archive returns the accumulated peers with a nil error. -/
theorem importPeersFromTar_entry_kinds (env : Env) (fs : FileSystem) (tarFile : String) :
    (∀ (fault : Option String) (peers : List Peer) (header : Header) (tarReader : Reader)
        (rest : List (Header × Reader)), header.Typeflag = TypeDir →
        tarLoop env tarFile fault peers ((header, tarReader) :: rest)
          = tarLoop env tarFile fault peers rest)
    ∧ (∀ (fault : Option String) (peers : List Peer) (entries : List (Header × Reader)),
        tarLoop env tarFile fault peers entries
          = tarLoop env tarFile fault peers
              (entries.filter (fun e => decide (e.1.Typeflag ≠ TypeDir))))
    ∧ (∀ (fault : Option String) (peers : List Peer) (header : Header) (tarReader : Reader)
        (rest : List (Header × Reader)), header.Typeflag = TypeReg →
        tarLoop env tarFile fault peers ((header, tarReader) :: rest)
          = match importPeerFromTar env peers header tarReader with
            | .panic => .panic
            | .ret _ (some err) =>
              .ret [] (some ("gzip/tarball error " ++ tarFile ++ " in file " ++ header.Name ++
                ": " ++ err))
            | .ret peers' none => tarLoop env tarFile fault peers' rest)
    ∧ (∀ (fault : Option String) (peers : List Peer) (header : Header) (tarReader : Reader)
        (rest : List (Header × Reader)),
        header.Typeflag ≠ TypeDir → header.Typeflag ≠ TypeReg →
        tarLoop env tarFile fault peers ((header, tarReader) :: rest)
          = .ret [] (some ("gzip/tarball error " ++ tarFile ++ ": unsupported type in file " ++
              header.Name ++ ": " ++ String.singleton header.Typeflag)))
    ∧ (∀ (a : Archive) (pre post : List (Header × Reader)) (header : Header)
        (tarReader : Reader) (peers : List Peer),
        fs.Open tarFile = .archive a → a.entries = pre ++ (header, tarReader) :: post →
        tarLoop env tarFile none [] pre = .ret peers none →
        header.Typeflag ≠ TypeDir → header.Typeflag ≠ TypeReg →
        importPeersFromTar env fs tarFile
          = .ret [] (some ("gzip/tarball error " ++ tarFile ++ ": unsupported type in file " ++
              header.Name ++ ": " ++ String.singleton header.Typeflag)))
    ∧ (∀ (peers : List Peer) (err : String),
        importPeersFromTar env fs tarFile = .ret peers (some err) → peers = [])
    ∧ (∀ peers : List Peer, tarLoop env tarFile none peers [] = .ret peers none) := by
  have hnd : ¬ (TypeReg = TypeDir) := by decide
  refine ⟨?_, ?_, ?_, ?_, ?_, ?_, ?_⟩
  · intro fault peers header tarReader rest hdir
    rw [tarLoop_cons]; simp [hdir]
  · intro fault peers entries
    exact tarLoop_filter_dirs env tarFile fault entries peers
  · intro fault peers header tarReader rest hreg
    rw [tarLoop_cons]; simp only [hreg, hnd, if_false, if_true]
  · intro fault peers header tarReader rest hdir hreg
    rw [tarLoop_cons]; simp only [hdir, hreg, if_false]
  · intro a pre post header tarReader peers hopen hentries hpre hdir hreg
    unfold importPeersFromTar
    simp only [hopen, hentries]
    rw [tarLoop_append env tarFile a.fault pre _ [] peers hpre, tarLoop_cons]
    simp only [hdir, hreg, if_false]
  · intro peers err h
    unfold importPeersFromTar at h
    cases ho : fs.Open tarFile with
    | openError e => rw [ho] at h; simp only [Result.ret.injEq] at h; exact h.1.symm
    | gzipError e => rw [ho] at h; simp only [Result.ret.injEq] at h; exact h.1.symm
    | archive a =>
      rw [ho] at h
      exact tarLoop_error_nil env tarFile a.fault a.entries [] peers err h
  · intro peers
    simp [tarLoop]

set_option maxRecDepth 100000 in
/-- Witness of C17: the sample snapshot with a symbolic link after the sites
file fails with the error naming the link and its type code. -/
theorem importPeersFromTar_entry_kinds_witness :
    importPeersFromTar sampleEnv sampleFS2 "symlink.tar.gz"
      = .ret [] (some ("gzip/tarball error symlink.tar.gz: unsupported type in file " ++
          "peer1/link: 2")) :=
  (importPeersFromTar_entry_kinds sampleEnv sampleFS2 "symlink.tar.gz").2.2.2.2.1
    ⟨[dirEntry "peer1/", regEntry "peer1/sites.json" sitesA,
      linkEntry "peer1/link", regEntry "peer1/hosts.json" hostsFile], none⟩
    [dirEntry "peer1/", regEntry "peer1/sites.json" sitesA]
    [regEntry "peer1/hosts.json" hostsFile] (linkEntry "peer1/link").1 (linkEntry "peer1/link").2
    [peerA] rfl rfl (by decide) (by decide) (by decide)


/-! ## Entries before the first sites entry -/

set_option maxRecDepth 100000 in
/-- C12 as stated fails: for the sample snapshot whose hosts file comes before
the sites file, the handler returns no error on the hosts file, and the
restore succeeds and commits the peer. -/
theorem importPeerFromTar_before_identity_counterexample :
    importPeerFromTar sampleEnv [] (regEntry "peer1/hosts.json" hostsFile).1
        (regEntry "peer1/hosts.json" hostsFile).2 = .ret [] none
    ∧ initializePeersWithImport sampleEnv sampleFS2 emptyRegistry "datafirst.tar.gz"
        = .ret { PeerMap := [("k1", peerA)], PeerMapOrder := ["k1"], nodeAccessor := true }
            none := by
  refine ⟨by decide, by decide⟩

/-- C12 amended, entry before any identity entry. When a regular-file entry
of a table other than sites parses while the peer list is empty, the handler
does not report an error: it returns the empty peer list with a nil error,
whatever `isOnline` and `InsertData` are (nothing is inserted without a peer),
and the archive loop goes on with the next entry. -/
theorem importPeerFromTar_before_identity (env : Env) (header : Header) (tarReader : Reader)
    (tableName : String) (table : Table) (rows : ResultSet) (columns : ColumnList)
    (hname : (FindStringSubmatch header.Name)[1]? = some tableName)
    (htar : importTarFile env tableName tarReader header.Size = ⟨some table, rows, columns, none⟩)
    (hs : table.Name ≠ env.TableSites) :
    importPeerFromTar env [] header tarReader = .ret [] none
    ∧ (∀ (isOnline' : Peer → Bool)
        (InsertData' : DataStore → ResultSet → ColumnList → Except String DataStore),
        importPeerFromTar { env with isOnline := isOnline', InsertData := InsertData' } []
          header tarReader = .ret [] none)
    ∧ (∀ (tarFile : String) (fault : Option String) (rest : List (Header × Reader)),
        header.Typeflag = TypeReg →
        tarLoop env tarFile fault [] ((header, tarReader) :: rest)
          = tarLoop env tarFile fault [] rest) := by
  have key : ∀ env' : Env, table.Name ≠ env'.TableSites →
      importTarFile env' tableName tarReader header.Size = ⟨some table, rows, columns, none⟩ →
      importPeerFromTar env' [] header tarReader = .ret [] none := by
    intro env' hs' htar'
    rw [importPeerFromTar_of_ok env' [] header tarReader tableName table rows columns hname htar',
      siteBlock_other env' _ table _ _ _ _ hs']
    exact insertBlock_no_peer env' table rows columns []
  have h1 := key env hs htar
  refine ⟨h1, ?_, ?_⟩
  · intro isOnline' InsertData'
    apply key { env with isOnline := isOnline', InsertData := InsertData' } hs
    rw [importTarFile_env, htar]
  · intro tarFile fault rest hreg
    have hnd : ¬ (TypeReg = TypeDir) := by decide
    rw [tarLoop_cons]
    simp only [hreg, hnd, if_false, if_true, h1]

set_option maxRecDepth 100000 in
/-- Witness of C12 amended: the sample hosts file handed to the handler with
an empty peer list. -/
theorem importPeerFromTar_before_identity_witness :
    importPeerFromTar sampleEnv [] ⟨"peer1/hosts.json", TypeReg, 20⟩ (fileOf hostsFile)
      = .ret [] none :=
  (importPeerFromTar_before_identity sampleEnv ⟨"peer1/hosts.json", TypeReg, 20⟩
    (fileOf hostsFile) "hosts" hostsTable [[.str "h1", .num 0], [.str "h2", .num 1]]
    hostsTable.Columns (by decide) (by decide) (by decide)).1


/-! ## Entry names and the directory mode -/

/-- C13, evaluation of the code on unrecognized entry names. When the pattern
finds no match, the index expression `matches[1]` of line 120 is evaluated on
the nil slice and panics: for the names `peer1/README` and `sites.json` the
handler ends in a run-time panic for every environment, peer list, reader and
size, and the restore of the sample snapshot that holds `peer1/README` ends in
that panic as well. -/
theorem importPeerFromTar_unrecognized_name :
    (∀ (env : Env) (peers : List Peer) (header : Header) (tarReader : Reader),
        FindStringSubmatch header.Name = [] →
        importPeerFromTar env peers header tarReader = .panic)
    ∧ FindStringSubmatch "peer1/README" = [] ∧ FindStringSubmatch "sites.json" = []
    ∧ (∀ (env : Env) (peers : List Peer) (tarReader : Reader) (size : Nat),
        importPeerFromTar env peers ⟨"peer1/README", TypeReg, size⟩ tarReader = .panic
        ∧ importPeerFromTar env peers ⟨"sites.json", TypeReg, size⟩ tarReader = .panic)
    ∧ initializePeersWithImport sampleEnv sampleFS2 emptyRegistry "readme.tar.gz" = .panic := by
  have h : ∀ (env : Env) (peers : List Peer) (header : Header) (tarReader : Reader),
      FindStringSubmatch header.Name = [] →
      importPeerFromTar env peers header tarReader = .panic := by
    intro env peers header tarReader hm
    unfold importPeerFromTar
    simp [hm]
  have h1 : FindStringSubmatch "peer1/README" = [] := by decide
  have h2 : FindStringSubmatch "sites.json" = [] := by decide
  refine ⟨h, h1, h2, ?_, by decide⟩
  intro env peers tarReader size
  exact ⟨h env peers _ tarReader h1, h env peers _ tarReader h2⟩

/-- C15, evaluation of the code on a directory. `importPeersFromDir` returns a
nil peer list together with a nil error for every folder, so
`initializePeersWithImport` on a directory and an empty registry returns a nil
error, replaces the registry by the empty one and sets `nodeAccessor`. -/
theorem importPeersFromDir_silent_success :
    (∀ (env : Env) (fs : FileSystem) (folder : String),
        importPeersFromDir env fs folder = .ret [] none)
    ∧ (∀ (env : Env) (fs : FileSystem) (reg : Registry) (importFile : String),
        fs.Stat importFile = .ok .dir → reg.PeerMapOrder = [] →
        initializePeersWithImport env fs reg importFile
          = .ret { PeerMap := [], PeerMapOrder := [], nodeAccessor := true } none)
    ∧ initializePeersWithImport sampleEnv sampleFS2 emptyRegistry "snapdir"
        = .ret { PeerMap := [], PeerMapOrder := [], nodeAccessor := true } none := by
  refine ⟨fun _ _ _ => rfl, ?_, by decide⟩
  intro env fs reg importFile hs hl
  rw [initializePeersWithImport_empty env fs reg importFile .dir hs hl]
  simp [dispatchImport, importPeersFromDir, finishPeers]


/-- A run of elements that satisfy the predicate, followed by one that does
not, is what `takeWhile` keeps and `dropWhile` cuts off. -/
theorem takeWhile_dropWhile_run {α : Type} (p : α → Bool) (l : List α) (a : α) (r : List α)
    (hl : ∀ x ∈ l, p x = true) (ha : p a = false) :
    (l ++ a :: r).takeWhile p = l ∧ (l ++ a :: r).dropWhile p = a :: r := by
  induction l with
  | nil => simp [List.takeWhile_cons, List.dropWhile_cons, ha]
  | cons x l ih =>
    have hx := hl x (List.mem_cons_self _ _)
    have ih' := ih (fun y hy => hl y (List.mem_cons_of_mem _ hy))
    simp [List.takeWhile_cons, List.dropWhile_cons, hx, ih'.1, ih'.2]

/-- The pattern matches a name made of any text, a slash, a non-empty run of
letters `a`..`z` and `.json`; the group is the run of letters. -/
theorem FindStringSubmatch_of_convention (dir : String) (letters : List Char)
    (hne : letters ≠ []) (hlow : ∀ c ∈ letters, isLowerAZ c = true) :
    FindStringSubmatch (dir ++ "/" ++ String.mk letters ++ ".json")
      = ["/" ++ String.mk letters ++ ".json", String.mk letters] := by
  have hcs : (dir ++ "/" ++ String.mk letters ++ ".json").toList
      = (dir.data ++ '/' :: letters) ++ ".json".toList := by
    simp [String.toList, String.data_append]
  have hslash : isLowerAZ '/' = false := by decide
  unfold FindStringSubmatch
  simp only [hcs]
  have hlen : ((dir.data ++ '/' :: letters) ++ ".json".toList).length - ".json".toList.length
      = (dir.data ++ '/' :: letters).length := by
    simp only [List.length_append, List.length_cons, String.toList]
    have : ".json".data.length = 5 := rfl
    omega
  rw [hlen, List.drop_left, List.take_left]
  simp only [if_true]
  have hrev : (dir.data ++ '/' :: letters).reverse = letters.reverse ++ '/' :: dir.data.reverse := by
    simp
  have hrun := takeWhile_dropWhile_run isLowerAZ letters.reverse '/' dir.data.reverse
    (fun x hx => hlow x (List.mem_reverse.mp hx)) hslash
  rw [hrev, hrun.1, hrun.2]
  simp only [List.reverse_reverse, ne_eq, hne, not_false_eq_true, and_self, if_true]
  have hw : (String.mk ('/' :: letters ++ ".json".toList))
      = "/" ++ String.mk letters ++ ".json" := by
    apply String.ext
    simp [String.data_append, String.toList]
  rw [hw]

/-- The pattern matches no other names: a name with a match is some text, a
slash, a non-empty run of letters `a`..`z` and `.json`. -/
theorem FindStringSubmatch_convention_of_match (name : String)
    (h : FindStringSubmatch name ≠ []) :
    ∃ (dir : String) (letters : List Char), letters ≠ [] ∧ (∀ c ∈ letters, isLowerAZ c = true)
      ∧ name = dir ++ "/" ++ String.mk letters ++ ".json" := by
  unfold FindStringSubmatch at h
  simp only at h
  by_cases hsuf : name.toList.drop (name.toList.length - ".json".toList.length) = ".json".toList
  · simp only [hsuf, if_true] at h
    have hsplit := List.take_append_drop (name.toList.length - ".json".toList.length)
      name.toList
    rw [hsuf] at hsplit
    have hstem := List.takeWhile_append_dropWhile isLowerAZ
      ((name.toList.take (name.toList.length - ".json".toList.length)).reverse)
    have hmem : ∀ x ∈ ((name.toList.take (name.toList.length - ".json".toList.length)).reverse).takeWhile
        isLowerAZ, isLowerAZ x = true := fun x hx => List.mem_takeWhile_imp hx
    generalize ((name.toList.take (name.toList.length - ".json".toList.length)).reverse).takeWhile
      isLowerAZ = T at h hstem hmem
    generalize ((name.toList.take (name.toList.length - ".json".toList.length)).reverse).dropWhile
      isLowerAZ = D at h hstem
    have hstem' := congrArg List.reverse hstem
    simp only [List.reverse_append, List.reverse_reverse] at hstem'
    rw [← hstem'] at hsplit
    cases D with
    | nil => simp at h
    | cons c rest =>
      simp only at h
      by_cases hc : c = '/' ∧ T.reverse ≠ []
      · refine ⟨String.mk rest.reverse, T.reverse, hc.2, ?_, ?_⟩
        · intro x hx
          exact hmem x (List.mem_reverse.mp hx)
        · apply String.ext
          simp only [String.data_append]
          rw [show name.data = name.toList from rfl, ← hsplit, hc.1]
          simp only [List.reverse_cons, List.append_assoc, List.singleton_append, String.toList]
      · simp only [hc, if_false] at h
        exact absurd rfl h
  · simp only [hsuf, if_false] at h
    exact absurd rfl h

/-- C14 as stated fails: the names `peer1/HOSTS.json` and `peer1/Hosts.JSON`
end in `<tablename>.json` under case-insensitive comparison and the sample
table `hosts` matches both table names ignoring case, but the pattern finds no
match in them, so no table name is extracted. -/
theorem importPeerFromTar_naming_counterexample :
    sampleEnv.EqualFold hostsTable.Name "HOSTS" = true
    ∧ sampleEnv.EqualFold hostsTable.Name "Hosts" = true
    ∧ (FindStringSubmatch "peer1/HOSTS.json")[1]? = none
    ∧ (FindStringSubmatch "peer1/Hosts.JSON")[1]? = none
    ∧ (FindStringSubmatch "peer1/hosts.json")[1]? = some "hosts" := by
  refine ⟨by decide, by decide, by decide, by decide, by decide⟩

/-- C14 amended, entry naming convention. For an entry name made of any text,
a slash, a non-empty run of lower-case letters `a`..`z` and the suffix
`.json`, `importPeerFromTar` extracts the run of letters as the table name
and `importTarFile` resolves it to the last table of `Objects.Tables` whose
name equals it ignoring case. The pattern matches no other names. -/
theorem importPeerFromTar_naming (dir : String) (letters : List Char)
    (hne : letters ≠ []) (hlow : ∀ c ∈ letters, isLowerAZ c = true) :
    (FindStringSubmatch (dir ++ "/" ++ String.mk letters ++ ".json"))[1]?
        = some (String.mk letters)
    ∧ (∀ (env : Env) (tarReader : Reader) (size : Nat),
        (importTarFile env (String.mk letters) tarReader size).table
          = (env.Tables.filter (fun t => env.EqualFold t.Name (String.mk letters))).getLast?)
    ∧ (∀ (env : Env) (peers : List Peer) (typeflag : Char) (size : Nat) (tarReader : Reader)
        (e : String), (importTarFile env (String.mk letters) tarReader size).err = some e →
        importPeerFromTar env peers ⟨dir ++ "/" ++ String.mk letters ++ ".json", typeflag, size⟩
          tarReader = .ret peers (some ("import error: " ++ e)))
    ∧ (∀ (env : Env) (peers : List Peer) (typeflag : Char) (size : Nat) (tarReader : Reader)
        (table : Table) (rows : ResultSet) (columns : ColumnList),
        importTarFile env (String.mk letters) tarReader size
          = ⟨some table, rows, columns, none⟩ →
        importPeerFromTar env peers ⟨dir ++ "/" ++ String.mk letters ++ ".json", typeflag, size⟩
            tarReader
          = match siteBlock env (dir ++ "/" ++ String.mk letters ++ ".json") table rows
              (mkColIndex columns) peers peers.getLast? with
            | .error res => res
            | .ok (peers, p) => insertBlock env table rows columns peers p)
    ∧ (∀ name : String, FindStringSubmatch name ≠ [] →
        ∃ (dir' : String) (letters' : List Char), letters' ≠ []
          ∧ (∀ c ∈ letters', isLowerAZ c = true)
          ∧ name = dir' ++ "/" ++ String.mk letters' ++ ".json") := by
  have hm : (FindStringSubmatch (dir ++ "/" ++ String.mk letters ++ ".json"))[1]?
      = some (String.mk letters) := by
    rw [FindStringSubmatch_of_convention dir letters hne hlow]
    rfl
  refine ⟨hm, ?_, ?_, ?_, FindStringSubmatch_convention_of_match⟩
  · intro env tarReader size
    rw [importTarFile_table, findTable_eq]
  · intro env peers typeflag size tarReader e herr
    exact importPeerFromTar_of_err env peers _ tarReader (String.mk letters) e hm herr
  · intro env peers typeflag size tarReader table rows columns htar
    exact importPeerFromTar_of_ok env peers _ tarReader (String.mk letters) table rows columns
      hm htar

set_option maxRecDepth 100000 in
/-- Witness of C14 amended: the name `peer1/hosts.json`. -/
theorem importPeerFromTar_naming_witness :
    (FindStringSubmatch ("peer1" ++ "/" ++ String.mk ['h', 'o', 's', 't', 's'] ++ ".json"))[1]?
        = some "hosts"
    ∧ (importTarFile sampleEnv "hosts" (fileOf hostsFile) 20).table = some hostsTable :=
  have h := importPeerFromTar_naming "peer1" ['h', 'o', 's', 't', 's'] (by decide) (by decide)
  ⟨h.1, (h.2.1 sampleEnv (fileOf hostsFile) 20).trans (by decide)⟩


/-! ## Two entries of the same table for one peer -/

/-- C16, create or reuse. For an online peer and a non-virtual table, the
first regular-file entry of the table creates the table's DataStore and
records it; when a second entry of the same table is processed for the peer
while that store is still recorded, `NewDataStore` gives that store again, the
insertion goes into it, and the store recorded under the table's name
afterwards holds the rows of the first entry followed by the rows of the
second, in file order. `InsertData` is taken to append the rows to the store,
as section 4.5 has it. -/
theorem importPeerFromTar_twice (env : Env) (pre pre2 : List Peer) (p q : Peer)
    (d dq : DataStoreSet) (header1 header2 : Header) (tarReader1 tarReader2 : Reader)
    (tableName : String) (table : Table) (rows1 rows2 : ResultSet)
    (columns1 columns2 : ColumnList) (store1 store2 : DataStore)
    (hname1 : (FindStringSubmatch header1.Name)[1]? = some tableName)
    (hname2 : (FindStringSubmatch header2.Name)[1]? = some tableName)
    (htar1 : importTarFile env tableName tarReader1 header1.Size
      = ⟨some table, rows1, columns1, none⟩)
    (htar2 : importTarFile env tableName tarReader2 header2.Size
      = ⟨some table, rows2, columns2, none⟩)
    (hvirt : table.Virtual = false) (hsv : sitesVirtual env = true)
    (hd : p.data = some d) (hfresh : mapGet d.tables table.Name = none)
    (hon : env.isOnline p = true)
    (hins1 : env.InsertData (NewDataStore table p) rows1 columns1 = .ok store1)
    (happ1 : store1.Data = (NewDataStore table p).Data ++ rows1)
    (hq : q.data = some dq) (hkept : mapGet dq.tables table.Name = some store1)
    (honq : env.isOnline q = true)
    (hins2 : env.InsertData store1 rows2 columns2 = .ok store2)
    (happ2 : store2.Data = store1.Data ++ rows2) :
    importPeerFromTar env (pre ++ [p]) header1 tarReader1
        = .ret (pre ++ [{ p with data := some (d.Set table.Name store1) }]) none
    ∧ mapGet (d.Set table.Name store1).tables table.Name = some store1
    ∧ NewDataStore table q = store1
    ∧ importPeerFromTar env (pre2 ++ [q]) header2 tarReader2
        = .ret (pre2 ++ [{ q with data := some (dq.Set table.Name store2) }]) none
    ∧ mapGet (dq.Set table.Name store2).tables table.Name = some store2
    ∧ store2.Data = rows1 ++ rows2 := by
  have hs : table.Name ≠ env.TableSites :=
    ne_sites_of_stored env tableName table hsv
      (findTable_of_importTarFile env tableName tarReader1 header1.Size table rows1 columns1 htar1)
      hvirt
  have hnewq : NewDataStore table q = store1 := by
    simp [NewDataStore, hq, hkept]
  have hnewp : (NewDataStore table p).Data = [] := by
    simp [NewDataStore, hd, hfresh]
  have step : ∀ (ps : List Peer) (x : Peer) (dx : DataStoreSet) (header : Header)
      (tarReader : Reader) (rows : ResultSet) (columns : ColumnList) (store : DataStore),
      (FindStringSubmatch header.Name)[1]? = some tableName →
      importTarFile env tableName tarReader header.Size = ⟨some table, rows, columns, none⟩ →
      x.data = some dx → env.isOnline x = true →
      env.InsertData (NewDataStore table x) rows columns = .ok store →
      importPeerFromTar env (ps ++ [x]) header tarReader
        = .ret (ps ++ [{ x with data := some (dx.Set table.Name store) }]) none := by
    intro ps x dx header tarReader rows columns store hname htar hdx hx hins
    rw [importPeerFromTar_of_ok env _ header tarReader tableName table rows columns hname htar,
      siteBlock_other env _ table _ _ _ _ hs, List.getLast?_concat]
    simp only
    rw [insertBlock_online env table rows columns _ x hvirt hx, hins, hdx]
    simp only [List.dropLast_concat]
  refine ⟨step pre p d header1 tarReader1 rows1 columns1 store1 hname1 htar1 hd hon hins1, ?_,
    hnewq, ?_, ?_, ?_⟩
  · simp [DataStoreSet.Set, mapGet_mapSet]
  · exact step pre2 q dq header2 tarReader2 rows2 columns2 store2 hname2 htar2 hq honq
      (by rw [hnewq]; exact hins2)
  · simp [DataStoreSet.Set, mapGet_mapSet]
  · rw [happ2, happ1, hnewp, List.nil_append]

set_option maxRecDepth 100000 in
/-- Witness of C16: the sample snapshot with two hosts files for the online
peer `A`, the first with the rows `h1`, `h2` and the second with the row `h3`;
the store recorded afterwards holds `h1`, `h2`, `h3`. -/
theorem importPeerFromTar_twice_witness :
    sitesVirtual appendEnv = true
    ∧ importPeersFromTar appendEnv sampleFS2 "twice.tar.gz"
        = .ret [{ peerA with data := some { tables :=
            [("hosts", { hostsStore "A" with
              Data := [[.str "h1", .num 0], [.str "h2", .num 1], [.str "h3", .num 0]] })] } }]
            none
    ∧ ({ hostsStore "A" with
          Data := [[.str "h1", .num 0], [.str "h2", .num 1], [.str "h3", .num 0]] } : DataStore).Data
        = [[.str "h1", .num 0], [.str "h2", .num 1]] ++ [[.str "h3", .num 0]] :=
  ⟨by decide, by decide,
    (importPeerFromTar_twice appendEnv [] [] peerA
      { peerA with data := some { tables := [("hosts", hostsStore "A")] } }
      { tables := [] } { tables := [("hosts", hostsStore "A")] }
      (regEntry "peer1/hosts.json" hostsFile).1 (regEntry "peer1/hosts.json" hostsFile2).1
      (regEntry "peer1/hosts.json" hostsFile).2 (regEntry "peer1/hosts.json" hostsFile2).2
      "hosts" hostsTable [[.str "h1", .num 0], [.str "h2", .num 1]] [[.str "h3", .num 0]]
      hostsTable.Columns hostsTable.Columns (hostsStore "A")
      { hostsStore "A" with
        Data := [[.str "h1", .num 0], [.str "h2", .num 1], [.str "h3", .num 0]] }
      (by decide) (by decide) (by decide) (by decide) rfl (by decide) rfl rfl (by decide) rfl
      rfl rfl rfl (by decide) rfl rfl).2.2.2.2.2⟩

/-! ## Positions read from the site row -/

/-- Every value of the map `colIndex` is a position of the header, or 0. -/
theorem mkColIndex_lt_or_zero (columns : ColumnList) (k : String) :
    mkColIndex columns k < columns.length ∨ mkColIndex columns k = 0 := by
  induction columns using List.reverseRecOn with
  | nil => exact Or.inr rfl
  | append_singleton cols c ih =>
    rw [mkColIndex_concat]
    by_cases hk : k = c.Name
    · simp [hk]
    · simp only [hk, if_false, List.length_append, List.length_singleton]
      rcases ih with h | h
      · exact Or.inl (by omega)
      · exact Or.inr h

/-- A name that is not in the header reads as position 0. -/
theorem mkColIndex_absent (columns : ColumnList) (k : String)
    (h : k ∉ columns.map (fun c => c.Name)) : mkColIndex columns k = 0 := by
  induction columns using List.reverseRecOn with
  | nil => rfl
  | append_singleton cols c ih =>
    simp only [List.map_append, List.map_cons, List.map_nil, List.mem_append,
      List.mem_singleton, not_or] at h
    rw [mkColIndex_concat]
    simp only [h.2, if_false]
    exact ih h.1

/-- A name that is in the header reads as the position of its last occurrence. -/
theorem mkColIndex_last (pre : ColumnList) (c : Column) (post : ColumnList)
    (h : ∀ x ∈ post, x.Name ≠ c.Name) : mkColIndex (pre ++ c :: post) c.Name = pre.length := by
  induction post using List.reverseRecOn with
  | nil =>
    rw [mkColIndex_concat]
    simp
  | append_singleton post x ih =>
    have hx : ¬ c.Name = x.Name := fun e => h x (by simp) e.symm
    have : pre ++ c :: (post ++ [x]) = (pre ++ c :: post) ++ [x] := by simp
    rw [this, mkColIndex_concat]
    simp only [hx, if_false]
    exact ih (fun y hy => h y (by simp [hy]))

/-- C19, cell indexing on the site row. For a sites entry with exactly one
data row that has at least one cell and at least as many cells as the header
has columns, every position `colIndex[name]` is within the row, so every cell
access of lines 139-154 is within bounds and the handler does not panic.
Conversely there is a sites entry, the sample sites file whose single data row
has two cells, for which the position of one of the eleven site columns is
beyond the row and the handler panics. -/
theorem importPeerFromTar_site_index_bounds :
    (∀ (env : Env) (peers : List Peer) (header : Header) (tarReader : Reader)
        (tableName : String) (table : Table) (row : List Cell) (columns : ColumnList),
        (FindStringSubmatch header.Name)[1]? = some tableName →
        importTarFile env tableName tarReader header.Size = ⟨some table, [row], columns, none⟩ →
        table.Name = env.TableSites → 0 < row.length → columns.length ≤ row.length →
        (∀ name : String, mkColIndex columns name < row.length)
        ∧ (∃ p, buildSitePeer env row (mkColIndex columns) = some p)
        ∧ importPeerFromTar env peers header tarReader ≠ .panic)
    ∧ (∃ (row : List Cell) (columns : ColumnList) (name : String),
        importTarFile sampleEnv "sites" (regEntry "peer1/sites.json" sitesShortRow).2
            (regEntry "peer1/sites.json" sitesShortRow).1.Size
          = ⟨some sitesTable, [row], columns, none⟩
        ∧ name ∈ siteColumnNames ∧ row.length ≤ mkColIndex columns name
        ∧ importPeerFromTar sampleEnv [] (regEntry "peer1/sites.json" sitesShortRow).1
            (regEntry "peer1/sites.json" sitesShortRow).2 = .panic) := by
  constructor
  · intro env peers header tarReader tableName table row columns hname htar hsites hpos hlen
    have hb : ∀ name : String, mkColIndex columns name < row.length := by
      intro name
      rcases mkColIndex_lt_or_zero columns name with h | h
      · omega
      · omega
    have hcell : ∀ name : String, ∃ c, row[mkColIndex columns name]? = some c := fun name =>
      ⟨_, List.getElem?_eq_getElem (hb name)⟩
    obtain ⟨c1, h1⟩ := hcell "peer_name"
    obtain ⟨c2, h2⟩ := hcell "peer_key"
    obtain ⟨c3, h3⟩ := hcell "addr"
    obtain ⟨c4, h4⟩ := hcell "section"
    obtain ⟨c5, h5⟩ := hcell "flags"
    obtain ⟨c6, h6⟩ := hcell "status"
    obtain ⟨c7, h7⟩ := hcell "last_update"
    obtain ⟨c8, h8⟩ := hcell "last_error"
    obtain ⟨c9, h9⟩ := hcell "last_online"
    obtain ⟨c10, h10⟩ := hcell "queries"
    obtain ⟨c11, h11⟩ := hcell "response_time"
    have hbuild := buildSitePeer_of_cells env row (mkColIndex columns) c1 c2 c3 c4 c5 c6 c7 c8 c9
      c10 c11 h1 h2 h3 h4 h5 h6 h7 h8 h9 h10 h11
    refine ⟨hb, ⟨_, hbuild⟩, ?_⟩
    rw [importPeerFromTar_of_ok env peers header tarReader tableName table _ _ hname htar,
      siteBlock_one_row env _ table row _ peers _ hsites, hbuild]
    simp only
    obtain ⟨p, err, hres, -⟩ := insertBlock_after_site env table [row] columns peers _
      { tables := [] } (buildSitePeer_data env row _ _ hbuild)
    rw [hres]
    simp
  · refine ⟨[.str "A", .str "k1"], sitesTable.Columns, "addr", ?_, ?_, ?_, ?_⟩
    · decide
    · decide
    · decide
    · decide

set_option maxRecDepth 100000 in
/-- Witness of C19: the site row of the sample sites file `sitesA`, eleven
cells for eleven columns. -/
theorem importPeerFromTar_site_index_bounds_witness :
    importPeerFromTar sampleEnv [] (regEntry "peer1/sites.json" sitesA).1
      (regEntry "peer1/sites.json" sitesA).2 ≠ .panic :=
  (importPeerFromTar_site_index_bounds.1 sampleEnv [] (regEntry "peer1/sites.json" sitesA).1
    (regEntry "peer1/sites.json" sitesA).2 "sites" sitesTable
    [.str "A", .str "k1", .str "host:6557", .str "sec", .strs ["f1", "f2"], .num 0, .num 100,
      .str "none", .num 90, .num 7, .num 3]
    sitesTable.Columns (by decide) (by decide) rfl (by decide) (by decide)).2.2


set_option maxRecDepth 100000 in
/-- C20 as stated fails: the sample sites file `sitesNoSectionShort` has a
header without the column `section` and exactly one data row, which is not
empty (it is the single cell `A`), but the position of the column `peer_key`
is beyond the row: the handler panics and no field is decoded from the first
cell. -/
theorem importPeerFromTar_absent_site_columns_counterexample :
    importTarFile sampleEnv "sites" (regEntry "peer1/sites.json" sitesNoSectionShort).2
        (regEntry "peer1/sites.json" sitesNoSectionShort).1.Size
      = ⟨some sitesTable, [[.str "A"]],
          sitesTable.Columns.filter (fun c => c.Name != "section"), none⟩
    ∧ "section" ∉ (sitesTable.Columns.filter (fun c => c.Name != "section")).map (fun c => c.Name)
    ∧ importPeerFromTar sampleEnv [] (regEntry "peer1/sites.json" sitesNoSectionShort).1
        (regEntry "peer1/sites.json" sitesNoSectionShort).2 = .panic := by
  refine ⟨by decide, by decide, by decide⟩

/-- C20 amended, absent site columns. For a sites entry with exactly one data
row that is not empty, the position read for a name that the header does not
contain is 0, so the access is within the row and raises no error; for a name
that the header contains more than once, the position of its last occurrence
is used; and when the row has a cell at the position of every one of the
eleven site columns that the header does contain, the handler appends a new
peer in which the field of every one of the eleven names that the header does
not contain is decoded from the first cell of the row. -/
theorem importPeerFromTar_absent_site_columns (env : Env) (peers : List Peer) (header : Header)
    (tarReader : Reader) (tableName : String) (table : Table) (c0 : Cell) (rest : List Cell)
    (columns : ColumnList)
    (hname : (FindStringSubmatch header.Name)[1]? = some tableName)
    (htar : importTarFile env tableName tarReader header.Size
      = ⟨some table, [c0 :: rest], columns, none⟩)
    (hsites : table.Name = env.TableSites) :
    (∀ n : String, n ∉ columns.map (fun c => c.Name) →
        mkColIndex columns n = 0 ∧ (c0 :: rest)[mkColIndex columns n]? = some c0)
    ∧ (∀ (pre : ColumnList) (c : Column) (post : ColumnList), columns = pre ++ c :: post →
        (∀ x ∈ post, x.Name ≠ c.Name) → mkColIndex columns c.Name = pre.length)
    ∧ ((∀ n ∈ siteColumnNames, n ∈ columns.map (fun c => c.Name) →
          mkColIndex columns n < (c0 :: rest).length) →
        ∃ p err, importPeerFromTar env peers header tarReader = .ret (peers ++ [p]) err
          ∧ ("peer_name" ∉ columns.map (fun c => c.Name) →
              p.Config.Name = env.interface2stringNoDedup c0)
          ∧ ("peer_key" ∉ columns.map (fun c => c.Name) →
              p.Config.ID = env.interface2stringNoDedup c0)
          ∧ ("addr" ∉ columns.map (fun c => c.Name) →
              p.Config.Source = [env.interface2stringNoDedup c0])
          ∧ ("section" ∉ columns.map (fun c => c.Name) →
              p.Config.Section = env.interface2stringNoDedup c0)
          ∧ ("flags" ∉ columns.map (fun c => c.Name) →
              p.Config.Flags = env.interface2stringlist c0)
          ∧ ("status" ∉ columns.map (fun c => c.Name) →
              statusGet p.Status .PeerState
                = some (.peerStatus (env.PeerStatus (env.interface2int c0))))
          ∧ ("last_update" ∉ columns.map (fun c => c.Name) →
              statusGet p.Status .LastUpdate = some (.int64 (env.interface2int64 c0)))
          ∧ ("last_error" ∉ columns.map (fun c => c.Name) →
              statusGet p.Status .LastError = some (.string (env.interface2stringNoDedup c0)))
          ∧ ("last_online" ∉ columns.map (fun c => c.Name) →
              statusGet p.Status .LastOnline = some (.int64 (env.interface2int64 c0)))
          ∧ ("queries" ∉ columns.map (fun c => c.Name) →
              statusGet p.Status .Queries = some (.int64 (env.interface2int64 c0)))
          ∧ ("response_time" ∉ columns.map (fun c => c.Name) →
              statusGet p.Status .ResponseTime
                = some (.float64 (env.interface2float64 c0)))) := by
  have habs : ∀ n : String, n ∉ columns.map (fun c => c.Name) →
      mkColIndex columns n = 0 ∧ (c0 :: rest)[mkColIndex columns n]? = some c0 := by
    intro n hn
    have h0 := mkColIndex_absent columns n hn
    exact ⟨h0, by rw [h0]; simp⟩
  refine ⟨habs, ?_, ?_⟩
  · intro pre c post hcols hpost
    rw [hcols]
    exact mkColIndex_last pre c post hpost
  · intro hpresent
    have hex : ∀ n ∈ siteColumnNames, ∃ c, (c0 :: rest)[mkColIndex columns n]? = some c := by
      intro n hn
      by_cases hm : n ∈ columns.map (fun c => c.Name)
      · exact ⟨_, List.getElem?_eq_getElem (hpresent n hn hm)⟩
      · exact ⟨c0, (habs n hm).2⟩
    obtain ⟨c1, h1⟩ := hex "peer_name" (by decide)
    obtain ⟨c2, h2⟩ := hex "peer_key" (by decide)
    obtain ⟨c3, h3⟩ := hex "addr" (by decide)
    obtain ⟨c4, h4⟩ := hex "section" (by decide)
    obtain ⟨c5, h5⟩ := hex "flags" (by decide)
    obtain ⟨c6, h6⟩ := hex "status" (by decide)
    obtain ⟨c7, h7⟩ := hex "last_update" (by decide)
    obtain ⟨c8, h8⟩ := hex "last_error" (by decide)
    obtain ⟨c9, h9⟩ := hex "last_online" (by decide)
    obtain ⟨c10, h10⟩ := hex "queries" (by decide)
    obtain ⟨c11, h11⟩ := hex "response_time" (by decide)
    have hb := buildSitePeer_of_cells env (c0 :: rest) (mkColIndex columns) c1 c2 c3 c4 c5 c6 c7
      c8 c9 c10 c11 h1 h2 h3 h4 h5 h6 h7 h8 h9 h10 h11
    obtain ⟨p0, hb0, hp0⟩ : ∃ p0, buildSitePeer env (c0 :: rest) (mkColIndex columns) = some p0
        ∧ p0 = { Name := env.interface2stringNoDedup c1
                 ID := env.interface2stringNoDedup c2
                 Config :=
                   { Name := env.interface2stringNoDedup c1
                     ID := env.interface2stringNoDedup c2
                     Source := [env.interface2stringNoDedup c3]
                     Section := env.interface2stringNoDedup c4
                     Flags := env.interface2stringlist c5 }
                 Status :=
                   [(.PeerState, .peerStatus (env.PeerStatus (env.interface2int c6))),
                    (.LastUpdate, .int64 (env.interface2int64 c7)),
                    (.LastError, .string (env.interface2stringNoDedup c8)),
                    (.LastOnline, .int64 (env.interface2int64 c9)),
                    (.Queries, .int64 (env.interface2int64 c10)),
                    (.ResponseTime, .float64 (env.interface2float64 c11))]
                 data := some { tables := [] } } := ⟨_, hb, rfl⟩
    obtain ⟨p, err, hres, hc, hst, -, -⟩ := insertBlock_after_site env table [c0 :: rest]
      columns peers p0 { tables := [] } (buildSitePeer_data env _ _ p0 hb0)
    have hcell : ∀ (n : String) (c : Cell), (c0 :: rest)[mkColIndex columns n]? = some c →
        n ∉ columns.map (fun c => c.Name) → c = c0 := by
      intro n c hcn hn
      rw [(habs n hn).2] at hcn
      exact (Option.some.inj hcn).symm
    refine ⟨p, err, ?_, ?_, ?_, ?_, ?_, ?_, ?_, ?_, ?_, ?_, ?_, ?_⟩
    · rw [importPeerFromTar_of_ok env peers header tarReader tableName table _ _ hname htar,
        siteBlock_one_row env _ table _ _ peers _ hsites, hb0]
      exact hres
    · intro hn; rw [hc, hp0, hcell _ _ h1 hn]
    · intro hn; rw [hc, hp0, hcell _ _ h2 hn]
    · intro hn; rw [hc, hp0, hcell _ _ h3 hn]
    · intro hn; rw [hc, hp0, hcell _ _ h4 hn]
    · intro hn; rw [hc, hp0, hcell _ _ h5 hn]
    · intro hn; rw [hst, hp0, hcell _ _ h6 hn]; simp [statusGet]
    · intro hn; rw [hst, hp0, hcell _ _ h7 hn]; simp [statusGet]
    · intro hn; rw [hst, hp0, hcell _ _ h8 hn]; simp [statusGet]
    · intro hn; rw [hst, hp0, hcell _ _ h9 hn]; simp [statusGet]
    · intro hn; rw [hst, hp0, hcell _ _ h10 hn]; simp [statusGet]
    · intro hn; rw [hst, hp0, hcell _ _ h11 hn]; simp [statusGet]

set_option maxRecDepth 100000 in
/-- Witness of C20 amended: the sample sites file without a column `section`
and with a cell for every column it has; the position read for `section` is 0
and the section of the peer is decoded from the first cell, the peer name `A`. -/
theorem importPeerFromTar_absent_site_columns_witness :
    importPeerFromTar sampleEnv [] (regEntry "peer1/sites.json" sitesNoSection).1
        (regEntry "peer1/sites.json" sitesNoSection).2
      = .ret [{ peerA with Config := { peerA.Config with Section := "A" } }] none
    ∧ mkColIndex (sitesTable.Columns.filter (fun c => c.Name != "section")) "section" = 0
    ∧ ∃ p err, importPeerFromTar sampleEnv [] (regEntry "peer1/sites.json" sitesNoSection).1
        (regEntry "peer1/sites.json" sitesNoSection).2 = .ret ([] ++ [p]) err
        ∧ p.Config.Section = "A" :=
  have h := importPeerFromTar_absent_site_columns sampleEnv []
    (regEntry "peer1/sites.json" sitesNoSection).1 (regEntry "peer1/sites.json" sitesNoSection).2
    "sites" sitesTable (.str "A")
    [.str "k1", .str "host:6557", .strs ["f1", "f2"], .num 0, .num 100, .str "none", .num 90,
      .num 7, .num 3]
    (sitesTable.Columns.filter (fun c => c.Name != "section")) (by decide) (by decide) rfl
  ⟨by decide, (h.1 "section" (by decide)).1,
    (h.2.2 (by decide)).elim fun p hp => hp.elim fun err he =>
      ⟨p, err, he.1, he.2.2.2.2.1 (by decide)⟩⟩

end Lmd
